import Mathlib

/-!
Verification of the Fractured Crowns simulation core.

This file gives a shallow embedding, in Lean 4, of the parts of the game
server that the specification's claims talk about: the shared constants and
data model (`types/game.ts`), the spatial hash grid (`SpatialHash.ts`), the
A* pathfinder (`MapGenerator.ts`), and the match engine's command handlers
and tick-pipeline steps (`Match.ts`).  JavaScript numbers are modelled as
rationals (`ℚ`) except where a real-valued power is involved (the economy's
diminishing-returns multiplier uses `Math.pow` with exponent 1.2, modelled
with `Real.rpow`).  JavaScript `Map`s are modelled as association lists with
insertion-order semantics, string tile keys `"x,y"` as integer pairs (the
key constructor `tileKey` is injective on coordinates, so the pair carries
exactly the same information), and `uuid` generation as explicit fresh-name
parameters.  Each definition mirrors one source function and is named after
it; theorems at the end of the file settle the specification claims.
-/

namespace FC

/-! ## Shared type definitions (`types/game.ts`) -/

/-- `TerrainType` enum. -/
inductive TerrainType where
  | plains
  | forest
  | mountain
  | mine
  | water
deriving DecidableEq, Repr

/-- `StructureType` enum. -/
inductive StructureType where
  | castle
  | barracks
  | wall
  | tower
  | mineUpgrade
  | road
deriving DecidableEq, Repr

/-- `UnitType` enum. -/
inductive UnitType where
  | militia
  | soldier
  | knight
  | archer
  | siegeRam
deriving DecidableEq, Repr

/-- `MatchPhase` enum. -/
inductive MatchPhase where
  | waiting
  | spawnSelection
  | playing
  | finished
deriving DecidableEq, Repr

/-- `UnitStats` record. -/
structure UnitStats where
  maxHp : ℚ
  damage : ℚ
  speed : ℚ
  cost : ℚ
  range : ℚ
  trainTime : ℚ
deriving DecidableEq, Repr

/-- The `UNIT_STATS` table. -/
def UNIT_STATS : UnitType → UnitStats
  | .militia => ⟨40, 5, 5/2, 20, 1, 3⟩
  | .soldier => ⟨70, 10, 2, 50, 1, 5⟩
  | .knight => ⟨120, 18, 3, 120, 1, 8⟩
  | .archer => ⟨35, 12, 2, 60, 4, 5⟩
  | .siegeRam => ⟨200, 40, 1, 200, 1, 12⟩

/-- `BuildingCost` record. -/
structure BuildingCost where
  gold : ℚ
  buildTime : ℚ
deriving DecidableEq, Repr

/-- The `BUILDING_COSTS` table. -/
def BUILDING_COSTS : StructureType → BuildingCost
  | .castle => ⟨0, 0⟩
  | .barracks => ⟨150, 8⟩
  | .wall => ⟨40, 3⟩
  | .tower => ⟨100, 6⟩
  | .mineUpgrade => ⟨200, 10⟩
  | .road => ⟨15, 1⟩

/-- The `BUILDING_HP` table. -/
def BUILDING_HP : StructureType → ℚ
  | .castle => 500
  | .barracks => 200
  | .wall => 300
  | .tower => 150
  | .mineUpgrade => 100
  | .road => 30

/-- `TOWER_STATS.damage`. -/
def TOWER_STATS_damage : ℚ := 15

/-- `TOWER_STATS.range`. -/
def TOWER_STATS_range : ℚ := 3

/-- `TOWER_STATS.fireRate` (shots per second). -/
def TOWER_STATS_fireRate : ℚ := 1

/-- `ECONOMY.BASE_MINE_INCOME`. -/
def BASE_MINE_INCOME : ℚ := 10

/-- `ECONOMY.MINE_UPGRADE_BONUS`. -/
def MINE_UPGRADE_BONUS : ℚ := 5

/-- `ECONOMY.PASSIVE_TERRITORY_INCOME`. -/
def PASSIVE_TERRITORY_INCOME : ℚ := 1/5

/-- `ECONOMY.STARTING_GOLD`. -/
def STARTING_GOLD : ℚ := 300

/-- `ECONOMY.EXPANSION_PENALTY_DIVISOR` (real-valued because it feeds
`Math.pow` with a fractional exponent, modelled with `Real.rpow`). -/
noncomputable def EXPANSION_PENALTY_DIVISOR : ℝ := 50

/-- `ECONOMY.EXPANSION_PENALTY_EXPONENT` (the literal `1.2`). -/
noncomputable def EXPANSION_PENALTY_EXPONENT : ℝ := 6/5

/-- `MATCH_CONFIG.MAX_PLAYERS`. -/
def MAX_PLAYERS : ℕ := 20

/-- `MATCH_CONFIG.TICK_RATE` (ticks per second). -/
def TICK_RATE : ℚ := 15

/-- `MATCH_CONFIG.CAPTURE_RATE` (capture progress per second per unit). -/
def CAPTURE_RATE : ℚ := 8

/-- `MATCH_CONFIG.CAPTURE_THRESHOLD`. -/
def CAPTURE_THRESHOLD : ℚ := 100

/-- `SPATIAL_HASH_CELL_SIZE`. -/
def SPATIAL_HASH_CELL_SIZE : ℚ := 8

/-- JavaScript `Math.round`: round half toward positive infinity. -/
def jsRound (q : ℚ) : ℤ := ⌊q + 1/2⌋

/-- The `clamp` utility from `types/game.ts`. -/
def clamp (value lo hi : ℚ) : ℚ := max lo (min hi value)

/-- The `distanceSq` utility from `types/game.ts`. -/
def distanceSq (x1 y1 x2 y2 : ℚ) : ℚ := (x1 - x2) * (x1 - x2) + (y1 - y2) * (y1 - y2)

/-- A `Tile` of the game map (grid coordinates are carried by the map index,
so the redundant `x`/`y` fields of the source record are not repeated here). -/
structure Tile where
  terrain : TerrainType
  ownerId : Option String
  structureType : Option StructureType
  structureHp : ℚ
  captureProgress : ℚ
  capturingPlayerId : Option String
  connected : Bool
  mineLevel : ℕ
deriving DecidableEq, Repr

/-- A `Unit` of a squad. -/
structure Unit where
  id : String
  type : UnitType
  hp : ℚ
  maxHp : ℚ
deriving DecidableEq, Repr

/-- A `Squad`. -/
structure Squad where
  id : String
  ownerId : String
  units : List Unit
  x : ℚ
  y : ℚ
  targetX : Option ℤ
  targetY : Option ℤ
  path : List (ℤ × ℤ)
  pathIndex : ℕ
  moveProgress : ℚ
deriving DecidableEq, Repr

/-- A `Player` roster entry. -/
structure Player where
  id : String
  username : String
  isBot : Bool
  gold : ℚ
  goldPerSecond : ℚ
  territoryCount : ℕ
  capitalX : ℤ
  capitalY : ℤ
  color : String
  alive : Bool
  score : ℚ
  connected : Bool
  spawnSelected : Bool
deriving DecidableEq, Repr

/-- A `TrainingOrder` queue entry. -/
structure TrainingOrder where
  unitType : UnitType
  remainingTime : ℚ
  buildingX : ℤ
  buildingY : ℤ
deriving DecidableEq, Repr

/-- A `RallyPoint` (stored unrounded, as in `handleRallyPoint`). -/
structure RallyPoint where
  x : ℚ
  y : ℚ
deriving DecidableEq, Repr

end FC

open FC

/-! ## Association lists: the model of JavaScript `Map`

JavaScript `Map` preserves insertion order, `set` on an existing key updates
in place, and `delete` removes the entry.  An association list with the
operations below has exactly these semantics when keys are unique. -/

/-- `Map.get`. -/
def alGet {κ α : Type} [DecidableEq κ] (l : List (κ × α)) (k : κ) : Option α :=
  (l.find? (fun p => decide (p.1 = k))).map Prod.snd

/-- `Map.set`: update the first entry with the key in place, else append. -/
def alSet {κ α : Type} [DecidableEq κ] (l : List (κ × α)) (k : κ) (v : α) :
    List (κ × α) :=
  match l with
  | [] => [(k, v)]
  | p :: rest => if p.1 = k then (k, v) :: rest else p :: alSet rest k v

/-- `Map.delete`: remove the first entry with the key. -/
def alDelete {κ α : Type} [DecidableEq κ] (l : List (κ × α)) (k : κ) :
    List (κ × α) :=
  match l with
  | [] => []
  | p :: rest => if p.1 = k then rest else p :: alDelete rest k

/-! ## Spatial hash grid (`SpatialHash.ts`) -/

/-- A `SpatialEntry`. -/
structure SpatialEntry where
  id : String
  x : ℚ
  y : ℚ
  ownerId : String
deriving DecidableEq, Repr

/-- A cell key: the pair behind the string `"cx,cy"`. -/
abbrev CellKey := ℤ × ℤ

/-- The `SpatialHash` state: the `cells` map and the `entityCells` map. -/
structure SpatialHash where
  cellSize : ℚ
  cells : List (CellKey × List SpatialEntry)
  entityCells : List (String × CellKey)
deriving DecidableEq, Repr

/-- The state of a freshly constructed `SpatialHash` (also the state after
`clear()`). -/
def SpatialHash.init (cellSize : ℚ) : SpatialHash := ⟨cellSize, [], []⟩

/-- `SpatialHash.clear`. -/
def SpatialHash.clear (h : SpatialHash) : SpatialHash :=
  { h with cells := [], entityCells := [] }

/-- `getCellKey`: `Math.floor(x / cellSize)` paired with the same for `y`. -/
def getCellKey (cellSize x y : ℚ) : CellKey := (⌊x / cellSize⌋, ⌊y / cellSize⌋)

/-- The array mutation `cell[idx] = cell[cell.length - 1]; cell.pop()`. -/
def swapPop {α : Type} (l : List α) (i : ℕ) : List α :=
  match l.getLast? with
  | none => l
  | some last => (l.set i last).dropLast

/-- `SpatialHash.removeFromCell` (private helper): swap-pop the entry with
the given id out of the cell's list, deleting the cell when it empties. -/
def SpatialHash.removeFromCell (h : SpatialHash) (id : String) (cellKey : CellKey) :
    SpatialHash :=
  match alGet h.cells cellKey with
  | none => h
  | some cell =>
    let idx := cell.findIdx (fun e => decide (e.id = id))
    let cell' := if idx < cell.length then swapPop cell idx else cell
    if cell'.length = 0 then { h with cells := alDelete h.cells cellKey }
    else { h with cells := alSet h.cells cellKey cell' }

/-- The shared tail of `insertOrUpdate`: push the entry into the (possibly
fresh) cell for `newCellKey` and record the entity's cell. -/
def SpatialHash.pushIntoCell (h : SpatialHash) (entry : SpatialEntry)
    (newCellKey : CellKey) : SpatialHash :=
  { h with
    cells := alSet h.cells newCellKey ((alGet h.cells newCellKey).getD [] ++ [entry]),
    entityCells := alSet h.entityCells entry.id newCellKey }

/-- `SpatialHash.insertOrUpdate`. -/
def SpatialHash.insertOrUpdate (h : SpatialHash) (entry : SpatialEntry) :
    SpatialHash :=
  let newCellKey := getCellKey h.cellSize entry.x entry.y
  match alGet h.entityCells entry.id with
  | some oldCellKey =>
    if oldCellKey = newCellKey then
      match alGet h.cells newCellKey with
      | none => h
      | some cell =>
        let idx := cell.findIdx (fun e => decide (e.id = entry.id))
        let cell' := if idx < cell.length then cell.set idx entry else cell ++ [entry]
        { h with cells := alSet h.cells newCellKey cell' }
    else
      (h.removeFromCell entry.id oldCellKey).pushIntoCell entry newCellKey
  | none => h.pushIntoCell entry newCellKey

/-- `SpatialHash.remove`. -/
def SpatialHash.remove (h : SpatialHash) (id : String) : SpatialHash :=
  match alGet h.entityCells id with
  | none => h
  | some cellKey =>
    let h' := h.removeFromCell id cellKey
    { h' with entityCells := alDelete h'.entityCells id }

/-- `SpatialHash.entityCount` (the getter). -/
def SpatialHash.entityCount (h : SpatialHash) : ℕ := h.entityCells.length

/-- The inclusive integer range `a..b` that a nested `for` loop scans. -/
def intRange (a b : ℤ) : List ℤ := (List.range (b + 1 - a).toNat).map (fun i => a + (i : ℤ))

/-- Insert `a` into an already sorted list, after every element `b` with
`le b a`.  Equal elements therefore keep their original relative order. -/
def insertSorted {α : Type} (le : α → α → Bool) (a : α) : List α → List α
  | [] => [a]
  | b :: rest => if le b a then b :: insertSorted le a rest else a :: b :: rest

/-- Stable sort by a total comparator: the semantics of JavaScript's stable
`Array.sort`.  (A stable sort's output is determined by the comparator, so
insertion sort computes the same list as the engine's sort.) -/
def stableSortBy {α : Type} (le : α → α → Bool) (l : List α) : List α :=
  l.foldl (fun acc x => insertSorted le x acc) []

/-- `SpatialHash.queryRadius`: scan the overlapping cells, keep entries
within the squared radius, and stable-sort by squared distance. -/
def SpatialHash.queryRadius (h : SpatialHash) (x y radius : ℚ) : List SpatialEntry :=
  let radiusSq := radius * radius
  let minCx := ⌊(x - radius) / h.cellSize⌋
  let maxCx := ⌊(x + radius) / h.cellSize⌋
  let minCy := ⌊(y - radius) / h.cellSize⌋
  let maxCy := ⌊(y + radius) / h.cellSize⌋
  let results := (intRange minCy maxCy).flatMap (fun cy =>
    (intRange minCx maxCx).flatMap (fun cx =>
      match alGet h.cells (cx, cy) with
      | none => []
      | some cell =>
        cell.filter (fun e =>
          decide ((e.x - x) * (e.x - x) + (e.y - y) * (e.y - y) ≤ radiusSq))))
  stableSortBy (fun a b =>
    decide ((a.x - x) * (a.x - x) + (a.y - y) * (a.y - y) ≤
      (b.x - x) * (b.x - x) + (b.y - y) * (b.y - y))) results

/-- The body of `findNearestEnemy`'s radius-expansion `while` loop.  The
loop runs `radius = cellSize, 2*cellSize, ...` while `radius <= maxRadius`;
for positive `cellSize` it performs at most `⌈maxRadius / cellSize⌉`
iterations, so the fuel passed by `findNearestEnemy` never runs out. -/
def findNearestEnemyLoop (h : SpatialHash) (x y : ℚ) (ownerId : String)
    (maxRadius : ℚ) : ℚ → ℕ → Option SpatialEntry
  | _, 0 => none
  | radius, fuel + 1 =>
    if radius ≤ maxRadius then
      match (h.queryRadius x y radius).find? (fun e => decide (e.ownerId ≠ ownerId)) with
      | some e => some e
      | none => findNearestEnemyLoop h x y ownerId maxRadius (radius + h.cellSize) fuel
    else none

/-- `SpatialHash.findNearestEnemy`. -/
def SpatialHash.findNearestEnemy (h : SpatialHash) (x y : ℚ) (ownerId : String)
    (maxRadius : ℚ) : Option SpatialEntry :=
  findNearestEnemyLoop h x y ownerId maxRadius h.cellSize (⌈maxRadius / h.cellSize⌉.toNat + 1)

/-- `SpatialHash.findEnemiesInRange`. -/
def SpatialHash.findEnemiesInRange (h : SpatialHash) (x y : ℚ) (ownerId : String)
    (range : ℚ) : List SpatialEntry :=
  (h.queryRadius x y range).filter (fun e => decide (e.ownerId ≠ ownerId))

/-! ## Claim C1: `findNearestEnemy` and tower fire

`Match.updateTowers` asks the spatial hash for the nearest enemy within
`TOWER_STATS.range = 3`, but `findNearestEnemy`'s radius loop starts at
`cellSize = 8` and runs only while `radius <= maxRadius`, so for any
`maxRadius` below the cell size the loop body never executes and the query
returns `null` even when an enemy is arbitrarily close.  Towers therefore
never fire. -/

/-- The failing input: one enemy squad at distance 1 from the query point,
inserted through the hash's own `insertOrUpdate`. -/
def towerHash : SpatialHash :=
  (SpatialHash.init SPATIAL_HASH_CELL_SIZE).insertOrUpdate ⟨"e1", 10, 11, "B"⟩

/-- Claim C1 (code bug): with the deployed cell size (8), `findNearestEnemy`
at the tower range (3) returns `none` for every hash state, every query
point and every owner — in particular on a state whose own
`findEnemiesInRange` at the same range reports an enemy at distance 1.  So
the claim's conclusion (the nearest enemy within the radius is returned, and
an in-range tower fires) fails at this input. -/
theorem C1_findNearestEnemy_tower_range_dead :
    (∀ (h : SpatialHash) (x y : ℚ) (ownerId : String),
      h.cellSize = SPATIAL_HASH_CELL_SIZE →
        h.findNearestEnemy x y ownerId TOWER_STATS_range = none) ∧
    towerHash.findNearestEnemy 10 10 "A" TOWER_STATS_range = none ∧
    towerHash.findEnemiesInRange 10 10 "A" TOWER_STATS_range =
      [⟨"e1", 10, 11, "B"⟩] := by
  refine ⟨?_, by with_unfolding_all decide, by with_unfolding_all decide⟩
  intro h x y ownerId hcs
  have hf : ⌈TOWER_STATS_range / h.cellSize⌉.toNat + 1 = 2 := by
    rw [hcs]; with_unfolding_all decide
  unfold SpatialHash.findNearestEnemy
  rw [hf, hcs]
  simp only [findNearestEnemyLoop]
  rw [if_neg (by with_unfolding_all decide :
    ¬ (SPATIAL_HASH_CELL_SIZE ≤ TOWER_STATS_range))]

/-- Witness for C1: the general part applied at the concrete failing input. -/
theorem C1_findNearestEnemy_tower_range_dead_witness :
    towerHash.findNearestEnemy 10 10 "A" TOWER_STATS_range = none :=
  C1_findNearestEnemy_tower_range_dead.1 towerHash 10 10 "A"
    (by with_unfolding_all rfl)

/-! ## Match engine state (`Match.ts`) -/

/-- `PlayerStats` (internal per-player statistics record). -/
structure PlayerStats where
  territoryCaptured : ℕ
  unitsKilled : ℕ
  unitsLost : ℕ
  goldEarned : ℚ
  eliminationOrder : ℕ
deriving DecidableEq, Repr

/-- The `PLAYER_COLORS` table. -/
def PLAYER_COLORS : List String :=
  ["#e74c3c", "#3498db", "#2ecc71", "#f39c12", "#9b59b6", "#1abc9c", "#e67e22",
   "#e91e63", "#00bcd4", "#8bc34a", "#ff5722", "#673ab7", "#009688", "#ffc107",
   "#795548", "#607d8b", "#cddc39", "#ff9800", "#03a9f4", "#4caf50"]

/-- A `GameEvent` pushed into `tickEvents` (the source tags events with a
type string and a free-form payload; one constructor per tag used by the
engine, with the payload fields spelled out). -/
inductive GameEvent where
  | build (playerId : String) (structureType : StructureType) (x y : ℤ)
  | structureDestroyed (x y : ℤ) (destroyedBy : String)
  | towerFire (x y : ℤ) (targetX targetY : ℚ)
  | playerEliminated (playerId : String) (username : String)
deriving DecidableEq, Repr

/-- The mutable state owned by a `Match`: the map grid (a total function on
integer coordinates together with the bounds, mirroring the `tiles[y][x]`
array), the rosters and the auxiliary maps.  Fields that only drive
wall-clock scheduling (timers, callbacks, the pending-command buffer, bot
memory) are orthogonal to the claims and omitted. -/
structure MatchState where
  phase : MatchPhase
  width : ℤ
  height : ℤ
  tiles : ℤ → ℤ → Tile
  players : List (String × Player)
  playerOrder : List String
  squads : List (String × Squad)
  spatialHash : SpatialHash
  trainingQueues : List ((ℤ × ℤ) × List TrainingOrder)
  rallyPoints : List ((ℤ × ℤ) × RallyPoint)
  towerCooldowns : List ((ℤ × ℤ) × ℕ)
  playerStats : List (String × PlayerStats)
  eliminationCounter : ℕ
  tickEvents : List GameEvent

/-- In-bounds test `0 <= x < width && 0 <= y < height` (the source indexes
`tiles[y][x]` only after an equivalent guard). -/
def MatchState.inBounds (s : MatchState) (x y : ℤ) : Prop :=
  0 ≤ x ∧ x < s.width ∧ 0 ≤ y ∧ y < s.height

instance (s : MatchState) (x y : ℤ) : Decidable (s.inBounds x y) := by
  unfold MatchState.inBounds; infer_instance

/-- Write one tile of the grid. -/
def MatchState.setTile (s : MatchState) (x y : ℤ) (t : Tile) : ℤ → ℤ → Tile :=
  fun x' y' => if x' = x ∧ y' = y then t else s.tiles x' y'

/-- `Match.addPlayer`: reject on a full roster or a duplicate id, else append
the new player with starting gold and the next color. -/
def Match.addPlayer (s : MatchState) (playerId username : String) :
    Bool × MatchState :=
  if MAX_PLAYERS ≤ s.players.length then (false, s)
  else if (alGet s.players playerId).isSome then (false, s)
  else
    let colorIndex := s.players.length
    let player : Player :=
      ⟨playerId, username, false, STARTING_GOLD, 0, 0, -1, -1,
        PLAYER_COLORS.getD (colorIndex % PLAYER_COLORS.length) "", true, 0, true, false⟩
    (true,
      { s with
        players := alSet s.players playerId player,
        playerOrder := s.playerOrder ++ [playerId],
        playerStats := alSet s.playerStats playerId ⟨0, 0, 0, 0, 0⟩ })

/-! ## Claim C7: `addPlayer` outcome reporting -/

/-- An all-plains neutral tile, for building concrete states. -/
def plainTile : Tile := ⟨.plains, none, none, 0, 0, none, false, 0⟩

/-- A minimal match state: empty rosters over a degenerate map. -/
def emptyMatchState : MatchState :=
  ⟨.waiting, 0, 0, fun _ _ => plainTile, [], [], [], SpatialHash.init SPATIAL_HASH_CELL_SIZE,
   [], [], [], [], 0, []⟩

/-- A roster entry for concrete counterexample states. -/
def dummyPlayer (pid : String) : Player :=
  ⟨pid, pid, false, STARTING_GOLD, 0, 0, -1, -1, "", true, 0, true, false⟩

/-- Twenty distinct contestant ids: a full roster. -/
def twentyIds : List String :=
  ["a01", "a02", "a03", "a04", "a05", "a06", "a07", "a08", "a09", "a10",
   "a11", "a12", "a13", "a14", "a15", "a16", "a17", "a18", "a19", "a20"]

/-- A state whose roster is full (`MAX_PLAYERS = 20` contestants). -/
def fullRosterState : MatchState :=
  { emptyMatchState with players := twentyIds.map (fun pid => (pid, dummyPlayer pid)) }

/-- A state with one contestant `"p0"`, far below the roster cap. -/
def dupRosterState : MatchState :=
  { emptyMatchState with players := [("p0", dummyPlayer "p0")] }

/-- Claim C7 counterexample: `addPlayer` rejects a roster-full join and a
duplicate-id join with the identical result value `false`, so its result
does not report which of the two failure outcomes occurred (the claimed
three-way `ok|full|duplicate` distinction does not exist in the code). -/
theorem C7_addPlayer_same_result_for_full_and_duplicate :
    Match.addPlayer fullRosterState "pX" "Name" = (false, fullRosterState) ∧
    Match.addPlayer dupRosterState "p0" "Name" = (false, dupRosterState) ∧
    MAX_PLAYERS ≤ fullRosterState.players.length ∧
    alGet fullRosterState.players "pX" = none ∧
    dupRosterState.players.length < MAX_PLAYERS ∧
    (alGet dupRosterState.players "p0").isSome = true ∧
    (Match.addPlayer fullRosterState "pX" "Name").1 =
      (Match.addPlayer dupRosterState "p0" "Name").1 :=
  ⟨rfl, rfl, by decide, by decide, by decide, by decide, rfl⟩

/-- Claim C7 (amended): `addPlayer` returns a boolean that is `true` exactly
when the roster holds fewer than twenty contestants and the id is not
already present, and any rejection returns `false` (one value for both
failure causes) leaving the whole match state unchanged. -/
theorem C7_addPlayer_ok_iff (s : MatchState) (pid username : String) :
    ((Match.addPlayer s pid username).1 = true ↔
      s.players.length < MAX_PLAYERS ∧ alGet s.players pid = none) ∧
    ((Match.addPlayer s pid username).1 = false →
      (Match.addPlayer s pid username).2 = s) := by
  unfold Match.addPlayer
  by_cases h1 : MAX_PLAYERS ≤ s.players.length
  · rw [if_pos h1]
    exact ⟨⟨fun h => Bool.noConfusion h, fun hc => absurd hc.1 (not_lt.mpr h1)⟩,
      fun _ => rfl⟩
  · by_cases h2 : (alGet s.players pid).isSome = true
    · rw [if_neg h1, if_pos h2]
      refine ⟨⟨fun h => Bool.noConfusion h, fun hc => ?_⟩, fun _ => rfl⟩
      rw [hc.2] at h2
      exact Bool.noConfusion h2
    · rw [if_neg h1, if_neg h2]
      exact ⟨⟨fun _ => ⟨not_le.mp h1, Option.not_isSome_iff_eq_none.mp h2⟩,
        fun _ => rfl⟩, fun h => Bool.noConfusion h⟩

/-- Witness for C7: the amended theorem applied at the full-roster input. -/
theorem C7_addPlayer_ok_iff_witness :
    (Match.addPlayer fullRosterState "pX" "Name").2 = fullRosterState :=
  (C7_addPlayer_ok_iff fullRosterState "pX" "Name").2 rfl

/-! ## Claim C8: economy diminishing returns (`Match.calculateEconomy`)

The multiplier `1 / (1 + Math.pow(territoryCount / 50, 1.2))` and the
accrual rate `baseIncome * incomeMultiplier` (the displayed
`player.goldPerSecond` additionally rounds to two decimals, but gold is
accrued at the unrounded rate). -/

/-- The expansion-penalty multiplier computed by `calculateEconomy`. -/
noncomputable def incomeMultiplier (territoryCount : ℕ) : ℝ :=
  1 / (1 + ((territoryCount : ℝ) / EXPANSION_PENALTY_DIVISOR) ^ EXPANSION_PENALTY_EXPONENT)

/-- The per-second income (`goldPerSecond`) as a function of the raw
(pre-multiplier) income and the territory count. -/
noncomputable def incomeAt (baseIncome : ℝ) (territoryCount : ℕ) : ℝ :=
  baseIncome * incomeMultiplier territoryCount

/-- Claim C8 counterexample: with the raw income held fixed at `0` (a
reachable value: a contestant cut off from their capital has no connected
tiles, hence `baseIncome = 0`, while `territoryCount` stays positive), the
income at territory counts 1 and 0 is the same, not strictly smaller. -/
theorem C8_income_not_strictly_decreasing_at_zero_base :
    incomeAt 0 1 = incomeAt 0 0 ∧ ¬ incomeAt 0 1 < incomeAt 0 0 := by
  constructor
  · simp [incomeAt]
  · simp [incomeAt]

/-- Claim C8 (amended): the diminishing-returns multiplier is strictly
decreasing in territory count, and therefore so is the per-second income
whenever the fixed raw income is positive. -/
theorem C8_income_strictly_decreasing (baseIncome : ℝ) (T1 T2 : ℕ) (hT : T1 < T2) :
    incomeMultiplier T2 < incomeMultiplier T1 ∧
    (0 < baseIncome → incomeAt baseIncome T2 < incomeAt baseIncome T1) := by
  have hmul : incomeMultiplier T2 < incomeMultiplier T1 := by
    unfold incomeMultiplier EXPANSION_PENALTY_DIVISOR EXPANSION_PENALTY_EXPONENT
    have ha : (0 : ℝ) ≤ (T1 : ℝ) / 50 := by positivity
    have hab : (T1 : ℝ) / 50 < (T2 : ℝ) / 50 := by
      apply div_lt_div_of_pos_right _ (by norm_num)
      exact_mod_cast hT
    have hpow : ((T1 : ℝ) / 50) ^ ((6 : ℝ)/5) < ((T2 : ℝ) / 50) ^ ((6 : ℝ)/5) :=
      Real.rpow_lt_rpow ha hab (by norm_num)
    have h1 : (0 : ℝ) < 1 + ((T1 : ℝ) / 50) ^ ((6 : ℝ)/5) := by
      have := Real.rpow_nonneg ha ((6 : ℝ)/5)
      linarith
    exact one_div_lt_one_div_of_lt h1 (by linarith)
  exact ⟨hmul, fun hb => by
    unfold incomeAt
    exact mul_lt_mul_of_pos_left hmul hb⟩

/-- Witness for C8: the amended theorem applied at raw income 1 and
territory counts 0 < 1. -/
theorem C8_income_strictly_decreasing_witness :
    incomeMultiplier 1 < incomeMultiplier 0 ∧ incomeAt 1 1 < incomeAt 1 0 :=
  ⟨(C8_income_strictly_decreasing 1 0 1 (by decide)).1,
   (C8_income_strictly_decreasing 1 0 1 (by decide)).2 (by norm_num)⟩

/-! ## Claim C9: squad speed (`Match.getSquadSpeed`) -/

/-- `Match.getSquadSpeed`: slowest unit's base speed (the source seeds a
running minimum with `Infinity`, so on a nonempty list it is the minimum of
the units' base speeds), then the terrain and road multipliers applied in
sequence: forest `* 0.6`, water `* 0.4`, road structure `* 1.5`. -/
def Match.getSquadSpeed (s : MatchState) (squad : Squad) : ℚ :=
  match squad.units with
  | [] => 0
  | u :: rest =>
    let minSpeed := rest.foldl
      (fun acc v => if (UNIT_STATS v.type).speed < acc then (UNIT_STATS v.type).speed else acc)
      (UNIT_STATS u.type).speed
    let tileX := jsRound squad.x
    let tileY := jsRound squad.y
    if s.inBounds tileX tileY then
      let tile := s.tiles tileX tileY
      let m1 := if tile.terrain = .forest then minSpeed * (3/5) else minSpeed
      let m2 := if tile.terrain = .water then m1 * (2/5) else m1
      if tile.structureType = some .road then m2 * (3/2) else m2
    else minSpeed

/-- The per-tile modifier as claim C9 words it: a single terrain modifier,
`0.6` on forest, `0.4` on water, `1.5` on a road tile, `1.0` otherwise.
This follows the specification's words, for comparison with the code. -/
def specTerrainModifier (tile : Tile) : ℚ :=
  if tile.terrain = .forest then 3/5
  else if tile.terrain = .water then 2/5
  else if tile.structureType = some .road then 3/2
  else 1

/-- A 1-by-1 map whose only tile is forest carrying a road structure
(reachable in play: roads may be built on owned, connected forest tiles). -/
def forestRoadState : MatchState :=
  { emptyMatchState with
    width := 1, height := 1,
    tiles := fun _ _ => ⟨.forest, some "A", some .road, 30, 100, none, true, 0⟩ }

/-- A one-militia squad standing on that tile. -/
def militiaSquad : Squad :=
  ⟨"s1", "A", [⟨"u1", .militia, 40, 40⟩], 0, 0, none, none, [], 0, 0⟩

/-- Claim C9 counterexample: on a forest tile with a road the code composes
both multipliers (militia speed `2.5 * 0.6 * 1.5 = 2.25`), which differs
from `base * m` for every single-modifier value `m` in the claim's table
`{0.6, 0.4, 1.5, 1.0}` — in particular from the claim's own reading
(`2.5 * specTerrainModifier = 1.5`). -/
theorem C9_speed_modifiers_compose :
    Match.getSquadSpeed forestRoadState militiaSquad = 9/4 ∧
    Match.getSquadSpeed forestRoadState militiaSquad ≠
      (UNIT_STATS .militia).speed * specTerrainModifier (forestRoadState.tiles 0 0) ∧
    ∀ m ∈ ([3/5, 2/5, 3/2, 1] : List ℚ),
      Match.getSquadSpeed forestRoadState militiaSquad ≠ (UNIT_STATS .militia).speed * m := by
  refine ⟨by with_unfolding_all decide, by with_unfolding_all decide, ?_⟩
  intro m hm
  fin_cases hm <;> with_unfolding_all decide

/-- The minimum base speed over a nonempty unit list `u :: rest`. -/
def minimumBaseSpeed (u : FC.Unit) (rest : List FC.Unit) : ℚ :=
  rest.foldl (fun acc v => min acc (UNIT_STATS v.type).speed) (UNIT_STATS u.type).speed

/-- Claim C9 (amended): for a squad with at least one unit whose rounded
position is in bounds, the movement speed equals the minimum base speed
times the terrain factor (forest `0.6`, water `0.4`, else `1`) times a road
factor of `1.5` when the tile carries a road structure — so a forest tile
with a road yields the composed factor `0.9`, not a single table value. -/
theorem C9_speed_eq_min_times_factors (s : MatchState) (squad : Squad)
    (u : FC.Unit) (rest : List FC.Unit) (hu : squad.units = u :: rest)
    (hb : s.inBounds (jsRound squad.x) (jsRound squad.y)) :
    Match.getSquadSpeed s squad =
      minimumBaseSpeed u rest *
        (if (s.tiles (jsRound squad.x) (jsRound squad.y)).terrain = .forest then 3/5
         else if (s.tiles (jsRound squad.x) (jsRound squad.y)).terrain = .water then 2/5
         else 1) *
        (if (s.tiles (jsRound squad.x) (jsRound squad.y)).structureType = some .road
         then 3/2 else 1) := by
  have hfold : (fun (acc : ℚ) (v : FC.Unit) =>
      if (UNIT_STATS v.type).speed < acc then (UNIT_STATS v.type).speed else acc) =
      (fun acc v => min acc (UNIT_STATS v.type).speed) := by
    funext acc v
    rcases lt_or_le (UNIT_STATS v.type).speed acc with h | h
    · rw [if_pos h, min_eq_right h.le]
    · rw [if_neg (not_lt.mpr h), min_eq_left h]
  unfold Match.getSquadSpeed
  rw [hu]
  simp only [hfold]
  rw [if_pos hb]
  rcases hft : (s.tiles (jsRound squad.x) (jsRound squad.y)).terrain <;>
    by_cases hst : (s.tiles (jsRound squad.x) (jsRound squad.y)).structureType = some .road <;>
      simp only [hft, hst, minimumBaseSpeed, reduceCtorEq, if_false, if_true,
        reduceIte, Option.some.injEq] <;>
      ring

/-- Witness for C9: the amended theorem applied at the forest-plus-road
input, where the composed factor is `0.9`. -/
theorem C9_speed_eq_min_times_factors_witness :
    Match.getSquadSpeed forestRoadState militiaSquad =
      minimumBaseSpeed ⟨"u1", .militia, 40, 40⟩ [] * (3/5) * (3/2) := by
  have h := C9_speed_eq_min_times_factors forestRoadState militiaSquad
    ⟨"u1", .militia, 40, 40⟩ [] rfl (by with_unfolding_all decide)
  simpa using h

/-! ## Claim C3: capture-progress bounds and ownership changes

`Match.updateTerritory` iterates over the tiles occupied by squads and
applies the per-tile body below (`updateTerritoryTile`, split into its two
branches); `executeSpawnSelection` claims tiles with `spawnClaimTile`; and
`eliminatePlayer` clears tiles with `eliminateTile`.  No other operation of
the tick pipeline writes `ownerId` or `captureProgress`.  (The player
territory counters updated alongside a capture do not touch tile fields.) -/

/-- The uncontested branch of `updateTerritory`'s loop: set the capturing
claimant, advance progress by `CAPTURE_RATE * dt * min(unitCount, 5)`, and
transfer ownership when the threshold is reached. -/
def advanceCaptureTile (tile : Tile) (pid : String) (n : ℕ) (dt : ℚ) : Tile :=
  let p := tile.captureProgress + CAPTURE_RATE * dt * min (n : ℚ) 5
  if CAPTURE_THRESHOLD ≤ p then
    { tile with
      ownerId := some pid
      captureProgress := CAPTURE_THRESHOLD
      capturingPlayerId := none }
  else
    { tile with capturingPlayerId := some pid, captureProgress := p }

/-- The contested branch of `updateTerritory`'s loop: reduce progress by
`CAPTURE_RATE * dt * unitCount * 0.5`, clamping at 0 (where the claimant
flips to the present player). -/
def contestedCaptureTile (tile : Tile) (pid : String) (n : ℕ) (dt : ℚ) : Tile :=
  let p := tile.captureProgress - CAPTURE_RATE * dt * (n : ℚ) * (1/2)
  if p ≤ 0 then
    { tile with captureProgress := 0, capturingPlayerId := some pid }
  else
    { tile with captureProgress := p }

/-- The per-tile body of `Match.updateTerritory` for a tile occupied by
`n` units of player `pid`: skip mountains and fully-owned tiles, then
contest or advance. -/
def updateTerritoryTile (tile : Tile) (pid : String) (n : ℕ) (dt : ℚ) : Tile :=
  if tile.terrain = .mountain then tile
  else if tile.ownerId = some pid ∧ CAPTURE_THRESHOLD ≤ tile.captureProgress then tile
  else if tile.ownerId = some pid then tile
  else
    match tile.capturingPlayerId with
    | some q =>
      if q = pid then advanceCaptureTile tile pid n dt
      else contestedCaptureTile tile pid n dt
    | none => advanceCaptureTile tile pid n dt

/-- The per-tile body of the spawn claim loop in `executeSpawnSelection`:
non-mountain tiles become owned at full capture progress and connected. -/
def spawnClaimTile (tile : Tile) (pid : String) : Tile :=
  if tile.terrain = .mountain then tile
  else
    { tile with
      ownerId := some pid
      captureProgress := CAPTURE_THRESHOLD
      capturingPlayerId := none
      connected := true }

/-- The per-tile body of the territory-clearing loop in `eliminatePlayer`:
tiles of the eliminated player lose owner, progress, claimant, connectivity
and any structure. -/
def eliminateTile (tile : Tile) (pid : String) : Tile :=
  if tile.ownerId = some pid then
    let t1 : Tile :=
      { tile with
        ownerId := none
        captureProgress := 0
        capturingPlayerId := none
        connected := false }
    match tile.structureType with
    | some _ => { t1 with structureType := none, structureHp := 0 }
    | none => t1
  else tile

/-- The concrete tile for the C3 counterexample: plains, owned by `"P"` at
full capture progress. -/
def ownedTileP : Tile := ⟨.plains, some "P", none, 0, 100, none, true, 0⟩

/-- Claim C3 counterexample: `eliminatePlayer` (an operation of the tick
pipeline, run when a castle falls) changes the tile's owner — from
`some "P"` to `none` — while setting `captureProgress` to `0`, not `100`,
at the tick of the change. -/
theorem C3_owner_cleared_without_full_progress :
    (eliminateTile ownedTileP "P").ownerId ≠ ownedTileP.ownerId ∧
    (eliminateTile ownedTileP "P").captureProgress = 0 ∧
    (eliminateTile ownedTileP "P").captureProgress ≠ CAPTURE_THRESHOLD := by
  refine ⟨by with_unfolding_all decide, by with_unfolding_all decide,
    by with_unfolding_all decide⟩

/-- Both branches of `advanceCaptureTile` keep `captureProgress` within
`[0, 100]`, and ownership changes only to the capturer at full progress. -/
theorem advanceCaptureTile_spec (tile : Tile) (pid : String) (n : ℕ) (dt : ℚ)
    (hdt : 0 ≤ dt) (hp0 : 0 ≤ tile.captureProgress)
    (_hp1 : tile.captureProgress ≤ CAPTURE_THRESHOLD) :
    (0 ≤ (advanceCaptureTile tile pid n dt).captureProgress ∧
      (advanceCaptureTile tile pid n dt).captureProgress ≤ CAPTURE_THRESHOLD) ∧
    ((advanceCaptureTile tile pid n dt).ownerId ≠ tile.ownerId →
      (advanceCaptureTile tile pid n dt).ownerId = some pid ∧
      (advanceCaptureTile tile pid n dt).captureProgress = CAPTURE_THRESHOLD) := by
  have hterm : (0:ℚ) ≤ CAPTURE_RATE * dt * min (n : ℚ) 5 := by
    refine mul_nonneg (mul_nonneg ?_ hdt) (le_min (by positivity) (by norm_num))
    norm_num [CAPTURE_RATE]
  simp only [advanceCaptureTile]
  split_ifs with h
  · dsimp only
    exact ⟨⟨by norm_num [CAPTURE_THRESHOLD], le_refl _⟩, fun _ => ⟨rfl, rfl⟩⟩
  · dsimp only
    refine ⟨⟨by linarith, by linarith [not_le.mp h]⟩, fun hc => absurd rfl hc⟩

/-- The contested branch keeps `captureProgress` within `[0, 100]` and
never changes ownership. -/
theorem contestedCaptureTile_spec (tile : Tile) (pid : String) (n : ℕ) (dt : ℚ)
    (hdt : 0 ≤ dt) (_hp0 : 0 ≤ tile.captureProgress)
    (hp1 : tile.captureProgress ≤ CAPTURE_THRESHOLD) :
    (0 ≤ (contestedCaptureTile tile pid n dt).captureProgress ∧
      (contestedCaptureTile tile pid n dt).captureProgress ≤ CAPTURE_THRESHOLD) ∧
    (contestedCaptureTile tile pid n dt).ownerId = tile.ownerId := by
  have hterm : (0:ℚ) ≤ CAPTURE_RATE * dt * (n : ℚ) * (1/2) := by
    refine mul_nonneg (mul_nonneg (mul_nonneg ?_ hdt) (by positivity)) (by norm_num)
    norm_num [CAPTURE_RATE]
  simp only [contestedCaptureTile]
  split_ifs with h
  · dsimp only
    exact ⟨⟨le_refl _, by norm_num [CAPTURE_THRESHOLD]⟩, rfl⟩
  · dsimp only
    exact ⟨⟨by linarith [not_le.mp h], by linarith⟩, rfl⟩

/-- Claim C3 (amended): after each tile-writing operation of the tick
pipeline (territory capture, spawn claim, elimination), `captureProgress`
stays within `[0, 100]` (given a nonnegative tick delta and an in-range
input), and whenever the operation changes the tile's owner it either sets
a (non-null) owner together with `captureProgress = 100` (capture, spawn) or
clears the owner to null together with `captureProgress = 0` (elimination).
The original claim's `captureProgress == 100 at the tick of change` holds
for every change to a non-null owner but not for elimination's clearing. -/
theorem C3_capture_progress_invariant (tile : Tile) (pid : String) (n : ℕ) (dt : ℚ)
    (hdt : 0 ≤ dt) (hp0 : 0 ≤ tile.captureProgress)
    (hp1 : tile.captureProgress ≤ CAPTURE_THRESHOLD) :
    (0 ≤ (updateTerritoryTile tile pid n dt).captureProgress ∧
      (updateTerritoryTile tile pid n dt).captureProgress ≤ CAPTURE_THRESHOLD) ∧
    (0 ≤ (spawnClaimTile tile pid).captureProgress ∧
      (spawnClaimTile tile pid).captureProgress ≤ CAPTURE_THRESHOLD) ∧
    (0 ≤ (eliminateTile tile pid).captureProgress ∧
      (eliminateTile tile pid).captureProgress ≤ CAPTURE_THRESHOLD) ∧
    ((updateTerritoryTile tile pid n dt).ownerId ≠ tile.ownerId →
      (updateTerritoryTile tile pid n dt).ownerId = some pid ∧
      (updateTerritoryTile tile pid n dt).captureProgress = CAPTURE_THRESHOLD) ∧
    ((spawnClaimTile tile pid).ownerId ≠ tile.ownerId →
      (spawnClaimTile tile pid).ownerId = some pid ∧
      (spawnClaimTile tile pid).captureProgress = CAPTURE_THRESHOLD) ∧
    ((eliminateTile tile pid).ownerId ≠ tile.ownerId →
      (eliminateTile tile pid).ownerId = none ∧
      (eliminateTile tile pid).captureProgress = 0) := by
  have hadv := advanceCaptureTile_spec tile pid n dt hdt hp0 hp1
  have hcon := contestedCaptureTile_spec tile pid n dt hdt hp0 hp1
  have hspawn : (0 ≤ (spawnClaimTile tile pid).captureProgress ∧
      (spawnClaimTile tile pid).captureProgress ≤ CAPTURE_THRESHOLD) ∧
      ((spawnClaimTile tile pid).ownerId ≠ tile.ownerId →
        (spawnClaimTile tile pid).ownerId = some pid ∧
        (spawnClaimTile tile pid).captureProgress = CAPTURE_THRESHOLD) := by
    unfold spawnClaimTile
    split_ifs with h
    · exact ⟨⟨hp0, hp1⟩, fun hc => absurd rfl hc⟩
    · dsimp only
      exact ⟨⟨by norm_num [CAPTURE_THRESHOLD], le_refl _⟩, fun _ => ⟨rfl, rfl⟩⟩
  have helim : (0 ≤ (eliminateTile tile pid).captureProgress ∧
      (eliminateTile tile pid).captureProgress ≤ CAPTURE_THRESHOLD) ∧
      ((eliminateTile tile pid).ownerId ≠ tile.ownerId →
        (eliminateTile tile pid).ownerId = none ∧
        (eliminateTile tile pid).captureProgress = 0) := by
    unfold eliminateTile
    split_ifs with h
    · rcases hst : tile.structureType with _ | st <;> dsimp only <;>
        exact ⟨⟨le_refl _, by norm_num [CAPTURE_THRESHOLD]⟩, fun _ => ⟨rfl, rfl⟩⟩
    · exact ⟨⟨hp0, hp1⟩, fun hc => absurd rfl hc⟩
  have hterr : (0 ≤ (updateTerritoryTile tile pid n dt).captureProgress ∧
      (updateTerritoryTile tile pid n dt).captureProgress ≤ CAPTURE_THRESHOLD) ∧
      ((updateTerritoryTile tile pid n dt).ownerId ≠ tile.ownerId →
        (updateTerritoryTile tile pid n dt).ownerId = some pid ∧
        (updateTerritoryTile tile pid n dt).captureProgress = CAPTURE_THRESHOLD) := by
    unfold updateTerritoryTile
    split_ifs with h1 h2 h3
    · exact ⟨⟨hp0, hp1⟩, fun hc => absurd rfl hc⟩
    · exact ⟨⟨hp0, hp1⟩, fun hc => absurd rfl hc⟩
    · exact ⟨⟨hp0, hp1⟩, fun hc => absurd rfl hc⟩
    · rcases hcp : tile.capturingPlayerId with _ | q
      · dsimp only
        exact ⟨hadv.1, hadv.2⟩
      · dsimp only
        split_ifs with hq
        · exact ⟨hadv.1, hadv.2⟩
        · exact ⟨hcon.1, fun hc => absurd hcon.2 hc⟩
  exact ⟨hterr.1, hspawn.1, helim.1, hterr.2, hspawn.2, helim.2⟩

/-- Witness for C3: the amended theorem applied at a concrete owned tile,
an enemy occupier, one unit and one 15 Hz tick. -/
theorem C3_capture_progress_invariant_witness :
    0 ≤ (updateTerritoryTile ownedTileP "E" 1 (1/15)).captureProgress ∧
    (updateTerritoryTile ownedTileP "E" 1 (1/15)).captureProgress ≤ CAPTURE_THRESHOLD :=
  (C3_capture_progress_invariant ownedTileP "E" 1 (1/15) (by norm_num)
    (by with_unfolding_all decide) (by with_unfolding_all decide)).1

/-! ## Association-list lemmas -/

/-- Reading back the key just set. -/
theorem alGet_alSet_self {κ α : Type} [DecidableEq κ] (l : List (κ × α)) (k : κ) (v : α) :
    alGet (alSet l k v) k = some v := by
  induction l with
  | nil => simp [alGet, alSet]
  | cons p rest ih =>
    by_cases h : p.1 = k
    · simp [alSet, alGet, h]
    · simp only [alSet, if_neg h]
      simpa [alGet, h] using ih

/-- Setting one key leaves every other key's entry unchanged. -/
theorem alGet_alSet_ne {κ α : Type} [DecidableEq κ] (l : List (κ × α)) (k k' : κ) (v : α)
    (hne : k' ≠ k) : alGet (alSet l k v) k' = alGet l k' := by
  induction l with
  | nil => simp [alGet, alSet, Ne.symm hne]
  | cons p rest ih =>
    by_cases h : p.1 = k
    · subst h
      simp [alSet, alGet, Ne.symm hne]
    · by_cases h' : p.1 = k'
      · simp only [alSet, if_neg h]
        simp [alGet, h']
      · simp only [alSet, if_neg h]
        simpa [alGet, h, h'] using ih

/-- Setting an absent key appends: the map grows by one entry. -/
theorem alSet_length_of_none {κ α : Type} [DecidableEq κ] (l : List (κ × α)) (k : κ) (v : α)
    (h : alGet l k = none) : (alSet l k v).length = l.length + 1 := by
  induction l with
  | nil => simp [alSet]
  | cons p rest ih =>
    by_cases hp : p.1 = k
    · simp [alGet, hp] at h
    · simp only [alSet, if_neg hp, List.length_cons]
      rw [ih (by simpa [alGet, hp] using h)]

/-- Setting a present key replaces in place: the length is unchanged. -/
theorem alSet_length_of_some {κ α : Type} [DecidableEq κ] (l : List (κ × α)) (k : κ) (v : α)
    (h : (alGet l k).isSome) : (alSet l k v).length = l.length := by
  induction l with
  | nil => simp [alGet] at h
  | cons p rest ih =>
    by_cases hp : p.1 = k
    · simp [alSet, hp]
    · simp only [alSet, if_neg hp, List.length_cons]
      rw [ih (by simpa [alGet, hp] using h)]

/-! ## Claim C4: spawn selection (`Match.executeSpawnSelection`) -/

/-- `Match.createSquad`: build the unit list from the composition (each
unit at its stats' full health), insert the squad into the squads map and
the spatial hash.  The source's `uuidv4()` calls are modelled by the
explicit `squadId` and the per-unit id supply `unitIds`. -/
def Match.createSquad (s : MatchState) (squadId : String) (unitIds : ℕ → String)
    (ownerId : String) (x y : ℚ) (composition : List (UnitType × ℕ)) : MatchState :=
  let protoUnits := composition.flatMap (fun tc => List.replicate tc.2 tc.1)
  let units : List FC.Unit := protoUnits.enum.map
    (fun p => ⟨unitIds p.1, p.2, (UNIT_STATS p.2).maxHp, (UNIT_STATS p.2).maxHp⟩)
  let squad : Squad := ⟨squadId, ownerId, units, x, y, none, none, [], 0, 0⟩
  { s with
    squads := alSet s.squads squadId squad
    spatialHash := s.spatialHash.insertOrUpdate ⟨squadId, x, y, ownerId⟩ }

/-- `Match.executeSpawnSelection`: record the capital on the player, claim
every in-bounds non-mountain tile of the 5-by-5 square around it (the claim
loop skips out-of-bounds and mountain tiles, which `spawnClaimTile`
reproduces), place a castle at the capital with `BUILDING_HP` health, and
grant a starting squad of five militia one tile below the capital. -/
def Match.executeSpawnSelection (s : MatchState) (playerId : String) (x y : ℤ)
    (squadId : String) (unitIds : ℕ → String) : MatchState :=
  match alGet s.players playerId with
  | none => s
  | some player =>
    let player' := { player with capitalX := x, capitalY := y, spawnSelected := true }
    let tiles1 : ℤ → ℤ → Tile := fun tx ty =>
      if x - 2 ≤ tx ∧ tx ≤ x + 2 ∧ y - 2 ≤ ty ∧ ty ≤ y + 2 ∧ s.inBounds tx ty then
        spawnClaimTile (s.tiles tx ty) playerId
      else s.tiles tx ty
    let castleTile : Tile :=
      { tiles1 x y with structureType := some .castle, structureHp := BUILDING_HP .castle }
    let s3 : MatchState :=
      { s with
        players := alSet s.players playerId player'
        tiles := fun tx ty => if tx = x ∧ ty = y then castleTile else tiles1 tx ty }
    Match.createSquad s3 squadId unitIds playerId (x : ℚ) ((y + 1 : ℤ) : ℚ) [(.militia, 5)]

/-- The starting squad's five full-health militia units. -/
def startingMilitia (unitIds : ℕ → String) : List FC.Unit :=
  (List.range 5).map (fun i => ⟨unitIds i, .militia, 40, 40⟩)

/-- Claim C4: spawn selection at an in-bounds, valid-terrain position
yields exactly the claimed state: the capital and every in-bounds
non-mountain tile within Chebyshev distance 2 become owned by the player
(all other tiles unchanged), a castle with full 500 hit points stands at
the capital, and exactly one new squad — five full-health militia at the
adjacent tile `(x, y+1)` — is created, leaving every other squad intact. -/
theorem C4_executeSpawnSelection_effects (s : MatchState) (pid : String) (x y : ℤ)
    (squadId : String) (unitIds : ℕ → String) (player : Player)
    (hp : alGet s.players pid = some player)
    (hb : s.inBounds x y)
    (htm : (s.tiles x y).terrain ≠ .mountain)
    (htw : (s.tiles x y).terrain ≠ .water)
    (hfresh : alGet s.squads squadId = none) :
    ((Match.executeSpawnSelection s pid x y squadId unitIds).tiles x y).ownerId = some pid ∧
    (∀ tx ty, s.inBounds tx ty → |tx - x| ≤ 2 ∧ |ty - y| ≤ 2 →
      (s.tiles tx ty).terrain ≠ .mountain →
      ((Match.executeSpawnSelection s pid x y squadId unitIds).tiles tx ty).ownerId = some pid) ∧
    (∀ tx ty, ¬(|tx - x| ≤ 2 ∧ |ty - y| ≤ 2) →
      (Match.executeSpawnSelection s pid x y squadId unitIds).tiles tx ty = s.tiles tx ty) ∧
    (∀ tx ty, (s.tiles tx ty).terrain = .mountain → ¬(tx = x ∧ ty = y) →
      (Match.executeSpawnSelection s pid x y squadId unitIds).tiles tx ty = s.tiles tx ty) ∧
    ((Match.executeSpawnSelection s pid x y squadId unitIds).tiles x y).structureType = some .castle ∧
    ((Match.executeSpawnSelection s pid x y squadId unitIds).tiles x y).structureHp = 500 ∧
    alGet (Match.executeSpawnSelection s pid x y squadId unitIds).squads squadId =
      some ⟨squadId, pid, startingMilitia unitIds, (x : ℚ), ((y + 1 : ℤ) : ℚ), none, none, [], 0, 0⟩ ∧
    (Match.executeSpawnSelection s pid x y squadId unitIds).squads.length = s.squads.length + 1 ∧
    (∀ sid, sid ≠ squadId →
      alGet (Match.executeSpawnSelection s pid x y squadId unitIds).squads sid = alGet s.squads sid) := by
  have hsq : ∀ s3 : MatchState,
      (Match.createSquad s3 squadId unitIds pid (x : ℚ) ((y + 1 : ℤ) : ℚ) [(.militia, 5)]).squads =
        alSet s3.squads squadId
          ⟨squadId, pid, startingMilitia unitIds, (x : ℚ), ((y + 1 : ℤ) : ℚ), none, none, [], 0, 0⟩ :=
    fun _ => rfl
  unfold Match.executeSpawnSelection
  rw [hp]
  have hcond : x - 2 ≤ x ∧ x ≤ x + 2 ∧ y - 2 ≤ y ∧ y ≤ y + 2 ∧ s.inBounds x y :=
    ⟨by omega, by omega, by omega, by omega, hb⟩
  refine ⟨?_, ?_, ?_, ?_, ?_, ?_, ?_, ?_, ?_⟩
  all_goals dsimp only [Match.createSquad]
  · -- capital tile owned
    rw [if_pos ⟨rfl, rfl⟩]
    dsimp only
    rw [if_pos hcond]
    unfold spawnClaimTile
    rw [if_neg htm]
  · -- the Chebyshev-2 region around the capital is owned
    intro tx ty hbxy hcheb htm'
    by_cases hc : tx = x ∧ ty = y
    · rw [if_pos hc]
      dsimp only
      rw [if_pos hcond]
      unfold spawnClaimTile
      rw [if_neg htm]
    · rw [if_neg hc]
      have h1 := abs_le.mp hcheb.1
      have h2 := abs_le.mp hcheb.2
      rw [if_pos ⟨by omega, by omega, by omega, by omega, hbxy⟩]
      unfold spawnClaimTile
      rw [if_neg htm']
  · -- tiles outside the region are unchanged
    intro tx ty hout
    have hc : ¬(tx = x ∧ ty = y) := by
      rintro ⟨rfl, rfl⟩
      exact hout ⟨by simp, by simp⟩
    rw [if_neg hc]
    have : ¬(x - 2 ≤ tx ∧ tx ≤ x + 2 ∧ y - 2 ≤ ty ∧ ty ≤ y + 2 ∧ s.inBounds tx ty) := by
      intro hAll
      exact hout ⟨by rw [abs_le]; omega, by rw [abs_le]; omega⟩
    rw [if_neg this]
  · -- mountain tiles (other than the capital) are unchanged
    intro tx ty hm hc
    rw [if_neg hc]
    by_cases hc2 : x - 2 ≤ tx ∧ tx ≤ x + 2 ∧ y - 2 ≤ ty ∧ ty ≤ y + 2 ∧ s.inBounds tx ty
    · rw [if_pos hc2]
      unfold spawnClaimTile
      rw [if_pos hm]
    · rw [if_neg hc2]
  · -- castle placed
    rw [if_pos ⟨rfl, rfl⟩]
  · -- castle at full hit points
    rw [if_pos ⟨rfl, rfl⟩]
    show BUILDING_HP .castle = 500
    rfl
  · -- the new squad
    rw [alGet_alSet_self]
    rfl
  · -- exactly one squad added
    rw [alSet_length_of_none _ _ _ hfresh]
  · -- no other squad is touched
    intro sid hsid
    rw [alGet_alSet_ne _ _ _ _ hsid]

/-- A 5-by-5 all-plains state with one contestant, for the C4 witness. -/
def spawnState : MatchState :=
  { emptyMatchState with width := 5, height := 5, players := [("P", dummyPlayer "P")] }

/-- Witness for C4: the theorem applied at the concrete 5-by-5 state. -/
theorem C4_executeSpawnSelection_effects_witness :
    ((Match.executeSpawnSelection spawnState "P" 2 2 "sq1" (fun _ => "u")).tiles 2 2).ownerId =
      some "P" ∧
    alGet (Match.executeSpawnSelection spawnState "P" 2 2 "sq1" (fun _ => "u")).squads "sq1" =
      some ⟨"sq1", "P", startingMilitia (fun _ => "u"), (2 : ℚ), (3 : ℚ), none, none, [], 0, 0⟩ := by
  have h := C4_executeSpawnSelection_effects spawnState "P" 2 2 "sq1" (fun _ => "u")
    (dummyPlayer "P") rfl (by with_unfolding_all decide) (by with_unfolding_all decide)
    (by with_unfolding_all decide) rfl
  exact ⟨h.1, by rw [h.2.2.2.2.2.2.1]; norm_num⟩

/-! ## Claim C5: castle destruction eliminates the owner -/

theorem alGet_eq_none_iff {κ α : Type} [DecidableEq κ] (l : List (κ × α)) (k : κ) :
    alGet l k = none ↔ k ∉ l.map Prod.fst := by
  induction l with
  | nil => simp [alGet]
  | cons p rest ih =>
    by_cases h : p.1 = k
    · simp [alGet, h]
    · simp only [alGet, List.find?] at ih ⊢
      simp [h, ih, Ne.symm h]

theorem alDelete_sublist {κ α : Type} [DecidableEq κ] (l : List (κ × α)) (k : κ) :
    (alDelete l k).Sublist l := by
  induction l with
  | nil => simp [alDelete]
  | cons p rest ih =>
    by_cases h : p.1 = k
    · simp only [alDelete, if_pos h]
      exact List.sublist_cons_self p rest
    · simp only [alDelete, if_neg h]
      exact ih.cons₂ p

theorem alGet_alDelete_self {κ α : Type} [DecidableEq κ] (l : List (κ × α)) (k : κ)
    (hnd : (l.map Prod.fst).Nodup) : alGet (alDelete l k) k = none := by
  induction l with
  | nil => simp [alDelete, alGet]
  | cons p rest ih =>
    rw [List.map_cons, List.nodup_cons] at hnd
    by_cases h : p.1 = k
    · simp only [alDelete, if_pos h]
      rw [alGet_eq_none_iff]
      rw [← h]
      exact hnd.1
    · simp only [alDelete, if_neg h]
      simp only [alGet, List.find?, decide_eq_false h]
      exact ih hnd.2

theorem alGet_alDelete_of_none {κ α : Type} [DecidableEq κ] (l : List (κ × α)) (k k' : κ)
    (h : alGet l k' = none) : alGet (alDelete l k) k' = none := by
  rw [alGet_eq_none_iff] at h ⊢
  intro hmem
  exact h (((alDelete_sublist l k).map Prod.fst).mem hmem)

theorem alDelete_nodup_keys {κ α : Type} [DecidableEq κ] (l : List (κ × α)) (k : κ)
    (hnd : (l.map Prod.fst).Nodup) : ((alDelete l k).map Prod.fst).Nodup :=
  hnd.sublist ((alDelete_sublist l k).map Prod.fst)

/-- `Match.removeSquad`. -/
def Match.removeSquad (s : MatchState) (squadId : String) : MatchState :=
  { s with
    squads := alDelete s.squads squadId
    spatialHash := s.spatialHash.remove squadId }

/-- `Match.squadStructureDamage`: the structure damage summed inside
`attackEnemyStructures` (siege rams deal triple damage). -/
def squadStructureDamage (squad : Squad) (dt : ℚ) : ℚ :=
  squad.units.foldl (fun acc u =>
    acc + (UNIT_STATS u.type).damage * (if u.type = .siegeRam then 3 else 1) * dt) 0

/-- `Match.eliminatePlayer`. -/
def Match.eliminatePlayer (s : MatchState) (playerId : String) : MatchState :=
  match alGet s.players playerId with
  | none => s
  | some player =>
    if player.alive then
      let player' := { player with alive := false }
      let counter := s.eliminationCounter + 1
      let stats' := match alGet s.playerStats playerId with
        | some st => alSet s.playerStats playerId { st with eliminationOrder := counter }
        | none => s.playerStats
      let toRemove := (s.squads.filter (fun p => decide (p.2.ownerId = playerId))).map Prod.fst
      let s1 := toRemove.foldl Match.removeSquad
        { s with
          players := alSet s.players playerId player'
          eliminationCounter := counter
          playerStats := stats' }
      let tiles2 : ℤ → ℤ → Tile := fun x y =>
        if s.inBounds x y then eliminateTile (s.tiles x y) playerId else s.tiles x y
      let s2 := { s1 with tiles := tiles2 }
      let queues3 := s2.trainingQueues.filter (fun q =>
        decide (¬ (s.inBounds q.1.1 q.1.2 ∧ (s2.tiles q.1.1 q.1.2).ownerId = some playerId)))
      let s3 := { s2 with trainingQueues := queues3 }
      { s3 with tickEvents := s3.tickEvents ++ [.playerEliminated playerId player.username] }
    else s

/-- The damaged-tile intermediate state of `attackEnemyStructures`: the
squad's tile with `totalDamage` subtracted from its structure's health. -/
def Match.damagedTileState (s : MatchState) (tileX tileY : ℤ) (dmg : ℚ) : MatchState :=
  { s with tiles := fun x y =>
      if x = tileX ∧ y = tileY then
        { s.tiles tileX tileY with structureHp := (s.tiles tileX tileY).structureHp - dmg }
      else s.tiles x y }

/-- `Match.attackEnemyStructures`: one squad damaging the enemy structure on
its tile; a destroyed castle eliminates its owner before the tile's
structure fields are cleared. -/
def Match.attackEnemyStructures (s : MatchState) (squad : Squad) (dt : ℚ) : MatchState :=
  let tileX := jsRound squad.x
  let tileY := jsRound squad.y
  if s.inBounds tileX tileY then
    let tile := s.tiles tileX tileY
    match tile.structureType, tile.ownerId with
    | some _, some ownerId =>
      if ownerId = squad.ownerId then s
      else
        let sD := Match.damagedTileState s tileX tileY (squadStructureDamage squad dt)
        if tile.structureHp - squadStructureDamage squad dt ≤ 0 then
          let s1 := if tile.structureType = some .castle then Match.eliminatePlayer sD ownerId else sD
          let tilesC : ℤ → ℤ → Tile := fun x y =>
            if x = tileX ∧ y = tileY then
              { s1.tiles x y with structureType := none, structureHp := 0 }
            else s1.tiles x y
          { s1 with
            tiles := tilesC
            tickEvents := s1.tickEvents ++ [.structureDestroyed tileX tileY squad.ownerId] }
        else sD
    | _, _ => s
  else s

theorem removeFromCell_entityCells (h : SpatialHash) (id : String) (key : CellKey) :
    (h.removeFromCell id key).entityCells = h.entityCells := by
  unfold SpatialHash.removeFromCell
  rcases alGet h.cells key with _ | cell
  · rfl
  · dsimp only
    split_ifs <;> rfl

theorem remove_entityCells_cases (h : SpatialHash) (id : String) :
    (h.remove id).entityCells = alDelete h.entityCells id ∨
    ((h.remove id).entityCells = h.entityCells ∧ alGet h.entityCells id = none) := by
  unfold SpatialHash.remove
  rcases hg : alGet h.entityCells id with _ | key
  · exact Or.inr ⟨rfl, rfl⟩
  · dsimp only
    rw [removeFromCell_entityCells]
    exact Or.inl rfl

theorem removeSquad_squads (s : MatchState) (sid : String) :
    (Match.removeSquad s sid).squads = alDelete s.squads sid := rfl

theorem removeSquad_ec_none (s : MatchState) (sid k : String)
    (h : alGet s.spatialHash.entityCells k = none) :
    alGet (Match.removeSquad s sid).spatialHash.entityCells k = none := by
  show alGet (s.spatialHash.remove sid).entityCells k = none
  rcases remove_entityCells_cases s.spatialHash sid with hc | ⟨hc, _⟩ <;> rw [hc]
  · exact alGet_alDelete_of_none _ _ _ h
  · exact h

theorem removeSquad_ec_self (s : MatchState) (sid : String)
    (hnd : (s.spatialHash.entityCells.map Prod.fst).Nodup) :
    alGet (Match.removeSquad s sid).spatialHash.entityCells sid = none := by
  show alGet (s.spatialHash.remove sid).entityCells sid = none
  rcases remove_entityCells_cases s.spatialHash sid with hc | ⟨hc, hn⟩ <;> rw [hc]
  · exact alGet_alDelete_self _ _ hnd
  · exact hn

theorem removeSquad_ec_nodup (s : MatchState) (sid : String)
    (hnd : (s.spatialHash.entityCells.map Prod.fst).Nodup) :
    ((Match.removeSquad s sid).spatialHash.entityCells.map Prod.fst).Nodup := by
  show ((s.spatialHash.remove sid).entityCells.map Prod.fst).Nodup
  rcases remove_entityCells_cases s.spatialHash sid with hc | ⟨hc, _⟩ <;> rw [hc]
  · exact alDelete_nodup_keys _ _ hnd
  · exact hnd

/-- Folding `removeSquad` over a list of ids removes each of them from both
the squads map and the spatial index's entity tracking. -/
theorem foldl_removeSquad_preserves_none (l : List String) (s : MatchState) (sid : String)
    (h1 : alGet s.squads sid = none)
    (h2 : alGet s.spatialHash.entityCells sid = none) :
    alGet (l.foldl Match.removeSquad s).squads sid = none ∧
    alGet (l.foldl Match.removeSquad s).spatialHash.entityCells sid = none := by
  induction l generalizing s with
  | nil => exact ⟨h1, h2⟩
  | cons b rest ih =>
    refine ih (Match.removeSquad s b) ?_ (removeSquad_ec_none s b sid h2)
    rw [removeSquad_squads]
    exact alGet_alDelete_of_none _ _ _ h1

/-- Folding `removeSquad` over a list of ids removes each of them from both
the squads map and the spatial index's entity tracking. -/
theorem foldl_removeSquad_removes (l : List String) (s : MatchState) (sid : String)
    (hmem : sid ∈ l)
    (hnds : (s.squads.map Prod.fst).Nodup)
    (hnde : (s.spatialHash.entityCells.map Prod.fst).Nodup) :
    alGet (l.foldl Match.removeSquad s).squads sid = none ∧
    alGet (l.foldl Match.removeSquad s).spatialHash.entityCells sid = none := by
  induction l generalizing s with
  | nil => cases hmem
  | cons a rest ih =>
    rcases List.mem_cons.mp hmem with rfl | hmem'
    · refine foldl_removeSquad_preserves_none rest (Match.removeSquad s sid) sid ?_
        (removeSquad_ec_self s sid hnde)
      rw [removeSquad_squads]
      exact alGet_alDelete_self _ _ hnds
    · refine ih (Match.removeSquad s a) hmem' ?_ (removeSquad_ec_nodup s a hnde)
      rw [removeSquad_squads]
      exact alDelete_nodup_keys _ _ hnds

theorem foldl_removeSquad_players (l : List String) (s : MatchState) :
    (l.foldl Match.removeSquad s).players = s.players := by
  induction l generalizing s with
  | nil => rfl
  | cons a rest ih => exact ih (Match.removeSquad s a)

theorem foldl_removeSquad_tiles (l : List String) (s : MatchState) :
    (l.foldl Match.removeSquad s).tiles = s.tiles := by
  induction l generalizing s with
  | nil => rfl
  | cons a rest ih => exact ih (Match.removeSquad s a)

theorem eliminateTile_ownerId_none (tile : Tile) (pid : String)
    (how : tile.ownerId = some pid) : (eliminateTile tile pid).ownerId = none := by
  unfold eliminateTile
  rw [if_pos how]
  rcases tile.structureType with _ | st <;> rfl

theorem eliminatePlayer_spec (s : MatchState) (pid : String) (player : Player)
    (hpl : alGet s.players pid = some player) (halive : player.alive = true)
    (hnds : (s.squads.map Prod.fst).Nodup)
    (hnde : (s.spatialHash.entityCells.map Prod.fst).Nodup) :
    alGet (Match.eliminatePlayer s pid).players pid = some { player with alive := false } ∧
    (∀ sid sq, (sid, sq) ∈ s.squads → sq.ownerId = pid →
      alGet (Match.eliminatePlayer s pid).squads sid = none ∧
      alGet (Match.eliminatePlayer s pid).spatialHash.entityCells sid = none) ∧
    (∀ x y, s.inBounds x y → (s.tiles x y).ownerId = some pid →
      ((Match.eliminatePlayer s pid).tiles x y).ownerId = none) := by
  unfold Match.eliminatePlayer
  rw [hpl]
  dsimp only
  rw [if_pos halive]
  refine ⟨?_, ?_, ?_⟩
  · show alGet (((s.squads.filter (fun p => decide (p.2.ownerId = pid))).map Prod.fst).foldl
      Match.removeSquad _).players pid = _
    rw [foldl_removeSquad_players]
    exact alGet_alSet_self _ _ _
  · intro sid sq hmem hown
    have hid : sid ∈ (s.squads.filter (fun p => decide (p.2.ownerId = pid))).map Prod.fst := by
      refine List.mem_map.mpr ⟨(sid, sq), ?_, rfl⟩
      refine List.mem_filter.mpr ⟨hmem, by simpa using hown⟩
    exact foldl_removeSquad_removes _ _ sid hid hnds hnde
  · intro x y hbxy how
    show (if s.inBounds x y then eliminateTile (s.tiles x y) pid else s.tiles x y).ownerId = none
    rw [if_pos hbxy]
    exact eliminateTile_ownerId_none _ _ how

/-- Claim C5: when a squad's structure attack brings an enemy castle's hit
points to (or below) zero, then within that same call the castle's owner is
marked not-alive, every squad they own is removed from the squad collection
and from the spatial index's entity tracking, and every tile they owned has
its owner cleared.  (The `Nodup` hypotheses state that the two `Map`s have
unique keys, which `Map` guarantees by construction.) -/
theorem C5_castle_fall_eliminates_owner (s : MatchState) (squad : Squad) (dt : ℚ)
    (pid : String) (player : Player)
    (hb : s.inBounds (jsRound squad.x) (jsRound squad.y))
    (hst : (s.tiles (jsRound squad.x) (jsRound squad.y)).structureType = some .castle)
    (how : (s.tiles (jsRound squad.x) (jsRound squad.y)).ownerId = some pid)
    (hne : ¬ pid = squad.ownerId)
    (hpl : alGet s.players pid = some player)
    (halive : player.alive = true)
    (hdead : (s.tiles (jsRound squad.x) (jsRound squad.y)).structureHp -
      squadStructureDamage squad dt ≤ 0)
    (hnds : (s.squads.map Prod.fst).Nodup)
    (hnde : (s.spatialHash.entityCells.map Prod.fst).Nodup) :
    alGet (Match.attackEnemyStructures s squad dt).players pid =
      some { player with alive := false } ∧
    (∀ sid sq, (sid, sq) ∈ s.squads → sq.ownerId = pid →
      alGet (Match.attackEnemyStructures s squad dt).squads sid = none ∧
      alGet (Match.attackEnemyStructures s squad dt).spatialHash.entityCells sid = none) ∧
    (∀ x y, s.inBounds x y → (s.tiles x y).ownerId = some pid →
      ((Match.attackEnemyStructures s squad dt).tiles x y).ownerId = none) := by
  have hownpres : ∀ x y,
      ((Match.damagedTileState s (jsRound squad.x) (jsRound squad.y)
        (squadStructureDamage squad dt)).tiles x y).ownerId = (s.tiles x y).ownerId := by
    intro x y
    unfold Match.damagedTileState
    dsimp only
    by_cases hc : x = jsRound squad.x ∧ y = jsRound squad.y
    · rw [if_pos hc, hc.1, hc.2]
    · rw [if_neg hc]
  have hspec := eliminatePlayer_spec
    (Match.damagedTileState s (jsRound squad.x) (jsRound squad.y)
      (squadStructureDamage squad dt)) pid player hpl halive hnds hnde
  unfold Match.attackEnemyStructures
  rw [if_pos hb]
  dsimp only
  rw [hst, how]
  dsimp only
  rw [if_neg hne, if_pos hdead, if_pos rfl]
  refine ⟨?_, ?_, ?_⟩
  · exact hspec.1
  · intro sid sq hmem hown
    exact hspec.2.1 sid sq hmem hown
  · intro x y hbxy how'
    dsimp only
    by_cases hc : x = jsRound squad.x ∧ y = jsRound squad.y
    · rw [if_pos hc]
      show (((Match.eliminatePlayer _ pid).tiles x y).ownerId = none)
      refine hspec.2.2 x y hbxy ?_
      rw [hownpres x y]
      exact how'
    · rw [if_neg hc]
      refine hspec.2.2 x y hbxy ?_
      rw [hownpres x y]
      exact how'

/-- A squad owned by the doomed contestant `"P"`. -/
def pSquad : Squad := ⟨"sP", "P", [⟨"u2", .militia, 40, 40⟩], 0, 0, none, none, [], 0, 0⟩

/-- The attacking militia squad of contestant `"A"`. -/
def attackerSquad : Squad := ⟨"sA", "A", [⟨"u1", .militia, 40, 40⟩], 0, 0, none, none, [], 0, 0⟩

/-- A one-tile state: `"P"`'s castle at 1 hit point, `"P"`'s squad indexed
in the spatial hash, and the attacker standing on the tile. -/
def castleFallState : MatchState :=
  { emptyMatchState with
    width := 1
    height := 1
    tiles := fun _ _ => ⟨.plains, some "P", some .castle, 1, 100, none, true, 0⟩
    players := [("P", dummyPlayer "P")]
    squads := [("sP", pSquad)]
    spatialHash := ⟨SPATIAL_HASH_CELL_SIZE, [((0, 0), [⟨"sP", 0, 0, "P"⟩])], [("sP", (0, 0))]⟩ }

/-- Witness for C5: a concrete one-tile kingdom whose damaged castle falls
to a militia attack; the owner dies, their squad leaves both collections,
and the tile is unowned. -/
theorem C5_castle_fall_eliminates_owner_witness :
    alGet (Match.attackEnemyStructures castleFallState attackerSquad 1).players "P" =
      some { dummyPlayer "P" with alive := false } ∧
    alGet (Match.attackEnemyStructures castleFallState attackerSquad 1).squads "sP" = none ∧
    alGet (Match.attackEnemyStructures castleFallState attackerSquad
      1).spatialHash.entityCells "sP" = none ∧
    ((Match.attackEnemyStructures castleFallState attackerSquad 1).tiles 0 0).ownerId = none := by
  have h := C5_castle_fall_eliminates_owner castleFallState attackerSquad 1 "P" (dummyPlayer "P")
    (by with_unfolding_all decide) (by with_unfolding_all decide) (by with_unfolding_all decide)
    (by with_unfolding_all decide) rfl rfl (by with_unfolding_all decide)
    (by with_unfolding_all decide) (by with_unfolding_all decide)
  have hm := h.2.1 "sP" pSquad (by with_unfolding_all decide) rfl
  exact ⟨h.1, hm.1, hm.2, h.2.2 0 0 (by with_unfolding_all decide) (by with_unfolding_all decide)⟩

/-! ## Pathfinding (`MapGenerator.ts`) -/

/-- A `GameMap`: the grid as a total function plus its bounds. -/
structure GameMap where
  width : ℤ
  height : ℤ
  tiles : ℤ → ℤ → Tile

/-- The map owned by a match. -/
def MatchState.toMap (s : MatchState) : GameMap := ⟨s.width, s.height, s.tiles⟩

/-- `clamp` on integer coordinates (used by `handleMoveSquad`). -/
def clampZ (value lo hi : ℤ) : ℤ := max lo (min hi value)

/-- `MapGenerator.getPassableNeighbors`: the 4-neighborhood restricted to
in-bounds non-mountain tiles, with the movement cost of the *destination*
tile (the last matching assignment wins in the source, so a road overrides
water and forest). -/
def MapGenerator.getPassableNeighbors (m : GameMap) (x y : ℤ) : List (ℤ × ℤ × ℚ) :=
  [((-1 : ℤ), (0 : ℤ)), (1, 0), (0, -1), (0, 1)].filterMap (fun d =>
    let nx := x + d.1
    let ny := y + d.2
    if nx < 0 ∨ ny < 0 ∨ m.width ≤ nx ∨ m.height ≤ ny then none
    else
      let tile := m.tiles nx ny
      if tile.terrain = .mountain then none
      else
        let cost : ℚ :=
          if tile.structureType = some .road then 3/5
          else if tile.terrain = .water then 5/2
          else if tile.terrain = .forest then 3/2
          else 1
        some (nx, ny, cost))

/-- A `MinHeap` node as used by `findPath`: `{x, y, f, g}` ordered by `f`. -/
structure HeapNode where
  x : ℤ
  y : ℤ
  f : ℚ
  g : ℚ
deriving DecidableEq, Repr

/-- The comparator `(a, b) => a.f - b.f` reports `a` before `b` when
`a.f - b.f < 0`. -/
def heapLt (a b : HeapNode) : Bool := decide (a.f < b.f)

/-- `MinHeap.bubbleUp`.  The index strictly decreases to its parent
`(i-1)/2` on every iteration, so fuel `i + 1` (supplied by `push`) can never
run out; the fuel only makes the recursion structural. -/
def bubbleUp : ℕ → List HeapNode → ℕ → List HeapNode
  | 0, data, _ => data
  | fuel + 1, data, i =>
    if i = 0 then data
    else
      let parent := (i - 1) / 2
      match data[i]?, data[parent]? with
      | some a, some b =>
        if heapLt a b then bubbleUp fuel ((data.set i b).set parent a) parent
        else data
      | _, _ => data

/-- `MinHeap.sinkDown`.  The index at least doubles each iteration while
staying below the length, so fuel `length + 1` can never run out. -/
def sinkDown : ℕ → List HeapNode → ℕ → List HeapNode
  | 0, data, _ => data
  | fuel + 1, data, i =>
    let left := 2 * i + 1
    let right := 2 * i + 2
    let smallest1 :=
      match data[left]?, data[i]? with
      | some l, some c => if heapLt l c then left else i
      | _, _ => i
    let smallest2 :=
      match data[right]?, data[smallest1]? with
      | some r, some sm => if heapLt r sm then right else smallest1
      | _, _ => smallest1
    if smallest2 = i then data
    else
      match data[i]?, data[smallest2]? with
      | some a, some b => sinkDown fuel ((data.set i b).set smallest2 a) smallest2
      | _, _ => data

/-- `MinHeap.push`. -/
def MinHeap.push (data : List HeapNode) (item : HeapNode) : List HeapNode :=
  bubbleUp (data.length + 1) (data ++ [item]) data.length

/-- `MinHeap.pop`. -/
def MinHeap.pop (data : List HeapNode) : Option (HeapNode × List HeapNode) :=
  match data with
  | [] => none
  | top :: _ =>
    match data.getLast? with
    | none => none
    | some last =>
      let d := data.dropLast
      if d.length = 0 then some (top, d)
      else some (top, sinkDown (d.length + 1) (d.set 0 last) 0)

/-- The A* bookkeeping carried through `findPath`'s loop. -/
structure AStarState where
  openSet : List HeapNode
  cameFrom : List ((ℤ × ℤ) × (ℤ × ℤ))
  gScore : List ((ℤ × ℤ) × ℚ)

/-- The path-reconstruction loop of `findPath`: walk `cameFrom` from the
end key back to the start key, prepending nodes.  The source's `while`
followed a chain that is finite whenever the search reached the end; the
fuel (one more than the size of `cameFrom`) makes the recursion structural
and fails closed on a hypothetical broken chain. -/
def reconstructPath (cameFrom : List ((ℤ × ℤ) × (ℤ × ℤ))) (startKey : ℤ × ℤ) :
    ℕ → (ℤ × ℤ) → List (ℤ × ℤ) → Option (List (ℤ × ℤ))
  | 0, _, _ => none
  | fuel + 1, key, acc =>
    if key = startKey then some acc
    else
      match alGet cameFrom key with
      | none => none
      | some parent => reconstructPath cameFrom startKey fuel parent (key :: acc)

/-- One neighbor relaxation of the A* loop body. -/
def relaxNeighbor (endX endY : ℤ) (currentKey : ℤ × ℤ) (g : ℚ) (visited : List (ℤ × ℤ))
    (st : AStarState) (nb : ℤ × ℤ × ℚ) : AStarState :=
  let nKey := (nb.1, nb.2.1)
  if visited.contains nKey then st
  else
    let tentativeG := g + nb.2.2
    let better : Bool :=
      match alGet st.gScore nKey with
      | some gEx => decide (tentativeG < gEx)
      | none => true
    if better then
      { openSet := MinHeap.push st.openSet
          ⟨nb.1, nb.2.1, tentativeG + ((|endX - nb.1| + |endY - nb.2.1| : ℤ) : ℚ), tentativeG⟩
        cameFrom := alSet st.cameFrom nKey currentKey
        gScore := alSet st.gScore nKey tentativeG }
    else st

/-- The `while` loop of `findPath`; the fuel is the remaining step budget
(`steps` counts up to `maxSteps` in the source). -/
def findPathLoop (m : GameMap) (startKey endKey : ℤ × ℤ) (endX endY : ℤ) :
    ℕ → AStarState → List (ℤ × ℤ) → Option (List (ℤ × ℤ))
  | 0, _, _ => none
  | fuel + 1, st, visited =>
    match MinHeap.pop st.openSet with
    | none => none
    | some (current, openRest) =>
      let currentKey := (current.x, current.y)
      if currentKey = endKey then
        reconstructPath st.cameFrom startKey (st.cameFrom.length + 1) endKey []
      else if visited.contains currentKey then
        findPathLoop m startKey endKey endX endY fuel { st with openSet := openRest } visited
      else
        let visited' := currentKey :: visited
        let st' := (MapGenerator.getPassableNeighbors m current.x current.y).foldl
          (relaxNeighbor endX endY currentKey current.g visited')
          { st with openSet := openRest }
        findPathLoop m startKey endKey endX endY fuel st' visited'

/-- `MapGenerator.findPath`: A* over 4-connected passable neighbors with a
Manhattan heuristic, an expansion budget, and fail-closed results.  Equal
start and end return an empty path before any other check; an out-of-bounds
or mountain target returns `null`. -/
def MapGenerator.findPath (m : GameMap) (startX startY endX endY : ℤ)
    (maxSteps : ℕ) : Option (List (ℤ × ℤ)) :=
  if startX = endX ∧ startY = endY then some []
  else if ¬ (0 ≤ endX ∧ endX < m.width ∧ 0 ≤ endY ∧ endY < m.height) then none
  else if (m.tiles endX endY).terrain = .mountain then none
  else
    let startKey := (startX, startY)
    let endKey := (endX, endY)
    let h := ((|endX - startX| + |endY - startY| : ℤ) : ℚ)
    findPathLoop m startKey endKey endX endY maxSteps
      ⟨[⟨startX, startY, h, 0⟩], [], [(startKey, 0)]⟩ []


/-! ## Claim C2: silent failure of the five command handlers -/

/-- `SelectSpawnCommand`. -/
structure SelectSpawnCommand where
  x : ℚ
  y : ℚ

/-- `MoveSquadCommand`. -/
structure MoveSquadCommand where
  squadId : String
  targetX : ℚ
  targetY : ℚ

/-- `BuildStructureCommand`. -/
structure BuildStructureCommand where
  structureType : StructureType
  x : ℚ
  y : ℚ

/-- `TrainUnitCommand`. -/
structure TrainUnitCommand where
  unitType : UnitType
  buildingX : ℚ
  buildingY : ℚ

/-- `RallyPointCommand`. -/
structure RallyPointCommand where
  buildingX : ℚ
  buildingY : ℚ
  rallyX : ℚ
  rallyY : ℚ

/-- `MATCH_CONFIG.MIN_SPAWN_DISTANCE`. -/
def MIN_SPAWN_DISTANCE : ℤ := 20

/-- `MapGenerator.isValidSpawn`: edge margin, passable terrain, separation
from existing spawns, and an open-space count over the 5-by-5 window. -/
def MapGenerator.isValidSpawn (m : GameMap) (x y : ℤ) (existingSpawns : List (ℤ × ℤ)) :
    Bool :=
  if x < 5 ∨ y < 5 ∨ m.width - 5 ≤ x ∨ m.height - 5 ≤ y then false
  else if (m.tiles x y).terrain = .mountain ∨ (m.tiles x y).terrain = .water then false
  else if existingSpawns.any (fun sp =>
      decide ((sp.1 - x) * (sp.1 - x) + (sp.2 - y) * (sp.2 - y) <
        MIN_SPAWN_DISTANCE * MIN_SPAWN_DISTANCE)) then false
  else
    let openSpace := ((intRange (-2) 2).flatMap (fun dy =>
      (intRange (-2) 2).map (fun dx => (dx, dy)))).countP (fun d =>
        decide (0 ≤ x + d.1 ∧ x + d.1 < m.width ∧ 0 ≤ y + d.2 ∧ y + d.2 < m.height ∧
          ¬ (m.tiles (x + d.1) (y + d.2)).terrain = .mountain ∧
          ¬ (m.tiles (x + d.1) (y + d.2)).terrain = .water))
    decide (18 ≤ openSpace)

/-- `Match.handleSelectSpawn`. -/
def Match.handleSelectSpawn (s : MatchState) (playerId : String) (cmd : SelectSpawnCommand)
    (squadId : String) (unitIds : ℕ → String) : MatchState :=
  if s.phase ≠ .spawnSelection then s
  else
    match alGet s.players playerId with
    | none => s
    | some player =>
      if player.spawnSelected then s
      else
        let x := jsRound cmd.x
        let y := jsRound cmd.y
        let existingSpawns := (s.players.map Prod.snd).filterMap (fun p =>
          if p.spawnSelected then some (p.capitalX, p.capitalY) else none)
        if MapGenerator.isValidSpawn s.toMap x y existingSpawns then
          Match.executeSpawnSelection s playerId x y squadId unitIds
        else s

/-- `Match.handleMoveSquad`. -/
def Match.handleMoveSquad (s : MatchState) (playerId : String) (cmd : MoveSquadCommand) :
    MatchState :=
  if s.phase ≠ .playing then s
  else
    match alGet s.squads cmd.squadId with
    | none => s
    | some squad =>
      if squad.ownerId ≠ playerId then s
      else
        let targetX := clampZ (jsRound cmd.targetX) 0 (s.width - 1)
        let targetY := clampZ (jsRound cmd.targetY) 0 (s.height - 1)
        if (s.tiles targetX targetY).terrain = .mountain then s
        else
          match MapGenerator.findPath s.toMap (jsRound squad.x) (jsRound squad.y)
            targetX targetY 800 with
          | none => s
          | some path =>
            if 0 < path.length then
              let squad' := { squad with
                targetX := some targetX
                targetY := some targetY
                path := path
                pathIndex := 0
                moveProgress := 0 }
              { s with squads := alSet s.squads cmd.squadId squad' }
            else s

/-- `Match.handleBuildStructure`.  (The `!cost` guard of the source can
never fire: `BUILDING_COSTS` has an entry for every structure kind.) -/
def Match.handleBuildStructure (s : MatchState) (playerId : String)
    (cmd : BuildStructureCommand) : MatchState :=
  if s.phase ≠ .playing then s
  else
    match alGet s.players playerId with
    | none => s
    | some player =>
      let x := jsRound cmd.x
      let y := jsRound cmd.y
      if ¬ s.inBounds x y then s
      else
        let tile := s.tiles x y
        if tile.ownerId ≠ some playerId then s
        else if tile.connected = false then s
        else if tile.terrain = .mountain ∨ tile.terrain = .water then s
        else if cmd.structureType = .mineUpgrade ∧ tile.terrain ≠ .mine then s
        else if tile.structureType ≠ none ∧
            ¬ (cmd.structureType = .mineUpgrade ∧ tile.terrain = .mine) then s
        else if cmd.structureType = .castle then s
        else if player.gold < (BUILDING_COSTS cmd.structureType).gold then s
        else
          let tile' := { tile with
            structureType := some cmd.structureType
            structureHp := BUILDING_HP cmd.structureType
            mineLevel := if cmd.structureType = .mineUpgrade then tile.mineLevel + 1
              else tile.mineLevel }
          { s with
            players := alSet s.players playerId
              { player with gold := player.gold - (BUILDING_COSTS cmd.structureType).gold }
            tiles := s.setTile x y tile'
            tickEvents := s.tickEvents ++ [.build playerId cmd.structureType x y] }

/-- `Match.handleTrainUnit`.  (The source inserts a fresh empty queue into
the map before the length check; an empty queue never fails that check, so
the observable effect is the single final queue write modelled here.) -/
def Match.handleTrainUnit (s : MatchState) (playerId : String) (cmd : TrainUnitCommand) :
    MatchState :=
  if s.phase ≠ .playing then s
  else
    match alGet s.players playerId with
    | none => s
    | some player =>
      let x := jsRound cmd.buildingX
      let y := jsRound cmd.buildingY
      if ¬ s.inBounds x y then s
      else
        let tile := s.tiles x y
        if tile.ownerId ≠ some playerId then s
        else if tile.structureType ≠ some .castle ∧ tile.structureType ≠ some .barracks then s
        else if tile.connected = false then s
        else if player.gold < (UNIT_STATS cmd.unitType).cost then s
        else
          let queue := (alGet s.trainingQueues (x, y)).getD []
          if 5 ≤ queue.length then s
          else
            let trainTime := if tile.structureType = some .barracks then
              (UNIT_STATS cmd.unitType).trainTime * (7/10)
            else (UNIT_STATS cmd.unitType).trainTime
            { s with
              players := alSet s.players playerId
                { player with gold := player.gold - (UNIT_STATS cmd.unitType).cost }
              trainingQueues := alSet s.trainingQueues (x, y)
                (queue ++ [⟨cmd.unitType, trainTime, x, y⟩]) }

/-- `Match.handleRallyPoint`. -/
def Match.handleRallyPoint (s : MatchState) (playerId : String) (cmd : RallyPointCommand) :
    MatchState :=
  let x := jsRound cmd.buildingX
  let y := jsRound cmd.buildingY
  if ¬ s.inBounds x y then s
  else if (s.tiles x y).ownerId ≠ some playerId then s
  else { s with rallyPoints := alSet s.rallyPoints (x, y) ⟨cmd.rallyX, cmd.rallyY⟩ }

/-- The guard cascade of `handleSelectSpawn` as a predicate: phase,
unused-selection, and spawn validity. -/
def Match.selectSpawnPre (s : MatchState) (playerId : String) (cmd : SelectSpawnCommand) :
    Bool :=
  decide (s.phase = .spawnSelection) &&
    match alGet s.players playerId with
    | none => false
    | some player =>
      !player.spawnSelected &&
        MapGenerator.isValidSpawn s.toMap (jsRound cmd.x) (jsRound cmd.y)
          ((s.players.map Prod.snd).filterMap (fun p =>
            if p.spawnSelected then some (p.capitalX, p.capitalY) else none))

/-- The guard cascade of `handleMoveSquad` as a predicate: phase, squad
ownership, and a passable clamped target. -/
def Match.moveSquadPre (s : MatchState) (playerId : String) (cmd : MoveSquadCommand) :
    Bool :=
  decide (s.phase = .playing) &&
    match alGet s.squads cmd.squadId with
    | none => false
    | some squad =>
      decide (squad.ownerId = playerId) &&
        !decide ((s.tiles (clampZ (jsRound cmd.targetX) 0 (s.width - 1))
          (clampZ (jsRound cmd.targetY) 0 (s.height - 1))).terrain = .mountain)

/-- The guard cascade of `handleBuildStructure` as a predicate. -/
def Match.buildStructurePre (s : MatchState) (playerId : String)
    (cmd : BuildStructureCommand) : Bool :=
  decide (s.phase = .playing) &&
    match alGet s.players playerId with
    | none => false
    | some player =>
      let x := jsRound cmd.x
      let y := jsRound cmd.y
      decide (s.inBounds x y) &&
        (let tile := s.tiles x y
         decide (tile.ownerId = some playerId) && tile.connected &&
          !decide (tile.terrain = .mountain ∨ tile.terrain = .water) &&
          !decide (cmd.structureType = .mineUpgrade ∧ tile.terrain ≠ .mine) &&
          !decide (tile.structureType ≠ none ∧
            ¬ (cmd.structureType = .mineUpgrade ∧ tile.terrain = .mine)) &&
          !decide (cmd.structureType = .castle) &&
          !decide (player.gold < (BUILDING_COSTS cmd.structureType).gold))

/-- The guard cascade of `handleTrainUnit` as a predicate. -/
def Match.trainUnitPre (s : MatchState) (playerId : String) (cmd : TrainUnitCommand) :
    Bool :=
  decide (s.phase = .playing) &&
    match alGet s.players playerId with
    | none => false
    | some player =>
      let x := jsRound cmd.buildingX
      let y := jsRound cmd.buildingY
      decide (s.inBounds x y) &&
        (let tile := s.tiles x y
         decide (tile.ownerId = some playerId) &&
          !decide (tile.structureType ≠ some .castle ∧ tile.structureType ≠ some .barracks) &&
          tile.connected &&
          !decide (player.gold < (UNIT_STATS cmd.unitType).cost) &&
          !decide (5 ≤ ((alGet s.trainingQueues (x, y)).getD []).length))

/-- The guard cascade of `handleRallyPoint` as a predicate: an in-bounds,
owned building tile. -/
def Match.rallyPointPre (s : MatchState) (playerId : String) (cmd : RallyPointCommand) :
    Bool :=
  decide (s.inBounds (jsRound cmd.buildingX) (jsRound cmd.buildingY)) &&
    decide ((s.tiles (jsRound cmd.buildingX) (jsRound cmd.buildingY)).ownerId = some playerId)

theorem handleSelectSpawn_noop (s : MatchState) (playerId : String)
    (cmd : SelectSpawnCommand) (squadId : String) (unitIds : ℕ → String)
    (hpre : Match.selectSpawnPre s playerId cmd = false) :
    Match.handleSelectSpawn s playerId cmd squadId unitIds = s := by
  unfold Match.handleSelectSpawn
  unfold Match.selectSpawnPre at hpre
  by_cases h1 : s.phase = .spawnSelection
  · rw [if_neg (not_not_intro h1)]
    rw [h1] at hpre
    simp only [decide_True, Bool.true_and] at hpre
    rcases hg : alGet s.players playerId with _ | player
    · rfl
    · rw [hg] at hpre
      dsimp only at hpre
      dsimp only
      by_cases h2 : player.spawnSelected
      · rw [if_pos h2]
      · rw [if_neg h2]
        have h2f : player.spawnSelected = false := by
          revert h2; cases player.spawnSelected <;> simp
        rw [h2f] at hpre
        simp only [Bool.not_false, Bool.true_and] at hpre
        rw [if_neg (by simp only [hpre]; exact Bool.false_ne_true)]
  · rw [if_pos h1]

theorem handleMoveSquad_noop (s : MatchState) (playerId : String)
    (cmd : MoveSquadCommand) (hpre : Match.moveSquadPre s playerId cmd = false) :
    Match.handleMoveSquad s playerId cmd = s := by
  unfold Match.handleMoveSquad
  unfold Match.moveSquadPre at hpre
  by_cases h1 : s.phase = .playing
  · rw [if_neg (not_not_intro h1)]
    rw [h1] at hpre
    simp only [decide_True, Bool.true_and] at hpre
    rcases hg : alGet s.squads cmd.squadId with _ | squad
    · rfl
    · rw [hg] at hpre
      dsimp only at hpre
      dsimp only
      by_cases h2 : squad.ownerId = playerId
      · rw [if_neg (not_not_intro h2)]
        simp only [decide_eq_true h2, Bool.true_and] at hpre
        by_cases h3 : (s.tiles (clampZ (jsRound cmd.targetX) 0 (s.width - 1))
            (clampZ (jsRound cmd.targetY) 0 (s.height - 1))).terrain = .mountain
        · rw [if_pos h3]
        · simp only [decide_eq_false h3, Bool.not_false, Bool.true_eq_false] at hpre
      · rw [if_pos h2]
  · rw [if_pos h1]

theorem handleBuildStructure_noop (s : MatchState) (playerId : String)
    (cmd : BuildStructureCommand) (hpre : Match.buildStructurePre s playerId cmd = false) :
    Match.handleBuildStructure s playerId cmd = s := by
  unfold Match.handleBuildStructure
  unfold Match.buildStructurePre at hpre
  by_cases h1 : s.phase = .playing
  · rw [if_neg (not_not_intro h1)]
    rw [h1] at hpre
    simp only [decide_True, Bool.true_and] at hpre
    rcases hg : alGet s.players playerId with _ | player
    · rfl
    · rw [hg] at hpre
      dsimp only at hpre
      dsimp only
      by_cases h2 : s.inBounds (jsRound cmd.x) (jsRound cmd.y)
      · rw [if_neg (not_not_intro h2)]
        simp only [decide_eq_true h2, Bool.true_and] at hpre
        by_cases h3 : (s.tiles (jsRound cmd.x) (jsRound cmd.y)).ownerId = some playerId
        · rw [if_neg (not_not_intro h3)]
          simp only [decide_eq_true h3, Bool.true_and] at hpre
          by_cases h4 : (s.tiles (jsRound cmd.x) (jsRound cmd.y)).connected = false
          · rw [if_pos h4]
          · rw [if_neg h4]
            have h4t : (s.tiles (jsRound cmd.x) (jsRound cmd.y)).connected = true := by
              revert h4; cases (s.tiles (jsRound cmd.x) (jsRound cmd.y)).connected <;> simp
            simp only [h4t, Bool.true_and] at hpre
            by_cases h5 : (s.tiles (jsRound cmd.x) (jsRound cmd.y)).terrain = .mountain ∨
                (s.tiles (jsRound cmd.x) (jsRound cmd.y)).terrain = .water
            · rw [if_pos h5]
            · rw [if_neg h5]
              simp only [decide_eq_false h5, Bool.not_false, Bool.true_and] at hpre
              by_cases h6 : cmd.structureType = .mineUpgrade ∧
                  (s.tiles (jsRound cmd.x) (jsRound cmd.y)).terrain ≠ .mine
              · rw [if_pos h6]
              · rw [if_neg h6]
                simp only [decide_eq_false h6, Bool.not_false, Bool.true_and] at hpre
                by_cases h7 : (s.tiles (jsRound cmd.x) (jsRound cmd.y)).structureType ≠ none ∧
                    ¬ (cmd.structureType = .mineUpgrade ∧
                      (s.tiles (jsRound cmd.x) (jsRound cmd.y)).terrain = .mine)
                · rw [if_pos h7]
                · rw [if_neg h7]
                  simp only [decide_eq_false h7, Bool.not_false, Bool.true_and] at hpre
                  by_cases h8 : cmd.structureType = .castle
                  · rw [if_pos h8]
                  · rw [if_neg h8]
                    simp only [decide_eq_false h8, Bool.not_false, Bool.true_and] at hpre
                    by_cases h9 : player.gold < (BUILDING_COSTS cmd.structureType).gold
                    · rw [if_pos h9]
                    · simp only [decide_eq_false h9, Bool.not_false,
                        Bool.true_eq_false] at hpre
        · rw [if_pos h3]
      · rw [if_pos h2]
  · rw [if_pos h1]

theorem handleTrainUnit_noop (s : MatchState) (playerId : String)
    (cmd : TrainUnitCommand) (hpre : Match.trainUnitPre s playerId cmd = false) :
    Match.handleTrainUnit s playerId cmd = s := by
  unfold Match.handleTrainUnit
  unfold Match.trainUnitPre at hpre
  by_cases h1 : s.phase = .playing
  · rw [if_neg (not_not_intro h1)]
    rw [h1] at hpre
    simp only [decide_True, Bool.true_and] at hpre
    rcases hg : alGet s.players playerId with _ | player
    · rfl
    · rw [hg] at hpre
      dsimp only at hpre
      dsimp only
      by_cases h2 : s.inBounds (jsRound cmd.buildingX) (jsRound cmd.buildingY)
      · rw [if_neg (not_not_intro h2)]
        simp only [decide_eq_true h2, Bool.true_and] at hpre
        by_cases h3 : (s.tiles (jsRound cmd.buildingX) (jsRound cmd.buildingY)).ownerId =
            some playerId
        · rw [if_neg (not_not_intro h3)]
          simp only [decide_eq_true h3, Bool.true_and] at hpre
          by_cases h4 : (s.tiles (jsRound cmd.buildingX) (jsRound cmd.buildingY)).structureType ≠
                some .castle ∧
              (s.tiles (jsRound cmd.buildingX) (jsRound cmd.buildingY)).structureType ≠
                some .barracks
          · rw [if_pos h4]
          · rw [if_neg h4]
            simp only [decide_eq_false h4, Bool.not_false, Bool.true_and] at hpre
            by_cases h5 : (s.tiles (jsRound cmd.buildingX) (jsRound cmd.buildingY)).connected =
                false
            · rw [if_pos h5]
            · rw [if_neg h5]
              have h5t :
                  (s.tiles (jsRound cmd.buildingX) (jsRound cmd.buildingY)).connected = true := by
                revert h5
                cases (s.tiles (jsRound cmd.buildingX) (jsRound cmd.buildingY)).connected <;> simp
              simp only [h5t, Bool.true_and] at hpre
              by_cases h6 : player.gold < (UNIT_STATS cmd.unitType).cost
              · rw [if_pos h6]
              · rw [if_neg h6]
                simp only [decide_eq_false h6, Bool.not_false, Bool.true_and] at hpre
                by_cases h7 : 5 ≤ ((alGet s.trainingQueues
                    (jsRound cmd.buildingX, jsRound cmd.buildingY)).getD []).length
                · rw [if_pos h7]
                · simp only [decide_eq_false h7, Bool.not_false, Bool.true_eq_false] at hpre
        · rw [if_pos h3]
      · rw [if_pos h2]
  · rw [if_pos h1]

theorem handleRallyPoint_noop (s : MatchState) (playerId : String)
    (cmd : RallyPointCommand) (hpre : Match.rallyPointPre s playerId cmd = false) :
    Match.handleRallyPoint s playerId cmd = s := by
  unfold Match.handleRallyPoint
  unfold Match.rallyPointPre at hpre
  dsimp only
  by_cases h1 : s.inBounds (jsRound cmd.buildingX) (jsRound cmd.buildingY)
  · rw [if_neg (not_not_intro h1)]
    simp only [decide_eq_true h1, Bool.true_and] at hpre
    by_cases h2 : (s.tiles (jsRound cmd.buildingX) (jsRound cmd.buildingY)).ownerId =
        some playerId
    · simp only [decide_eq_true h2, Bool.true_eq_false] at hpre
    · rw [if_pos h2]
  · rw [if_pos h1]

/-- C2: each of the five command handlers (select-spawn, move-squad,
build-structure, train-unit, rally-point) validates its preconditions —
phase, actor existence and ownership, bounds, terrain, affordability,
queue capacity, spawn validity as applicable — and when the guard cascade
fails it returns the state unchanged, emitting nothing. -/
theorem C2_failed_commands_leave_state_unchanged (s : MatchState) (playerId : String)
    (c1 : SelectSpawnCommand) (c2 : MoveSquadCommand) (c3 : BuildStructureCommand)
    (c4 : TrainUnitCommand) (c5 : RallyPointCommand) (squadId : String)
    (unitIds : ℕ → String) :
    (Match.selectSpawnPre s playerId c1 = false →
      Match.handleSelectSpawn s playerId c1 squadId unitIds = s) ∧
    (Match.moveSquadPre s playerId c2 = false →
      Match.handleMoveSquad s playerId c2 = s) ∧
    (Match.buildStructurePre s playerId c3 = false →
      Match.handleBuildStructure s playerId c3 = s) ∧
    (Match.trainUnitPre s playerId c4 = false →
      Match.handleTrainUnit s playerId c4 = s) ∧
    (Match.rallyPointPre s playerId c5 = false →
      Match.handleRallyPoint s playerId c5 = s) :=
  ⟨handleSelectSpawn_noop s playerId c1 squadId unitIds,
   handleMoveSquad_noop s playerId c2,
   handleBuildStructure_noop s playerId c3,
   handleTrainUnit_noop s playerId c4,
   handleRallyPoint_noop s playerId c5⟩

/-- Witness for C2 at a concrete state: on the empty waiting-phase match
every handler's precondition fails and every handler leaves the state
untouched. -/
theorem C2_failed_commands_leave_state_unchanged_witness :
    Match.handleSelectSpawn emptyMatchState "p" ⟨0, 0⟩ "sq" (fun _ => "u") = emptyMatchState ∧
    Match.handleMoveSquad emptyMatchState "p" ⟨"sq", 0, 0⟩ = emptyMatchState ∧
    Match.handleBuildStructure emptyMatchState "p" ⟨.tower, 0, 0⟩ = emptyMatchState ∧
    Match.handleTrainUnit emptyMatchState "p" ⟨.militia, 0, 0⟩ = emptyMatchState ∧
    Match.handleRallyPoint emptyMatchState "p" ⟨0, 0, 0, 0⟩ = emptyMatchState := by
  obtain ⟨w1, w2, w3, w4, w5⟩ := C2_failed_commands_leave_state_unchanged emptyMatchState "p"
    ⟨0, 0⟩ ⟨"sq", 0, 0⟩ ⟨.tower, 0, 0⟩ ⟨.militia, 0, 0⟩ ⟨0, 0, 0, 0⟩ "sq" (fun _ => "u")
  exact ⟨w1 (by with_unfolding_all decide), w2 (by with_unfolding_all decide),
    w3 (by with_unfolding_all decide), w4 (by with_unfolding_all decide),
    w5 (by with_unfolding_all decide)⟩
/-! ## Claim C10: structural consistency of the spatial hash -/

theorem alGet_mem {κ α : Type} [DecidableEq κ] (l : List (κ × α)) (k : κ) (v : α)
    (h : alGet l k = some v) : (k, v) ∈ l := by
  induction l with
  | nil => simp [alGet] at h
  | cons p rest ih =>
    rcases p with ⟨k1, v1⟩
    by_cases hp : k1 = k
    · subst hp
      simp [alGet, List.find?] at h
      subst h
      exact List.mem_cons_self _ _
    · simp only [alGet, List.find?, decide_eq_false hp] at h
      exact List.mem_cons_of_mem _ (ih h)

theorem mem_alGet_of_nodup {κ α : Type} [DecidableEq κ] (l : List (κ × α)) (k : κ) (v : α)
    (hnd : (l.map Prod.fst).Nodup) (h : (k, v) ∈ l) : alGet l k = some v := by
  induction l with
  | nil => simp at h
  | cons p rest ih =>
    rcases p with ⟨k1, v1⟩
    rw [List.map_cons, List.nodup_cons] at hnd
    rcases List.mem_cons.mp h with heq | hmem
    · rw [Prod.mk.injEq] at heq
      obtain ⟨rfl, rfl⟩ := heq
      simp [alGet, List.find?]
    · by_cases hp : k1 = k
      · subst hp
        exact absurd (List.mem_map.mpr ⟨(k1, v), hmem, rfl⟩) hnd.1
      · simp only [alGet, List.find?, decide_eq_false hp]
        exact ih hnd.2 hmem

theorem mem_alSet_of_ne {κ α : Type} [DecidableEq κ] {l : List (κ × α)} {k k' : κ}
    {v v' : α} (h : (k', v') ∈ alSet l k v) (hne : k' ≠ k) : (k', v') ∈ l := by
  induction l with
  | nil =>
    rw [alSet] at h
    rcases List.mem_singleton.mp h with heq
    rw [Prod.mk.injEq] at heq
    exact absurd heq.1 hne
  | cons p rest ih =>
    by_cases hp : p.1 = k
    · rw [alSet, if_pos hp] at h
      rcases List.mem_cons.mp h with heq | hm
      · rw [Prod.mk.injEq] at heq
        exact absurd heq.1 hne
      · exact List.mem_cons_of_mem _ hm
    · rw [alSet, if_neg hp] at h
      rcases List.mem_cons.mp h with heq | hm
      · exact heq ▸ List.mem_cons_self _ _
      · exact List.mem_cons_of_mem _ (ih hm)

theorem alSet_nodup_keys {κ α : Type} [DecidableEq κ] (l : List (κ × α)) (k : κ) (v : α)
    (hnd : (l.map Prod.fst).Nodup) : ((alSet l k v).map Prod.fst).Nodup := by
  induction l with
  | nil => simp [alSet]
  | cons p rest ih =>
    rw [List.map_cons, List.nodup_cons] at hnd
    by_cases hp : p.1 = k
    · rw [alSet, if_pos hp, List.map_cons, List.nodup_cons]
      rw [← hp]
      exact ⟨hnd.1, hnd.2⟩
    · rw [alSet, if_neg hp, List.map_cons, List.nodup_cons]
      refine ⟨?_, ih hnd.2⟩
      intro hmem
      rcases List.mem_map.mp hmem with ⟨q, hq, hq1⟩
      rcases q with ⟨k2, v2⟩
      by_cases h2 : k2 = k
      · subst h2
        exact hp (hq1 ▸ rfl)
      · have hq2 : (k2, v2) ∈ rest := mem_alSet_of_ne hq h2
        exact hnd.1 (hq1 ▸ List.mem_map.mpr ⟨(k2, v2), hq2, rfl⟩)

theorem mem_alSet_of_mem_ne {κ α : Type} [DecidableEq κ] {l : List (κ × α)} {k k' : κ}
    {v v' : α} (h : (k', v') ∈ l) (hne : k' ≠ k) : (k', v') ∈ alSet l k v := by
  induction l with
  | nil => simp at h
  | cons p rest ih =>
    by_cases hp : p.1 = k
    · rw [alSet, if_pos hp]
      rcases List.mem_cons.mp h with heq | hm
      · exact absurd ((congrArg Prod.fst heq).trans hp) hne
      · exact List.mem_cons_of_mem _ hm
    · rw [alSet, if_neg hp]
      rcases List.mem_cons.mp h with heq | hm
      · exact heq ▸ List.mem_cons_self _ _
      · exact List.mem_cons_of_mem _ (ih hm)

theorem alSet_mem_self_eq {κ α : Type} [DecidableEq κ] {l : List (κ × α)} {k : κ}
    {v v' : α} (hnd : (l.map Prod.fst).Nodup) (h : (k, v') ∈ alSet l k v) : v' = v := by
  have hh := mem_alGet_of_nodup (alSet l k v) k v' (alSet_nodup_keys l k v hnd) h
  rw [alGet_alSet_self] at hh
  exact (Option.some_inj.mp hh).symm

theorem alGet_alDelete_ne {κ α : Type} [DecidableEq κ] (l : List (κ × α)) (k k' : κ)
    (hne : k' ≠ k) : alGet (alDelete l k) k' = alGet l k' := by
  induction l with
  | nil => simp [alDelete]
  | cons p rest ih =>
    by_cases hp : p.1 = k
    · rw [alDelete, if_pos hp]
      have hne' : p.1 ≠ k' := hp ▸ (Ne.symm hne)
      simp only [alGet, List.find?, decide_eq_false hne']
    · rw [alDelete, if_neg hp]
      by_cases hq : p.1 = k'
      · simp only [alGet, List.find?, decide_eq_true hq]
      · simp only [alGet, List.find?, decide_eq_false hq]
        exact ih

theorem mem_alDelete_of_ne {κ α : Type} [DecidableEq κ] {l : List (κ × α)} {k k' : κ}
    {v' : α} (h : (k', v') ∈ l) (hne : k' ≠ k) : (k', v') ∈ alDelete l k := by
  induction l with
  | nil => simp at h
  | cons p rest ih =>
    by_cases hp : p.1 = k
    · rw [alDelete, if_pos hp]
      rcases List.mem_cons.mp h with heq | hm
      · exact absurd ((congrArg Prod.fst heq).trans hp) hne
      · exact hm
    · rw [alDelete, if_neg hp]
      rcases List.mem_cons.mp h with heq | hm
      · exact heq ▸ List.mem_cons_self _ _
      · exact List.mem_cons_of_mem _ (ih hm)

theorem alDelete_length_of_some {κ α : Type} [DecidableEq κ] (l : List (κ × α)) (k : κ)
    (v : α) (h : alGet l k = some v) : l.length = (alDelete l k).length + 1 := by
  induction l with
  | nil => simp [alGet] at h
  | cons p rest ih =>
    by_cases hp : p.1 = k
    · rw [alDelete, if_pos hp, List.length_cons]
    · rw [alDelete, if_neg hp, List.length_cons, List.length_cons]
      simp only [alGet, List.find?, decide_eq_false hp] at h
      rw [ih h]

theorem alSet_eq_append_of_none {κ α : Type} [DecidableEq κ] (l : List (κ × α)) (k : κ)
    (v : α) (h : alGet l k = none) : alSet l k v = l ++ [(k, v)] := by
  induction l with
  | nil => simp [alSet]
  | cons p rest ih =>
    by_cases hp : p.1 = k
    · simp [alGet, List.find?, hp] at h
    · rw [alSet, if_neg hp, List.cons_append]
      simp only [alGet, List.find?, decide_eq_false hp] at h
      rw [ih h]

theorem sum_alSet_of_some {κ α : Type} [DecidableEq κ] (l : List (κ × α)) (k : κ)
    (v w : α) (f : α → ℕ) (h : alGet l k = some w) :
    ((alSet l k v).map (fun p => f p.2)).sum + f w =
      (l.map (fun p => f p.2)).sum + f v := by
  induction l with
  | nil => simp [alGet] at h
  | cons p rest ih =>
    by_cases hp : p.1 = k
    · rw [alSet, if_pos hp]
      simp only [alGet, List.find?, decide_eq_true hp, Option.map_some'] at h
      have hw : p.2 = w := Option.some_inj.mp h
      rw [List.map_cons, List.map_cons, List.sum_cons, List.sum_cons, ← hw]
      dsimp only
      omega
    · rw [alSet, if_neg hp]
      simp only [alGet, List.find?, decide_eq_false hp] at h
      rw [List.map_cons, List.map_cons, List.sum_cons, List.sum_cons]
      have := ih h
      omega

theorem sum_alDelete_of_some {κ α : Type} [DecidableEq κ] (l : List (κ × α)) (k : κ)
    (w : α) (f : α → ℕ) (h : alGet l k = some w) :
    ((alDelete l k).map (fun p => f p.2)).sum + f w = (l.map (fun p => f p.2)).sum := by
  induction l with
  | nil => simp [alGet] at h
  | cons p rest ih =>
    by_cases hp : p.1 = k
    · rw [alDelete, if_pos hp]
      simp only [alGet, List.find?, decide_eq_true hp, Option.map_some'] at h
      have hw : p.2 = w := Option.some_inj.mp h
      rw [List.map_cons, List.sum_cons, ← hw]
      omega
    · rw [alDelete, if_neg hp]
      simp only [alGet, List.find?, decide_eq_false hp] at h
      rw [List.map_cons, List.map_cons, List.sum_cons, List.sum_cons]
      have := ih h
      omega

/-- The swap-pop removal is, up to order, the removal of the element at the
index. -/
theorem swapPop_perm_eraseIdx {α : Type} (l : List α) (i : ℕ) (hi : i < l.length) :
    (swapPop l i).Perm (l.eraseIdx i) := by
  have hne : l ≠ [] := List.ne_nil_of_length_pos (Nat.lt_of_le_of_lt (Nat.zero_le i) hi)
  unfold swapPop
  rcases hL : l.getLast? with _ | last
  · exact absurd (List.getLast?_eq_none_iff.mp hL) hne
  · have hdecomp : l = l.take i ++ l[i] :: l.drop (i + 1) := by
      rw [← List.drop_eq_getElem_cons hi, List.take_append_drop]
    dsimp only
    rw [List.set_eq_take_cons_drop last hi, List.eraseIdx_eq_take_drop_succ]
    rw [List.dropLast_append_of_ne_nil _ (List.cons_ne_nil _ _)]
    by_cases hDnil : l.drop (i + 1) = []
    · rw [hDnil]
      simp
    · rw [List.dropLast_cons_of_ne_nil hDnil]
      refine List.Perm.append_left _ ?_
      have hlast : (l.drop (i + 1)).getLast? = some last := by
        rw [← hL]
        conv_rhs => rw [hdecomp]
        rw [List.getLast?_append_of_ne_nil _ (List.cons_ne_nil _ _)]
        rw [show l[i] :: l.drop (i + 1) = [l[i]] ++ l.drop (i + 1) from rfl,
          List.getLast?_append_of_ne_nil _ hDnil]
      have hDlast : l.drop (i + 1) = (l.drop (i + 1)).dropLast ++ [last] := by
        conv_lhs => rw [← List.dropLast_concat_getLast hDnil]
        rw [List.getLast?_eq_getLast _ hDnil] at hlast
        rw [Option.some_inj.mp hlast]
      conv_rhs => rw [hDlast]
      exact (List.perm_append_singleton last _).symm

theorem countP_eraseIdx_add {α : Type} (p : α → Bool) (l : List α) (i : ℕ)
    (hi : i < l.length) :
    (l.eraseIdx i).countP p + (if p l[i] then 1 else 0) = l.countP p := by
  rw [List.eraseIdx_eq_take_drop_succ, List.countP_append]
  conv_rhs => rw [← List.take_append_drop i l, List.drop_eq_getElem_cons hi]
  rw [List.countP_append, List.countP_cons]
  omega

theorem countP_eq_one_of_nodup_map {α β : Type} (f : α → β) [DecidableEq β] (l : List α)
    (hnd : (l.map f).Nodup) (b : β) (e : α) (he : e ∈ l) (hfe : f e = b) :
    l.countP (fun x => decide (f x = b)) = 1 := by
  induction l with
  | nil => simp at he
  | cons a t ih =>
    rw [List.map_cons, List.nodup_cons] at hnd
    rw [List.countP_cons]
    rcases List.mem_cons.mp he with rfl | hm
    · rw [if_pos (by simp [hfe])]
      have hz : t.countP (fun x => decide (f x = b)) = 0 := by
        rw [List.countP_eq_zero]
        intro x hx hpx
        rw [decide_eq_true_eq] at hpx
        exact hnd.1 (by rw [hfe, ← hpx]; exact List.mem_map.mpr ⟨x, hx, rfl⟩)
      omega
    · have hfa : ¬ f a = b := by
        intro hab
        exact hnd.1 (by rw [hab, ← hfe]; exact List.mem_map.mpr ⟨e, hm, rfl⟩)
      rw [if_neg (by simp [hfa])]
      rw [ih hnd.2 hm]

/-- An element other than the one at the overwritten index survives a
`set`. -/
theorem mem_set_of_mem_ne {α : Type} {l : List α} {i : ℕ} (hi : i < l.length) {a b : α}
    (hb : b ∈ l) (hne : b ≠ l[i]) : b ∈ l.set i a := by
  rw [List.set_eq_take_cons_drop a hi]
  conv at hb => rw [← List.take_append_drop i l, List.drop_eq_getElem_cons hi]
  rcases List.mem_append.mp hb with h1 | h2
  · exact List.mem_append.mpr (Or.inl h1)
  · rcases List.mem_cons.mp h2 with heq | h3
    · exact absurd heq hne
    · exact List.mem_append.mpr (Or.inr (List.mem_cons_of_mem _ h3))

theorem set_getElem_self {α : Type} (l : List α) (i : ℕ) (hi : i < l.length) :
    l.set i l[i] = l := by
  rw [List.set_eq_take_cons_drop _ hi, ← List.drop_eq_getElem_cons hi,
    List.take_append_drop]

/-- One mutating operation of the spatial hash. -/
inductive SpatialOp where
  | clear : SpatialOp
  | insertOrUpdate : SpatialEntry → SpatialOp
  | remove : String → SpatialOp

/-- Apply one operation to the hash. -/
def SpatialHash.applyOp (h : SpatialHash) : SpatialOp → SpatialHash
  | .clear => h.clear
  | .insertOrUpdate e => h.insertOrUpdate e
  | .remove i => h.remove i

/-- Structural consistency of the spatial hash: unique cell keys and
tracked ids, every cell nonempty with id-distinct entries each stored
under the floor-key of its coordinates and tracked at that key, every
tracked id present in its recorded cell, and the entity counter equal to
the total number of stored entries. -/
def SpatialHash.WF (h : SpatialHash) : Prop :=
  (h.cells.map Prod.fst).Nodup ∧
  (h.entityCells.map Prod.fst).Nodup ∧
  (∀ key cell, (key, cell) ∈ h.cells →
    cell ≠ [] ∧ (cell.map SpatialEntry.id).Nodup ∧
    ∀ e ∈ cell, getCellKey h.cellSize e.x e.y = key ∧
      alGet h.entityCells e.id = some key) ∧
  (∀ i key, alGet h.entityCells i = some key →
    ∃ cell, alGet h.cells key = some cell ∧ ∃ e ∈ cell, e.id = i) ∧
  h.entityCount = (h.cells.map (fun c => c.2.length)).sum

/-- Mid-update consistency: like `WF` but the given id is in no cell, and
its (possibly stale) tracking entry is accounted for in the counter. -/
def SpatialHash.WFexcept (h : SpatialHash) (i : String) : Prop :=
  (h.cells.map Prod.fst).Nodup ∧
  (h.entityCells.map Prod.fst).Nodup ∧
  (∀ key cell, (key, cell) ∈ h.cells →
    cell ≠ [] ∧ (cell.map SpatialEntry.id).Nodup ∧
    ∀ e ∈ cell, e.id ≠ i ∧ getCellKey h.cellSize e.x e.y = key ∧
      alGet h.entityCells e.id = some key) ∧
  (∀ i' key, i' ≠ i → alGet h.entityCells i' = some key →
    ∃ cell, alGet h.cells key = some cell ∧ ∃ e ∈ cell, e.id = i') ∧
  h.entityCount = (h.cells.map (fun c => c.2.length)).sum +
    (if (alGet h.entityCells i).isSome then 1 else 0)

theorem SpatialHash_init_WF (cellSize : ℚ) : (SpatialHash.init cellSize).WF := by
  refine ⟨List.nodup_nil, List.nodup_nil, ?_, ?_, rfl⟩
  · intro key cell hmem
    simp [SpatialHash.init] at hmem
  · intro i key htr
    simp [SpatialHash.init, alGet] at htr

theorem SpatialHash_clear_WF (h : SpatialHash) : h.clear.WF := by
  refine ⟨List.nodup_nil, List.nodup_nil, ?_, ?_, rfl⟩
  · intro key cell hmem
    simp [SpatialHash.clear] at hmem
  · intro i key htr
    simp [SpatialHash.clear, alGet] at htr

theorem WFexcept_of_not_tracked (h : SpatialHash) (i : String) (hwf : h.WF)
    (hg : alGet h.entityCells i = none) : h.WFexcept i := by
  obtain ⟨hndC, hndE, hcells, htracked, hcount⟩ := hwf
  refine ⟨hndC, hndE, ?_, ?_, ?_⟩
  · intro key cell hmem
    obtain ⟨hnn, hnd, hprops⟩ := hcells key cell hmem
    refine ⟨hnn, hnd, ?_⟩
    intro e he
    obtain ⟨hgk, htrk⟩ := hprops e he
    refine ⟨?_, hgk, htrk⟩
    intro heid
    rw [heid, hg] at htrk
    exact Option.noConfusion htrk
  · intro i' key hne htr
    exact htracked i' key htr
  · rw [hg]
    simpa using hcount

theorem pushIntoCell_WF (h : SpatialHash) (entry : SpatialEntry) (nk : CellKey)
    (hwf : h.WFexcept entry.id)
    (hkey : getCellKey h.cellSize entry.x entry.y = nk) :
    (h.pushIntoCell entry nk).WF := by
  obtain ⟨hndC, hndE, hcells, htracked, hcount⟩ := hwf
  unfold SpatialHash.pushIntoCell SpatialHash.WF
  dsimp only
  refine ⟨alSet_nodup_keys _ _ _ hndC, alSet_nodup_keys _ _ _ hndE, ?_, ?_, ?_⟩
  · intro key cell hmem
    by_cases hk : key = nk
    · subst hk
      have hc := alSet_mem_self_eq hndC hmem
      rcases ho : alGet h.cells key with _ | oldcell
      · rw [ho] at hc
        simp only [Option.getD_none, List.nil_append] at hc
        subst hc
        refine ⟨by simp, by simp, ?_⟩
        intro e he
        rw [List.mem_singleton] at he
        subst he
        exact ⟨hkey, by rw [alGet_alSet_self]⟩
      · rw [ho] at hc
        simp only [Option.getD_some] at hc
        subst hc
        obtain ⟨hnn, hnd, hprops⟩ := hcells key oldcell (alGet_mem _ _ _ ho)
        refine ⟨by simp, ?_, ?_⟩
        · rw [List.map_append, List.nodup_append]
          refine ⟨hnd, List.nodup_singleton _, ?_⟩
          intro a ha hb
          rw [List.map_singleton, List.mem_singleton] at hb
          subst hb
          rcases List.mem_map.mp ha with ⟨e, he, heid⟩
          exact (hprops e he).1 heid
        · intro e he
          rcases List.mem_append.mp he with h1 | h2
          · obtain ⟨hne, hgk, htrk⟩ := hprops e h1
            exact ⟨hgk, by rw [alGet_alSet_ne _ _ _ _ hne]; exact htrk⟩
          · rw [List.mem_singleton] at h2
            subst h2
            exact ⟨hkey, by rw [alGet_alSet_self]⟩
    · have hmem' := mem_alSet_of_ne hmem hk
      obtain ⟨hnn, hnd, hprops⟩ := hcells key cell hmem'
      refine ⟨hnn, hnd, ?_⟩
      intro e he
      obtain ⟨hne, hgk, htrk⟩ := hprops e he
      exact ⟨hgk, by rw [alGet_alSet_ne _ _ _ _ hne]; exact htrk⟩
  · intro i' key htr
    by_cases hi : i' = entry.id
    · subst hi
      rw [alGet_alSet_self] at htr
      injection htr with hkk
      subst hkk
      refine ⟨(alGet h.cells nk).getD [] ++ [entry], ?_, entry, by simp, rfl⟩
      rw [alGet_alSet_self]
    · rw [alGet_alSet_ne _ _ _ _ hi] at htr
      obtain ⟨cell, hcg, e, he, heid⟩ := htracked i' key hi htr
      by_cases hknk : key = nk
      · subst hknk
        refine ⟨(alGet h.cells key).getD [] ++ [entry], by rw [alGet_alSet_self], e, ?_, heid⟩
        rw [hcg]
        simp only [Option.getD_some]
        exact List.mem_append.mpr (Or.inl he)
      · exact ⟨cell, by rw [alGet_alSet_ne _ _ _ _ hknk]; exact hcg, e, he, heid⟩
  · dsimp only [SpatialHash.entityCount] at hcount ⊢
    rcases ho : alGet h.cells nk with _ | oldcell <;>
      rcases he : alGet h.entityCells entry.id with _ | oldk
    · rw [he] at hcount
      simp only [Option.isSome_none, Bool.false_eq_true, if_false] at hcount
      rw [alSet_length_of_none _ _ _ he, alSet_eq_append_of_none _ _ _ ho]
      simp only [List.map_append, List.sum_append, Option.getD_none, List.nil_append,
        List.map_cons, List.map_nil, List.sum_cons, List.sum_nil, List.length_singleton]
      omega
    · rw [he] at hcount
      simp only [Option.isSome_some, if_true] at hcount
      rw [alSet_length_of_some _ _ _ (by rw [he]; rfl), alSet_eq_append_of_none _ _ _ ho]
      simp only [List.map_append, List.sum_append, Option.getD_none, List.nil_append,
        List.map_cons, List.map_nil, List.sum_cons, List.sum_nil, List.length_singleton]
      omega
    · rw [he] at hcount
      simp only [Option.isSome_none, Bool.false_eq_true, if_false] at hcount
      rw [alSet_length_of_none _ _ _ he]
      have hsum := sum_alSet_of_some h.cells nk ((some oldcell).getD [] ++ [entry]) oldcell
        (fun c => c.length) ho
      simp only [Option.getD_some, List.length_append, List.length_singleton] at hsum ⊢
      omega
    · rw [he] at hcount
      simp only [Option.isSome_some, if_true] at hcount
      rw [alSet_length_of_some _ _ _ (by rw [he]; rfl)]
      have hsum := sum_alSet_of_some h.cells nk ((some oldcell).getD [] ++ [entry]) oldcell
        (fun c => c.length) ho
      simp only [Option.getD_some, List.length_append, List.length_singleton] at hsum ⊢
      omega

theorem removeFromCell_WFexcept (h : SpatialHash) (i : String) (key : CellKey)
    (hwf : h.WF) (htr : alGet h.entityCells i = some key) :
    (h.removeFromCell i key).WFexcept i ∧
      (h.removeFromCell i key).entityCells = h.entityCells ∧
      (h.removeFromCell i key).cellSize = h.cellSize := by
  obtain ⟨hndC, hndE, hcells, htracked, hcount⟩ := hwf
  obtain ⟨cell, hcg, e0, he0, he0id⟩ := htracked i key htr
  obtain ⟨hcnn, hcnd, hctrack⟩ := hcells key cell (alGet_mem _ _ _ hcg)
  unfold SpatialHash.removeFromCell
  rw [hcg]
  dsimp only
  have hidx : cell.findIdx (fun e => decide (e.id = i)) < cell.length :=
    List.findIdx_lt_length_of_exists ⟨e0, he0, by rw [he0id]; simp⟩
  set idx := cell.findIdx (fun e => decide (e.id = i)) with hidxdef
  rw [if_pos hidx]
  have hpidx : cell[idx].id = i := by
    have hq := List.findIdx_getElem (w := hidx)
    simpa using hq
  have hperm := swapPop_perm_eraseIdx cell idx hidx
  have hcp1 : cell.countP (fun e => decide (e.id = i)) = 1 :=
    countP_eq_one_of_nodup_map SpatialEntry.id cell hcnd i e0 he0 he0id
  have hswap0 : (swapPop cell idx).countP (fun e => decide (e.id = i)) = 0 := by
    rw [hperm.countP_eq]
    have hh := countP_eraseIdx_add (fun e => decide (e.id = i)) cell idx hidx
    rw [hcp1, if_pos (by simpa using hpidx)] at hh
    omega
  have hnotin : ∀ e ∈ swapPop cell idx, e.id ≠ i := by
    intro e he heq
    have hq := List.countP_eq_zero.mp hswap0 e he
    simp [heq] at hq
  have hsub : ∀ e ∈ swapPop cell idx, e ∈ cell := by
    intro e he
    exact (List.eraseIdx_sublist cell idx).subset (hperm.mem_iff.mp he)
  have hnd' : ((swapPop cell idx).map SpatialEntry.id).Nodup := by
    refine ((hperm.map SpatialEntry.id).nodup_iff).mpr ?_
    exact hcnd.sublist ((List.eraseIdx_sublist cell idx).map SpatialEntry.id)
  have hlen : (swapPop cell idx).length + 1 = cell.length := by
    rw [hperm.length_eq, List.length_eraseIdx_of_lt hidx]
    omega
  have hretain : ∀ e ∈ cell, e.id ≠ i → e ∈ swapPop cell idx := by
    intro e he hne
    rw [hperm.mem_iff, List.eraseIdx_eq_take_drop_succ]
    conv at he => rw [← List.take_append_drop idx cell, List.drop_eq_getElem_cons hidx]
    rcases List.mem_append.mp he with h1 | h2
    · exact List.mem_append.mpr (Or.inl h1)
    · rcases List.mem_cons.mp h2 with heq | h3
      · rw [heq] at hne
        exact absurd hpidx hne
      · exact List.mem_append.mpr (Or.inr h3)
  by_cases hz : (swapPop cell idx).length = 0
  · rw [if_pos hz]
    refine ⟨⟨alDelete_nodup_keys _ _ hndC, hndE, ?_, ?_, ?_⟩, rfl, rfl⟩
    · intro key' cell2 hm'
      have hm'' := (alDelete_sublist h.cells key).subset hm'
      obtain ⟨hnn2, hnd2, hprops2⟩ := hcells key' cell2 hm''
      refine ⟨hnn2, hnd2, ?_⟩
      intro e he
      obtain ⟨hgk2, htrk2⟩ := hprops2 e he
      refine ⟨?_, hgk2, htrk2⟩
      intro heid
      rw [heid, htr] at htrk2
      injection htrk2 with hkk
      subst hkk
      have hq := mem_alGet_of_nodup _ _ _ (alDelete_nodup_keys _ _ hndC) hm'
      rw [alGet_alDelete_self _ _ hndC] at hq
      exact Option.noConfusion hq
    · intro i' key' hne htr'
      obtain ⟨cell2, hcg2, e2, he2, he2id⟩ := htracked i' key' htr'
      by_cases hkk : key' = key
      · subst hkk
        rw [hcg] at hcg2
        injection hcg2 with hc2
        subst hc2
        exfalso
        have hmem2 := hretain e2 he2 (by rw [he2id]; exact hne)
        have hq := List.length_pos_of_mem hmem2
        omega
      · refine ⟨cell2, ?_, e2, he2, he2id⟩
        rw [alGet_alDelete_ne _ _ _ hkk]
        exact hcg2
    · dsimp only [SpatialHash.entityCount] at hcount ⊢
      have hsum := sum_alDelete_of_some h.cells key cell (fun c => c.length) hcg
      rw [htr]
      simp only [Option.isSome_some, if_true]
      dsimp only at hsum
      omega
  · rw [if_neg hz]
    refine ⟨⟨alSet_nodup_keys _ _ _ hndC, hndE, ?_, ?_, ?_⟩, rfl, rfl⟩
    · intro key' cell2 hm'
      by_cases hkk : key' = key
      · subst hkk
        have hc := alSet_mem_self_eq hndC hm'
        subst hc
        refine ⟨List.ne_nil_of_length_pos (Nat.pos_of_ne_zero hz), hnd', ?_⟩
        intro e he
        obtain ⟨hgk2, htrk2⟩ := hctrack e (hsub e he)
        exact ⟨hnotin e he, hgk2, htrk2⟩
      · have hm'' := mem_alSet_of_ne hm' hkk
        obtain ⟨hnn2, hnd2, hprops2⟩ := hcells key' cell2 hm''
        refine ⟨hnn2, hnd2, ?_⟩
        intro e he
        obtain ⟨hgk2, htrk2⟩ := hprops2 e he
        refine ⟨?_, hgk2, htrk2⟩
        intro heid
        rw [heid, htr] at htrk2
        injection htrk2 with hkk2
        exact hkk hkk2.symm
    · intro i' key' hne htr'
      obtain ⟨cell2, hcg2, e2, he2, he2id⟩ := htracked i' key' htr'
      by_cases hkk : key' = key
      · subst hkk
        rw [hcg] at hcg2
        injection hcg2 with hc2
        subst hc2
        refine ⟨swapPop cell idx, by rw [alGet_alSet_self], e2, ?_, he2id⟩
        exact hretain e2 he2 (by rw [he2id]; exact hne)
      · exact ⟨cell2, by rw [alGet_alSet_ne _ _ _ _ hkk]; exact hcg2, e2, he2, he2id⟩
    · dsimp only [SpatialHash.entityCount] at hcount ⊢
      have hsum := sum_alSet_of_some h.cells key (swapPop cell idx) cell
        (fun c => c.length) hcg
      rw [htr]
      simp only [Option.isSome_some, if_true]
      dsimp only at hsum
      omega

theorem insertOrUpdate_WF (h : SpatialHash) (entry : SpatialEntry) (hwf : h.WF) :
    (h.insertOrUpdate entry).WF := by
  unfold SpatialHash.insertOrUpdate
  dsimp only
  rcases hg : alGet h.entityCells entry.id with _ | oldKey
  · dsimp only
    exact pushIntoCell_WF h entry _ (WFexcept_of_not_tracked h entry.id hwf hg) rfl
  · dsimp only
    by_cases heq : oldKey = getCellKey h.cellSize entry.x entry.y
    · rw [if_pos heq]
      rcases hc : alGet h.cells (getCellKey h.cellSize entry.x entry.y) with _ | cell
      · exact hwf
      · dsimp only
        obtain ⟨hndC, hndE, hcells, htracked, hcount⟩ := hwf
        have htrk : alGet h.entityCells entry.id =
            some (getCellKey h.cellSize entry.x entry.y) := by
          rw [hg, heq]
        obtain ⟨cell2, hcg2, e0, he0, he0id⟩ := htracked entry.id _ htrk
        rw [hc] at hcg2
        injection hcg2 with hc2
        subst hc2
        obtain ⟨hcnn, hcnd, hctrack⟩ := hcells _ cell (alGet_mem _ _ _ hc)
        have hidx : cell.findIdx (fun e => decide (e.id = entry.id)) < cell.length :=
          List.findIdx_lt_length_of_exists ⟨e0, he0, by rw [he0id]; simp⟩
        set idx := cell.findIdx (fun e => decide (e.id = entry.id)) with hidxdef
        rw [if_pos hidx]
        have hpidx : cell[idx].id = entry.id := by
          have hq := List.findIdx_getElem (w := hidx)
          simpa using hq
        have hmapid : (cell.set idx entry).map SpatialEntry.id =
            cell.map SpatialEntry.id := by
          have hidx2 : idx < (cell.map SpatialEntry.id).length := by
            rw [List.length_map]
            exact hidx
          have hge : (cell.map SpatialEntry.id)[idx] = entry.id := by
            rw [List.getElem_map]
            exact hpidx
          rw [List.map_set, ← hge, set_getElem_self _ _ hidx2]
        refine ⟨alSet_nodup_keys _ _ _ hndC, hndE, ?_, ?_, ?_⟩
        · intro key' cellX hm'
          by_cases hkk : key' = getCellKey h.cellSize entry.x entry.y
          · subst hkk
            have hcx := alSet_mem_self_eq hndC hm'
            subst hcx
            refine ⟨?_, by rw [hmapid]; exact hcnd, ?_⟩
            · apply List.ne_nil_of_length_pos
              rw [List.length_set]
              exact List.length_pos_of_mem he0
            · intro e he
              rcases List.mem_or_eq_of_mem_set he with h1 | h2
              · exact hctrack e h1
              · subst h2
                exact ⟨rfl, htrk⟩
          · have hm'' := mem_alSet_of_ne hm' hkk
            exact hcells key' cellX hm''
        · intro i' key' htr'
          obtain ⟨cell3, hcg3, e2, he2, he2id⟩ := htracked i' key' htr'
          by_cases hkk : key' = getCellKey h.cellSize entry.x entry.y
          · subst hkk
            rw [hc] at hcg3
            injection hcg3 with hc3
            subst hc3
            by_cases hie : i' = entry.id
            · subst hie
              refine ⟨cell.set idx entry, by rw [alGet_alSet_self], entry, ?_, rfl⟩
              exact List.mem_set cell idx hidx entry
            · refine ⟨cell.set idx entry, by rw [alGet_alSet_self], e2, ?_, he2id⟩
              refine mem_set_of_mem_ne hidx he2 ?_
              intro heq2
              rw [heq2] at he2id
              exact hie (he2id.symm.trans hpidx)
          · exact ⟨cell3, by rw [alGet_alSet_ne _ _ _ _ hkk]; exact hcg3, e2, he2, he2id⟩
        · dsimp only [SpatialHash.entityCount] at hcount ⊢
          have hsum := sum_alSet_of_some h.cells _ (cell.set idx entry) cell
            (fun c => c.length) hc
          dsimp only at hsum
          rw [List.length_set] at hsum
          omega
    · rw [if_neg heq]
      obtain ⟨hwfe, hEC, hCS⟩ := removeFromCell_WFexcept h entry.id oldKey hwf hg
      refine pushIntoCell_WF _ entry _ hwfe ?_
      rw [hCS]

theorem remove_WF (h : SpatialHash) (i : String) (hwf : h.WF) : (h.remove i).WF := by
  unfold SpatialHash.remove
  rcases hg : alGet h.entityCells i with _ | key
  · exact hwf
  · dsimp only
    obtain ⟨hwfe, hEC, hCS⟩ := removeFromCell_WFexcept h i key hwf hg
    obtain ⟨hndC, hndE, hcells, htracked, hcount⟩ := hwfe
    refine ⟨hndC, alDelete_nodup_keys _ _ hndE, ?_, ?_, ?_⟩
    · intro key' cell hm'
      obtain ⟨hnn, hnd, hprops⟩ := hcells key' cell hm'
      refine ⟨hnn, hnd, ?_⟩
      intro e he
      obtain ⟨hne, hgk, htrk⟩ := hprops e he
      refine ⟨hgk, ?_⟩
      rw [alGet_alDelete_ne _ _ _ hne]
      exact htrk
    · intro i' key' htr'
      by_cases hie : i' = i
      · subst hie
        rw [alGet_alDelete_self _ _ hndE] at htr'
        exact Option.noConfusion htr'
      · rw [alGet_alDelete_ne _ _ _ hie] at htr'
        exact htracked i' key' hie htr'
    · dsimp only [SpatialHash.entityCount] at hcount ⊢
      have hES : alGet (h.removeFromCell i key).entityCells i = some key := by
        rw [hEC]
        exact hg
      have hdel := alDelete_length_of_some _ _ _ hES
      rw [hES] at hcount
      simp only [Option.isSome_some, if_true] at hcount
      omega

theorem applyOp_WF (h : SpatialHash) (op : SpatialOp) (hwf : h.WF) :
    (h.applyOp op).WF := by
  cases op with
  | clear => exact SpatialHash_clear_WF h
  | insertOrUpdate e => exact insertOrUpdate_WF h e hwf
  | remove i => exact remove_WF h i hwf

theorem foldl_applyOp_WF (ops : List SpatialOp) (h : SpatialHash) (hwf : h.WF) :
    (ops.foldl SpatialHash.applyOp h).WF := by
  induction ops generalizing h with
  | nil => exact hwf
  | cons op rest ih => exact ih _ (applyOp_WF h op hwf)

/-- Run a sequence of operations on a freshly constructed hash. -/
def runSpatialOps (cellSize : ℚ) (ops : List SpatialOp) : SpatialHash :=
  ops.foldl SpatialHash.applyOp (SpatialHash.init cellSize)

/-- C10: after any sequence of `clear` / `insertOrUpdate` / `remove`
operations on a fresh spatial hash, the index is structurally consistent
(`WF`: unique keys, nonempty cells whose entries sit under the floor-key of
their stored coordinates, tracked ids present, and `entityCount` equal to
the total number of stored entries); in particular every tracked id
appears in exactly one cell's entry list — once in its recorded cell and
zero times in every other cell. -/
theorem C10_spatial_hash_structurally_consistent (cellSize : ℚ) (ops : List SpatialOp) :
    (runSpatialOps cellSize ops).WF ∧
    (∀ i key, alGet (runSpatialOps cellSize ops).entityCells i = some key →
      ∃ cell, alGet (runSpatialOps cellSize ops).cells key = some cell ∧
        cell.countP (fun e => decide (e.id = i)) = 1 ∧
        (∃ e ∈ cell, e.id = i ∧
          getCellKey (runSpatialOps cellSize ops).cellSize e.x e.y = key) ∧
        ∀ key' cell', (key', cell') ∈ (runSpatialOps cellSize ops).cells → key' ≠ key →
          cell'.countP (fun e => decide (e.id = i)) = 0) := by
  have hwf := foldl_applyOp_WF ops _ (SpatialHash_init_WF cellSize)
  refine ⟨hwf, ?_⟩
  obtain ⟨hndC, hndE, hcells, htracked, hcount⟩ := hwf
  intro i key htr
  unfold runSpatialOps at htr
  obtain ⟨cell, hcg, e0, he0, he0id⟩ := htracked i key htr
  obtain ⟨hcnn, hcnd, hctrack⟩ := hcells key cell (alGet_mem _ _ _ hcg)
  refine ⟨cell, hcg, ?_, ⟨e0, he0, he0id, (hctrack e0 he0).1⟩, ?_⟩
  · exact countP_eq_one_of_nodup_map SpatialEntry.id cell hcnd i e0 he0 he0id
  · intro key' cell' hm' hne
    rw [List.countP_eq_zero]
    intro e he hpe
    rw [decide_eq_true_eq] at hpe
    obtain ⟨hgk, htrk2⟩ := (hcells key' cell' hm').2.2 e he
    rw [hpe, htr] at htrk2
    injection htrk2 with hkk
    exact hne hkk.symm

/-- Witness for C10 at a concrete run: inserting one entity at (10, 11)
with cell size 8 tracks it at cell (1, 1), which holds it exactly once. -/
theorem C10_spatial_hash_structurally_consistent_witness :
    ∃ cell,
      alGet (runSpatialOps 8 [SpatialOp.insertOrUpdate ⟨"e1", 10, 11, "B"⟩]).cells
        (1, 1) = some cell ∧
      cell.countP (fun e => decide (e.id = "e1")) = 1 ∧
      (∃ e ∈ cell, e.id = "e1" ∧
        getCellKey (runSpatialOps 8
          [SpatialOp.insertOrUpdate ⟨"e1", 10, 11, "B"⟩]).cellSize e.x e.y = (1, 1)) ∧
      ∀ key' cell',
        (key', cell') ∈ (runSpatialOps 8
          [SpatialOp.insertOrUpdate ⟨"e1", 10, 11, "B"⟩]).cells → key' ≠ (1, 1) →
        cell'.countP (fun e => decide (e.id = "e1")) = 0 :=
  (C10_spatial_hash_structurally_consistent 8
    [SpatialOp.insertOrUpdate ⟨"e1", 10, 11, "B"⟩]).2 "e1" (1, 1)
    (by with_unfolding_all decide)
/-! ## Claim C6: A* pathfinding (`MapGenerator.findPath`)

The binary heap behind `findPath` is verified first: `bubbleUp` and
`sinkDown` permute the backing array and restore the heap order, so `pop`
returns a minimal element. -/

/-- The binary-heap order on the backing list: every parent's `f` is at
most each child's `f`. -/
def heapOrdered (l : List HeapNode) : Prop :=
  ∀ i j a b, (j = 2 * i + 1 ∨ j = 2 * i + 2) → l[i]? = some a → l[j]? = some b →
    a.f ≤ b.f

/-- In a heap-ordered list the root is minimal. -/
theorem heapOrdered_root_le (l : List HeapNode) (hord : heapOrdered l) (a : HeapNode)
    (ha : l[0]? = some a) : ∀ (j : ℕ) (b : HeapNode), l[j]? = some b → a.f ≤ b.f := by
  intro j
  induction j using Nat.strong_induction_on with
  | _ j ih =>
    intro b hb
    rcases Nat.eq_zero_or_pos j with rfl | hj
    · rw [ha] at hb
      injection hb with hb
      rw [hb]
    · have hpar : j = 2 * ((j - 1) / 2) + 1 ∨ j = 2 * ((j - 1) / 2) + 2 := by omega
      have hjlen : j < l.length := by
        by_contra hc
        rw [List.getElem?_eq_none_iff.mpr (Nat.le_of_not_lt hc)] at hb
        exact Option.noConfusion hb
      have hplen : (j - 1) / 2 < l.length := by omega
      have hpc : l[(j - 1) / 2]? = some l[(j - 1) / 2] :=
        List.getElem?_eq_getElem hplen
      have h1 := ih ((j - 1) / 2) (by omega) _ hpc
      have h2 := hord ((j - 1) / 2) j _ _ hpar hpc hb
      exact le_trans h1 h2

/-- Swapping the (present) entries at two distinct indices permutes the
list. -/
theorem set_set_perm {α : Type} (l : List α) (i j : ℕ) (a b : α) (hij : i < j)
    (ha : l[i]? = some a) (hb : l[j]? = some b) : ((l.set i b).set j a).Perm l := by
  obtain ⟨hjlen, hbj⟩ := List.getElem?_eq_some.mp hb
  obtain ⟨hilen, hai⟩ := List.getElem?_eq_some.mp ha
  have hAlen : (l.take i).length = i := by
    rw [List.length_take]
    omega
  have hDlen : (l.drop (i + 1)).length = l.length - (i + 1) := List.length_drop _ _
  have hDj : (l.drop (i + 1))[j - i - 1]? = some b := by
    rw [List.getElem?_drop]
    have harith : i + 1 + (j - i - 1) = j := by omega
    rw [harith]
    exact hb
  obtain ⟨hDjlen, hDjb⟩ := List.getElem?_eq_some.mp hDj
  have hsucc : j - i - 1 + 1 = j - i := by omega
  have hDdecomp : l.drop (i + 1) =
      (l.drop (i + 1)).take (j - i - 1) ++ b :: (l.drop (i + 1)).drop (j - i) := by
    conv_lhs => rw [← List.take_append_drop (j - i - 1) (l.drop (i + 1))]
    congr 1
    rw [List.drop_eq_getElem_cons hDjlen, hDjb, hsucc]
  have hset1 : l.set i b = l.take i ++ b :: l.drop (i + 1) :=
    List.set_eq_take_cons_drop b hilen
  have hset2 : (l.take i ++ b :: l.drop (i + 1)).set j a =
      l.take i ++ b :: (l.drop (i + 1)).set (j - i - 1) a := by
    rw [List.set_append, if_neg (by omega)]
    congr 1
    have hsub : j - (l.take i).length = (j - i - 1) + 1 := by
      rw [hAlen]
      omega
    rw [hsub]
    rfl
  have hset3 : (l.drop (i + 1)).set (j - i - 1) a =
      (l.drop (i + 1)).take (j - i - 1) ++ a :: (l.drop (i + 1)).drop (j - i) := by
    rw [List.set_eq_take_cons_drop a hDjlen, hsucc]
  rw [hset1, hset2, hset3]
  have hldecomp : l = l.take i ++ a :: l.drop (i + 1) := by
    rw [← hai, ← List.drop_eq_getElem_cons hilen, List.take_append_drop]
  conv_rhs => rw [hldecomp, hDdecomp]
  refine List.Perm.append_left _ ?_
  exact (List.Perm.cons b List.perm_middle).trans
    ((List.Perm.swap a b _).trans (List.Perm.cons a List.perm_middle.symm))

/-- `set_set_perm` for distinct indices in either order. -/
theorem set_set_perm_ne {α : Type} (l : List α) (i j : ℕ) (a b : α) (hij : i ≠ j)
    (ha : l[i]? = some a) (hb : l[j]? = some b) : ((l.set i b).set j a).Perm l := by
  rcases Nat.lt_or_ge i j with h | h
  · exact set_set_perm l i j a b h ha hb
  · have hlt : j < i := by omega
    rw [List.set_comm b a l hij]
    exact set_set_perm l j i b a hlt hb ha

/-- Heap order everywhere except on the edges INTO the hole index. -/
def heapExceptUp (l : List HeapNode) (hole : ℕ) : Prop :=
  ∀ i j a b, (j = 2 * i + 1 ∨ j = 2 * i + 2) → j ≠ hole → l[i]? = some a →
    l[j]? = some b → a.f ≤ b.f

/-- The hole's parent is at most the hole's children. -/
def gpBound (l : List HeapNode) (hole : ℕ) : Prop :=
  ∀ c a b, (c = 2 * hole + 1 ∨ c = 2 * hole + 2) → l[(hole - 1) / 2]? = some a →
    l[c]? = some b → a.f ≤ b.f

/-- The pointwise description of a two-index swap. -/
theorem swap_getElem (data : List HeapNode) (i p : ℕ) (a b : HeapNode)
    (hpi : p ≠ i) (hA : data[i]? = some a) (hB : data[p]? = some b) (k : ℕ) :
    ((data.set i b).set p a)[k]? =
      if k = p then some a else if k = i then some b else data[k]? := by
  obtain ⟨hilen, _⟩ := List.getElem?_eq_some.mp hA
  obtain ⟨hplen, _⟩ := List.getElem?_eq_some.mp hB
  by_cases hk1 : k = p
  · subst hk1
    rw [if_pos rfl, List.getElem?_set_self (by rw [List.length_set]; exact hplen)]
  · rw [if_neg hk1, List.getElem?_set_ne (fun hc => hk1 hc.symm)]
    by_cases hk2 : k = i
    · subst hk2
      rw [if_pos rfl, List.getElem?_set_self hilen]
    · rw [if_neg hk2, List.getElem?_set_ne (fun hc => hk2 hc.symm)]

theorem bubbleUp_perm (fuel : ℕ) : ∀ (data : List HeapNode) (i : ℕ),
    (bubbleUp fuel data i).Perm data := by
  induction fuel with
  | zero =>
    intro data i
    exact List.Perm.refl data
  | succ fuel ih =>
    intro data i
    rw [bubbleUp]
    by_cases h0 : i = 0
    · rw [if_pos h0]
    · rw [if_neg h0]
      dsimp only
      rcases hA : data[i]? with _ | a
      · dsimp only
        exact List.Perm.refl data
      · rcases hB : data[(i - 1) / 2]? with _ | b
        · dsimp only
          exact List.Perm.refl data
        · dsimp only
          by_cases hlt : heapLt a b
          · rw [if_pos hlt]
            refine (ih _ _).trans ?_
            exact set_set_perm_ne data i ((i - 1) / 2) a b (by omega) hA hB
          · rw [if_neg hlt]

theorem bubbleUp_heapOrdered (fuel : ℕ) : ∀ (data : List HeapNode) (i : ℕ),
    i < fuel → heapExceptUp data i → (i ≠ 0 → gpBound data i) →
    heapOrdered (bubbleUp fuel data i) := by
  induction fuel with
  | zero =>
    intro data i hi
    exact absurd hi (Nat.not_lt_zero i)
  | succ fuel ih =>
    intro data i hi hex hgp
    rw [bubbleUp]
    by_cases h0 : i = 0
    · rw [if_pos h0]
      subst h0
      intro i' j' a' b' hedge hA' hB'
      exact hex i' j' a' b' hedge (by omega) hA' hB'
    · rw [if_neg h0]
      dsimp only
      rcases hA : data[i]? with _ | a
      · dsimp only
        intro i' j' a' b' hedge hA' hB'
        refine hex i' j' a' b' hedge ?_ hA' hB'
        intro hji
        rw [hji, hA] at hB'
        exact Option.noConfusion hB'
      · rcases hB : data[(i - 1) / 2]? with _ | b
        · dsimp only
          exfalso
          obtain ⟨hilen, _⟩ := List.getElem?_eq_some.mp hA
          have hplen : (i - 1) / 2 < data.length := by omega
          rw [List.getElem?_eq_getElem hplen] at hB
          exact Option.noConfusion hB
        · dsimp only
          by_cases hlt : heapLt a b
          · rw [if_pos hlt]
            have hflt : a.f < b.f := by
              unfold heapLt at hlt
              exact of_decide_eq_true hlt
            obtain ⟨hilen, hia⟩ := List.getElem?_eq_some.mp hA
            have hpi : (i - 1) / 2 ≠ i := by omega
            have hswap := swap_getElem data i ((i - 1) / 2) a b hpi hA hB
            refine ih _ _ (by omega) ?_ ?_
            · intro i' j' a' b' hedge hne hA' hB'
              rw [hswap i'] at hA'
              rw [hswap j'] at hB'
              by_cases hj'i : j' = i
              · rw [hj'i] at hB' hedge
                have hi'p : i' = (i - 1) / 2 := by omega
                rw [hi'p, if_pos rfl] at hA'
                rw [if_neg (Ne.symm hpi), if_pos rfl] at hB'
                injection hA' with hA''
                injection hB' with hB''
                rw [← hA'', ← hB'']
                exact le_of_lt hflt
              · by_cases hj'p : j' = (i - 1) / 2
                · exact absurd hj'p hne
                · rw [if_neg hj'p, if_neg hj'i] at hB'
                  by_cases hi'p : i' = (i - 1) / 2
                  · rw [hi'p, if_pos rfl] at hA'
                    rw [hi'p] at hedge
                    injection hA' with hA''
                    have hedge' := hex ((i - 1) / 2) j' b b' hedge hj'i hB hB'
                    rw [← hA'']
                    exact le_trans (le_of_lt hflt) hedge'
                  · rw [if_neg hi'p] at hA'
                    by_cases hi'i : i' = i
                    · rw [hi'i, if_pos rfl] at hA'
                      rw [hi'i] at hedge
                      injection hA' with hA''
                      rw [← hA'']
                      exact hgp h0 j' b b' hedge hB hB'
                    · rw [if_neg hi'i] at hA'
                      exact hex i' j' a' b' hedge hj'i hA' hB'
            · intro hp0
              intro c a' b' hc hA' hB'
              rw [hswap (((i - 1) / 2 - 1) / 2)] at hA'
              rw [hswap c] at hB'
              have hqp : ((i - 1) / 2 - 1) / 2 ≠ (i - 1) / 2 := by omega
              have hqi : ((i - 1) / 2 - 1) / 2 ≠ i := by omega
              rw [if_neg hqp, if_neg hqi] at hA'
              have hcp : c ≠ (i - 1) / 2 := by omega
              by_cases hci : c = i
              · rw [hci] at hB'
                rw [if_neg (show (i : ℕ) ≠ (i - 1) / 2 from Ne.symm hpi), if_pos rfl] at hB'
                injection hB' with hB''
                rw [← hB'']
                exact hex _ _ a' b (by omega) hpi hA' hB
              · rw [if_neg hcp, if_neg hci] at hB'
                have h1 := hex _ _ a' b (by omega) hpi hA' hB
                have h2 := hex ((i - 1) / 2) c b b' hc hci hB hB'
                exact le_trans h1 h2
          · rw [if_neg hlt]
            have hnlt : ¬ a.f < b.f := by
              unfold heapLt at hlt
              simpa using hlt
            intro i' j' a' b' hedge hA' hB'
            by_cases hj'i : j' = i
            · rw [hj'i] at hB' hedge
              have hi'p : i' = (i - 1) / 2 := by
                have h0' : i ≠ 0 := h0
                omega
              rw [hi'p, hB] at hA'
              injection hA' with h1
              rw [hA] at hB'
              injection hB' with h2
              rw [← h1, ← h2]
              exact le_of_not_lt hnlt
            · exact hex i' j' a' b' hedge hj'i hA' hB'

theorem push_perm (data : List HeapNode) (item : HeapNode) :
    (MinHeap.push data item).Perm (item :: data) := by
  unfold MinHeap.push
  exact (bubbleUp_perm _ _ _).trans (List.perm_append_singleton item data)

theorem push_heapOrdered (data : List HeapNode) (item : HeapNode)
    (hord : heapOrdered data) : heapOrdered (MinHeap.push data item) := by
  unfold MinHeap.push
  refine bubbleUp_heapOrdered _ _ _ (by omega) ?_ ?_
  · intro i j a b hedge hne hA hB
    have hjlen : j < (data ++ [item]).length := (List.getElem?_eq_some.mp hB).1
    rw [List.length_append, List.length_singleton] at hjlen
    have hj : j < data.length := by omega
    have hi : i < data.length := by omega
    rw [List.getElem?_append_left hj] at hB
    rw [List.getElem?_append_left hi] at hA
    exact hord i j a b hedge hA hB
  · intro hne c a b hc hA hB
    have hclen : c < (data ++ [item]).length := (List.getElem?_eq_some.mp hB).1
    rw [List.length_append, List.length_singleton] at hclen
    omega

/-- Heap order everywhere except on the edges OUT OF the hole index. -/
def heapExceptDown (l : List HeapNode) (hole : ℕ) : Prop :=
  ∀ i j a b, (j = 2 * i + 1 ∨ j = 2 * i + 2) → i ≠ hole → l[i]? = some a →
    l[j]? = some b → a.f ≤ b.f

/-- One `sinkDown` swap step preserves the sift-down invariant (the hole
moves to the smaller child). -/
theorem sinkDown_swap_inv (data : List HeapNode) (i s2 : ℕ) (a b : HeapNode)
    (hs2 : s2 = 2 * i + 1 ∨ s2 = 2 * i + 2)
    (hI : data[i]? = some a) (hS : data[s2]? = some b)
    (hba : b.f < a.f)
    (hmin : ∀ j x, (j = 2 * i + 1 ∨ j = 2 * i + 2) → data[j]? = some x → b.f ≤ x.f)
    (hex : heapExceptDown data i) (hgp : i ≠ 0 → gpBound data i) :
    heapExceptDown ((data.set i b).set s2 a) s2 ∧
      (s2 ≠ 0 → gpBound ((data.set i b).set s2 a) s2) := by
  have hsi : s2 ≠ i := by omega
  have hswap := swap_getElem data i s2 a b hsi hI hS
  constructor
  · intro i' j' a' b' hedge hi'ne hA' hB'
    rw [hswap i'] at hA'
    rw [hswap j'] at hB'
    by_cases hi'i : i' = i
    · rw [hi'i] at hA' hedge
      rw [if_neg (Ne.symm hsi), if_pos rfl] at hA'
      injection hA' with hA''
      by_cases hj's : j' = s2
      · rw [hj's, if_pos rfl] at hB'
        injection hB' with hB''
        rw [← hA'', ← hB'']
        exact le_of_lt hba
      · have hj'i : j' ≠ i := by omega
        rw [if_neg hj's, if_neg hj'i] at hB'
        rw [← hA'']
        exact hmin j' b' hedge hB'
    · by_cases hj'i : j' = i
      · rw [hj'i] at hB' hedge
        have hine : i ≠ 0 := by omega
        have hi'par : i' = (i - 1) / 2 := by omega
        have hi's : i' ≠ s2 := hi'ne
        rw [if_neg hi's, if_neg hi'i] at hA'
        rw [if_neg (Ne.symm hsi), if_pos rfl] at hB'
        injection hB' with hB''
        rw [← hB'']
        rw [hi'par] at hA'
        exact hgp hine s2 a' b hs2 hA' hS
      · by_cases hj's : j' = s2
        · exfalso
          omega
        · rw [if_neg hi'ne, if_neg hi'i] at hA'
          rw [if_neg hj's, if_neg hj'i] at hB'
          exact hex i' j' a' b' hedge hi'i hA' hB'
  · intro hs2ne c a' b' hc hA' hB'
    rw [hswap ((s2 - 1) / 2)] at hA'
    rw [hswap c] at hB'
    have hps2 : (s2 - 1) / 2 = i := by omega
    rw [hps2, if_neg (Ne.symm hsi), if_pos rfl] at hA'
    injection hA' with hA''
    have hcs : c ≠ s2 := by omega
    have hci : c ≠ i := by omega
    rw [if_neg hcs, if_neg hci] at hB'
    rw [← hA'']
    exact hex s2 c b b' hc hsi hS hB'

theorem sinkDown_perm (fuel : ℕ) : ∀ (data : List HeapNode) (i : ℕ),
    (sinkDown fuel data i).Perm data := by
  induction fuel with
  | zero =>
    intro data i
    exact List.Perm.refl data
  | succ fuel ih =>
    intro data i
    rw [sinkDown]
    split
    · exact List.Perm.refl data
    · next hs2 =>
      split
      · next a b hA hB =>
        exact (ih _ _).trans (set_set_perm_ne data i _ a b (fun hc => hs2 hc.symm) hA hB)
      · exact List.Perm.refl data

theorem heapLt_true {a b : HeapNode} (h : heapLt a b = true) : a.f < b.f := by
  unfold heapLt at h
  exact of_decide_eq_true h

theorem heapLt_false {a b : HeapNode} (h : ¬ heapLt a b = true) : b.f ≤ a.f := by
  unfold heapLt at h
  simp only [decide_eq_true_eq] at h
  exact le_of_not_lt h

theorem sinkDown_heapOrdered (fuel : ℕ) : ∀ (data : List HeapNode) (i : ℕ),
    data.length ≤ fuel + i → heapExceptDown data i → (i ≠ 0 → gpBound data i) →
    heapOrdered (sinkDown fuel data i) := by
  induction fuel with
  | zero =>
    intro data i hlen hex hgp
    rw [sinkDown]
    intro i' j' a' b' hedge hA' hB'
    have hi'len := (List.getElem?_eq_some.mp hA').1
    exact hex i' j' a' b' hedge (by omega) hA' hB'
  | succ fuel ih =>
    intro data i hlen hex hgp
    rw [sinkDown]
    rcases hI : data[i]? with _ | c
    · have hilen : data.length ≤ i := by
        by_contra hc
        rw [List.getElem?_eq_getElem (Nat.lt_of_not_le hc)] at hI
        exact Option.noConfusion hI
      have hL : data[2 * i + 1]? = none := List.getElem?_eq_none_iff.mpr (by omega)
      have hR : data[2 * i + 2]? = none := List.getElem?_eq_none_iff.mpr (by omega)
      rw [hL, hR]
      dsimp only
      rw [if_pos rfl]
      intro i' j' a' b' hedge hA' hB'
      have hi'len := (List.getElem?_eq_some.mp hA').1
      exact hex i' j' a' b' hedge (by omega) hA' hB'
    · have hilen := (List.getElem?_eq_some.mp hI).1
      rcases hL : data[2 * i + 1]? with _ | l
      · have hllen : data.length ≤ 2 * i + 1 := by
          by_contra hc
          rw [List.getElem?_eq_getElem (Nat.lt_of_not_le hc)] at hL
          exact Option.noConfusion hL
        have hR : data[2 * i + 2]? = none := List.getElem?_eq_none_iff.mpr (by omega)
        rw [hR]
        dsimp only
        rw [if_pos rfl]
        intro i' j' a' b' hedge hA' hB'
        by_cases hi'i : i' = i
        · exfalso
          have hj'len := (List.getElem?_eq_some.mp hB').1
          omega
        · exact hex i' j' a' b' hedge hi'i hA' hB'
      · rcases hR : data[2 * i + 2]? with _ | r
        · dsimp only
          by_cases hlc : heapLt l c
          · rw [if_pos hlc]
            rw [if_neg (by omega : ¬ (2 * i + 1 = i))]
            rw [hL]
            dsimp only
            have hflt := heapLt_true hlc
            have hmin : ∀ j x, (j = 2 * i + 1 ∨ j = 2 * i + 2) → data[j]? = some x →
                l.f ≤ x.f := by
              intro j x hj hx
              rcases hj with rfl | rfl
              · rw [hL] at hx
                injection hx with hx'
                rw [← hx']
              · rw [hR] at hx
                exact Option.noConfusion hx
            obtain ⟨hinv1, hinv2⟩ :=
              sinkDown_swap_inv data i (2 * i + 1) c l (Or.inl rfl) hI hL hflt hmin hex hgp
            refine ih _ _ ?_ hinv1 hinv2
            rw [List.length_set, List.length_set]
            omega
          · rw [if_neg hlc, if_pos rfl]
            have hcl := heapLt_false hlc
            intro i' j' a' b' hedge hA' hB'
            by_cases hi'i : i' = i
            · rw [hi'i] at hA' hedge
              rw [hI] at hA'
              injection hA' with h1
              rcases hedge with h | h
              · rw [h, hL] at hB'
                injection hB' with h2
                rw [← h1, ← h2]
                exact hcl
              · rw [h, hR] at hB'
                exact Option.noConfusion hB'
            · exact hex i' j' a' b' hedge hi'i hA' hB'
        · dsimp only
          by_cases hlc : heapLt l c
          · rw [if_pos hlc]
            rw [hL]
            dsimp only
            by_cases hrl : heapLt r l
            · rw [if_pos hrl, if_neg (by omega : ¬ (2 * i + 2 = i))]
              rw [hR]
              dsimp only
              have hflt : r.f < c.f := lt_trans (heapLt_true hrl) (heapLt_true hlc)
              have hmin : ∀ j x, (j = 2 * i + 1 ∨ j = 2 * i + 2) → data[j]? = some x →
                  r.f ≤ x.f := by
                intro j x hj hx
                rcases hj with rfl | rfl
                · rw [hL] at hx
                  injection hx with hx'
                  rw [← hx']
                  exact le_of_lt (heapLt_true hrl)
                · rw [hR] at hx
                  injection hx with hx'
                  rw [← hx']
              obtain ⟨hinv1, hinv2⟩ :=
                sinkDown_swap_inv data i (2 * i + 2) c r (Or.inr rfl) hI hR hflt hmin hex hgp
              refine ih _ _ ?_ hinv1 hinv2
              rw [List.length_set, List.length_set]
              omega
            · rw [if_neg hrl, if_neg (by omega : ¬ (2 * i + 1 = i))]
              rw [hL]
              dsimp only
              have hflt := heapLt_true hlc
              have hmin : ∀ j x, (j = 2 * i + 1 ∨ j = 2 * i + 2) → data[j]? = some x →
                  l.f ≤ x.f := by
                intro j x hj hx
                rcases hj with rfl | rfl
                · rw [hL] at hx
                  injection hx with hx'
                  rw [← hx']
                · rw [hR] at hx
                  injection hx with hx'
                  rw [← hx']
                  exact heapLt_false hrl
              obtain ⟨hinv1, hinv2⟩ :=
                sinkDown_swap_inv data i (2 * i + 1) c l (Or.inl rfl) hI hL hflt hmin hex hgp
              refine ih _ _ ?_ hinv1 hinv2
              rw [List.length_set, List.length_set]
              omega
          · rw [if_neg hlc]
            rw [hI]
            dsimp only
            by_cases hrc : heapLt r c
            · rw [if_pos hrc, if_neg (by omega : ¬ (2 * i + 2 = i))]
              rw [hR]
              dsimp only
              have hflt := heapLt_true hrc
              have hmin : ∀ j x, (j = 2 * i + 1 ∨ j = 2 * i + 2) → data[j]? = some x →
                  r.f ≤ x.f := by
                intro j x hj hx
                rcases hj with rfl | rfl
                · rw [hL] at hx
                  injection hx with hx'
                  rw [← hx']
                  exact le_trans (le_of_lt (heapLt_true hrc)) (heapLt_false hlc)
                · rw [hR] at hx
                  injection hx with hx'
                  rw [← hx']
              obtain ⟨hinv1, hinv2⟩ :=
                sinkDown_swap_inv data i (2 * i + 2) c r (Or.inr rfl) hI hR hflt hmin hex hgp
              refine ih _ _ ?_ hinv1 hinv2
              rw [List.length_set, List.length_set]
              omega
            · rw [if_neg hrc, if_pos rfl]
              have hcl := heapLt_false hlc
              have hcr := heapLt_false hrc
              intro i' j' a' b' hedge hA' hB'
              by_cases hi'i : i' = i
              · rw [hi'i] at hA' hedge
                rw [hI] at hA'
                injection hA' with h1
                rcases hedge with h | h
                · rw [h, hL] at hB'
                  injection hB' with h2
                  rw [← h1, ← h2]
                  exact hcl
                · rw [h, hR] at hB'
                  injection hB' with h2
                  rw [← h1, ← h2]
                  exact hcr
              · exact hex i' j' a' b' hedge hi'i hA' hB'

theorem getElem_dropLast_eq {α : Type} (l : List α) (k : ℕ) (h : k < l.length - 1) :
    l.dropLast[k]? = l[k]? := by
  rw [List.dropLast_eq_take]
  exact List.getElem?_take_of_lt h

/-- `MinHeap.pop` on a heap-ordered list returns a minimal element, the
remainder is a permutation of the rest, and it is heap-ordered again. -/
theorem pop_spec (data : List HeapNode) (hord : heapOrdered data) (top : HeapNode)
    (rest : List HeapNode) (hpop : MinHeap.pop data = some (top, rest)) :
    data.Perm (top :: rest) ∧ heapOrdered rest ∧ ∀ n ∈ data, top.f ≤ n.f := by
  have hmin : ∀ n ∈ data, data[0]? = some top → top.f ≤ n.f := by
    intro n hn htop
    obtain ⟨k, hk⟩ := List.mem_iff_getElem?.mp hn
    exact heapOrdered_root_le data hord top htop k n hk
  unfold MinHeap.pop at hpop
  rcases data with _ | ⟨t, tail⟩
  · exact Option.noConfusion hpop
  · rcases hlast : (t :: tail).getLast? with _ | last
    · rw [List.getLast?_eq_none_iff] at hlast
      exact absurd hlast (List.cons_ne_nil t tail)
    · rw [hlast] at hpop
      dsimp only at hpop
      have hdll : (t :: tail).dropLast.length = tail.length := by
        rw [List.length_dropLast, List.length_cons]
        omega
      by_cases hz : (t :: tail).dropLast.length = 0
      · rw [if_pos hz] at hpop
        injection hpop with hpair
        rw [Prod.mk.injEq] at hpair
        obtain ⟨rfl, rfl⟩ := hpair
        have htl : tail = [] := List.length_eq_zero.mp (by omega)
        subst htl
        refine ⟨by rw [List.dropLast_single], ?_, ?_⟩
        · rw [List.dropLast_single]
          intro i' j' a' b' hedge hA' hB'
          have := (List.getElem?_eq_some.mp hB').1
          simp at this
        · intro n hn
          exact hmin n hn (by simp)
      · rw [if_neg hz] at hpop
        injection hpop with hpair
        rw [Prod.mk.injEq] at hpair
        obtain ⟨rfl, rfl⟩ := hpair
        have htl : tail ≠ [] := by
          intro hc
          subst hc
          exact hz (hdll.trans rfl)
        have hdl : (t :: tail).dropLast = t :: tail.dropLast :=
          List.dropLast_cons_of_ne_nil htl
        have hlast2 : tail.getLast htl = last := by
          rw [List.getLast?_eq_getLast _ (List.cons_ne_nil t tail),
            List.getLast_cons htl] at hlast
          injection hlast
        refine ⟨?_, ?_, ?_⟩
        · refine List.Perm.cons t ?_
          have hperm := sinkDown_perm ((t :: tail).dropLast.length + 1)
            ((t :: tail).dropLast.set 0 last) 0
          refine List.Perm.trans ?_ hperm.symm
          rw [hdl]
          have hset : (t :: tail.dropLast).set 0 last = last :: tail.dropLast := rfl
          rw [hset]
          conv_lhs => rw [← List.dropLast_concat_getLast htl, hlast2]
          exact List.perm_append_singleton last tail.dropLast
        · refine sinkDown_heapOrdered _ _ _ ?_ ?_ ?_
          · rw [List.length_set]
            omega
          · intro i' j' a' b' hedge hne hA' hB'
            have hj'len := (List.getElem?_eq_some.mp hB').1
            rw [List.length_set] at hj'len
            have hi'pos : 0 < i' := Nat.pos_of_ne_zero hne
            rw [List.getElem?_set_ne (by omega)] at hA'
            rw [List.getElem?_set_ne (by omega)] at hB'
            rw [getElem_dropLast_eq _ _ (by rw [List.length_cons]; omega)] at hA'
            rw [getElem_dropLast_eq _ _ (by rw [List.length_cons]; omega)] at hB'
            exact hord i' j' a' b' hedge hA' hB'
          · intro hzero
            exact absurd rfl hzero
        · intro n hn
          exact hmin n hn (by simp)

/-- Manhattan distance between two integer cells. -/
def manhattan (a b : ℤ × ℤ) : ℕ := (a.1 - b.1).natAbs + (a.2 - b.2).natAbs

/-- In-bounds predicate on keyed cells. -/
def GameMap.inB (m : GameMap) (k : ℤ × ℤ) : Prop :=
  0 ≤ k.1 ∧ k.1 < m.width ∧ 0 ≤ k.2 ∧ k.2 < m.height

/-- The map of the claim: every tile is plains and carries no structure. -/
def allPlains (m : GameMap) : Prop :=
  ∀ x y : ℤ, (m.tiles x y).terrain = .plains ∧ (m.tiles x y).structureType = none

/-- One unit step from `a` toward `b` (first along x, then along y). -/
def stepToward (a b : ℤ × ℤ) : ℤ × ℤ :=
  if a.1 ≠ b.1 then (a.1 + (if a.1 < b.1 then 1 else -1), a.2)
  else (a.1, a.2 + (if a.2 < b.2 then 1 else -1))

theorem manhattan_triangle (a b c : ℤ × ℤ) :
    manhattan a c ≤ manhattan a b + manhattan b c := by
  unfold manhattan
  omega

theorem manhattan_comm (a b : ℤ × ℤ) : manhattan a b = manhattan b a := by
  unfold manhattan
  omega

theorem manhattan_self (a : ℤ × ℤ) : manhattan a a = 0 := by
  unfold manhattan
  omega

theorem manhattan_cast (a b : ℤ × ℤ) :
    ((manhattan a b : ℕ) : ℚ) = ((|a.1 - b.1| + |a.2 - b.2| : ℤ) : ℚ) := by
  unfold manhattan
  rw [Int.abs_eq_natAbs, Int.abs_eq_natAbs, Nat.cast_add, Int.cast_add,
    Int.cast_natCast, Int.cast_natCast]

theorem stepToward_dist {a b : ℤ × ℤ} (hab : a ≠ b) :
    manhattan a b = manhattan (stepToward a b) b + 1 ∧
      manhattan a (stepToward a b) = 1 := by
  have hab' : a.1 ≠ b.1 ∨ (a.1 = b.1 ∧ a.2 ≠ b.2) := by
    by_cases h1 : a.1 = b.1
    · refine Or.inr ⟨h1, ?_⟩
      intro h2
      exact hab (Prod.ext h1 h2)
    · exact Or.inl h1
  unfold stepToward manhattan
  rcases hab' with h1 | ⟨h1, h2⟩
  · rw [if_pos h1]
    by_cases hlt : a.1 < b.1
    · rw [if_pos hlt]
      dsimp only
      omega
    · rw [if_neg hlt]
      dsimp only
      omega
  · rw [if_neg (not_not_intro h1)]
    by_cases hlt : a.2 < b.2
    · rw [if_pos hlt]
      dsimp only
      omega
    · rw [if_neg hlt]
      dsimp only
      omega

theorem stepToward_inB {m : GameMap} {a b : ℤ × ℤ} (hab : a ≠ b)
    (ha : m.inB a) (hb : m.inB b) : m.inB (stepToward a b) := by
  obtain ⟨ha1, ha2, ha3, ha4⟩ := ha
  obtain ⟨hb1, hb2, hb3, hb4⟩ := hb
  unfold stepToward GameMap.inB
  by_cases h1 : a.1 ≠ b.1
  · rw [if_pos h1]
    by_cases hlt : a.1 < b.1
    · rw [if_pos hlt]
      dsimp only
      omega
    · rw [if_neg hlt]
      dsimp only
      omega
  · rw [if_neg h1]
    have h1' : a.1 = b.1 := not_not.mp h1
    have h2 : a.2 ≠ b.2 := by
      intro h2
      exact hab (Prod.ext h1' h2)
    by_cases hlt : a.2 < b.2
    · rw [if_pos hlt]
      dsimp only
      omega
    · rw [if_neg hlt]
      dsimp only
      omega

/-- On an all-plains map, every generated neighbor is an in-bounds
adjacent cell with unit cost. -/
theorem passable_plains_mem {m : GameMap} (hpl : allPlains m) {x y nx ny : ℤ} {c : ℚ}
    (h : (nx, ny, c) ∈ MapGenerator.getPassableNeighbors m x y) :
    m.inB (nx, ny) ∧ manhattan (x, y) (nx, ny) = 1 ∧ c = 1 := by
  unfold MapGenerator.getPassableNeighbors at h
  rw [List.mem_filterMap] at h
  obtain ⟨d, hd, hfd⟩ := h
  dsimp only at hfd
  by_cases hob : x + d.1 < 0 ∨ y + d.2 < 0 ∨ m.width ≤ x + d.1 ∨ m.height ≤ y + d.2
  · rw [if_pos hob] at hfd
    exact Option.noConfusion hfd
  · rw [if_neg hob] at hfd
    obtain ⟨hter, hstr⟩ := hpl (x + d.1) (y + d.2)
    rw [if_neg (by simp [hter])] at hfd
    rw [if_neg (by simp [hstr]), if_neg (by simp [hter]), if_neg (by simp [hter])] at hfd
    injection hfd with h1
    rw [Prod.mk.injEq] at h1
    obtain ⟨hx1, h2⟩ := h1
    rw [Prod.mk.injEq] at h2
    obtain ⟨hy1, hc1⟩ := h2
    push_neg at hob
    simp only [List.mem_cons, List.not_mem_nil, or_false] at hd
    refine ⟨⟨by omega, by omega, by omega, by omega⟩, ?_, hc1.symm⟩
    unfold manhattan
    rcases hd with rfl | rfl | rfl | rfl
    all_goals
      dsimp only at hx1 hy1 ⊢
      omega

/-- On an all-plains map, every in-bounds adjacent cell is generated as a
neighbor with unit cost. -/
theorem passable_plains_mem_of {m : GameMap} (hpl : allPlains m) {x y nx ny : ℤ}
    (hin : m.inB (nx, ny)) (hadj : manhattan (x, y) (nx, ny) = 1) :
    (nx, ny, (1 : ℚ)) ∈ MapGenerator.getPassableNeighbors m x y := by
  obtain ⟨hin1, hin2, hin3, hin4⟩ := hin
  unfold MapGenerator.getPassableNeighbors
  rw [List.mem_filterMap]
  have hd4 : (nx = x + -1 ∧ ny = y + 0) ∨ (nx = x + 1 ∧ ny = y + 0) ∨
      (nx = x + 0 ∧ ny = y + -1) ∨ (nx = x + 0 ∧ ny = y + 1) := by
    unfold manhattan at hadj
    dsimp only at hadj
    omega
  have hstep : ∀ dx dy : ℤ, nx = x + dx → ny = y + dy →
      (dx, dy) ∈ [((-1 : ℤ), (0 : ℤ)), (1, 0), (0, -1), (0, 1)] →
      ∃ d ∈ [((-1 : ℤ), (0 : ℤ)), (1, 0), (0, -1), (0, 1)],
        (fun d : ℤ × ℤ =>
          if x + d.1 < 0 ∨ y + d.2 < 0 ∨ m.width ≤ x + d.1 ∨ m.height ≤ y + d.2 then none
          else
            let tile := m.tiles (x + d.1) (y + d.2)
            if tile.terrain = .mountain then none
            else
              let cost : ℚ :=
                if tile.structureType = some .road then 3/5
                else if tile.terrain = .water then 5/2
                else if tile.terrain = .forest then 3/2
                else 1
              some (x + d.1, y + d.2, cost)) d = some (nx, ny, 1) := by
    intro dx dy hdx hdy hmem
    refine ⟨(dx, dy), hmem, ?_⟩
    dsimp only
    obtain ⟨hter, hstr⟩ := hpl (x + dx) (y + dy)
    rw [if_neg (by omega)]
    rw [if_neg (by simp [hter])]
    rw [if_neg (by simp [hstr]), if_neg (by simp [hter]), if_neg (by simp [hter])]
    rw [hdx, hdy]
  rcases hd4 with ⟨h1, h2⟩ | ⟨h1, h2⟩ | ⟨h1, h2⟩ | ⟨h1, h2⟩
  · exact hstep (-1) 0 h1 h2 (by simp)
  · exact hstep 1 0 h1 h2 (by simp)
  · exact hstep 0 (-1) h1 h2 (by simp)
  · exact hstep 0 1 h1 h2 (by simp)

/-- The A* loop invariant over the open heap, `gScore`, `cameFrom` and the
visited set, for an all-plains search from `startKey` toward `endKey`. -/
structure AStarInv (m : GameMap) (startKey endKey : ℤ × ℤ) (st : AStarState)
    (visited : List (ℤ × ℤ)) : Prop where
  hord : heapOrdered st.openSet
  heapF : ∀ n ∈ st.openSet, n.f = n.g + (manhattan (n.x, n.y) endKey : ℚ)
  heapG : ∀ n ∈ st.openSet, ∃ g, alGet st.gScore (n.x, n.y) = some g ∧ g ≤ n.g
  cover : ∀ w gw, w ∉ visited → alGet st.gScore w = some gw →
    ∃ n ∈ st.openSet, (n.x, n.y) = w ∧ n.g = gw
  lb : ∀ k g, alGet st.gScore k = some g → (manhattan startKey k : ℚ) ≤ g
  inb : ∀ k g, alGet st.gScore k = some g → m.inB k
  start0 : alGet st.gScore startKey = some 0
  chain : ∀ k g, alGet st.gScore k = some g → k = startKey ∨
    ∃ p gp, alGet st.cameFrom k = some p ∧ alGet st.gScore p = some gp ∧
      gp + 1 ≤ g ∧ manhattan p k = 1
  vis : ∀ v ∈ visited, ∃ gv, alGet st.gScore v = some gv ∧
    gv ≤ (manhattan startKey v : ℚ)
  visInb : ∀ v ∈ visited, m.inB v

/-- Relaxing a neighbor never touches other keys' `gScore`. -/
theorem relax_gScore_ne (e1 e2 : ℤ) (current : ℤ × ℤ) (g : ℚ)
    (visited : List (ℤ × ℤ)) (st : AStarState) (nb : ℤ × ℤ × ℚ) (k : ℤ × ℤ)
    (hk : k ≠ (nb.1, nb.2.1)) :
    alGet (relaxNeighbor e1 e2 current g visited st nb).gScore k =
      alGet st.gScore k := by
  unfold relaxNeighbor
  by_cases hc : visited.contains (nb.1, nb.2.1)
  · rw [if_pos hc]
  · rw [if_neg hc]
    dsimp only
    by_cases hb : (match alGet st.gScore (nb.1, nb.2.1) with
      | some gEx => decide (g + nb.2.2 < gEx)
      | none => true) = true
    · rw [if_pos hb]
      exact alGet_alSet_ne _ _ _ _ hk
    · rw [if_neg hb]

/-- Relaxing a neighbor only ever decreases the recorded `gScore`s. -/
theorem relax_mono (e1 e2 : ℤ) (current : ℤ × ℤ) (g : ℚ)
    (visited : List (ℤ × ℤ)) (st : AStarState) (nb : ℤ × ℤ × ℚ) (k : ℤ × ℤ)
    (g0 : ℚ) (h : alGet st.gScore k = some g0) :
    ∃ g1, alGet (relaxNeighbor e1 e2 current g visited st nb).gScore k = some g1 ∧
      g1 ≤ g0 := by
  by_cases hk : k = (nb.1, nb.2.1)
  · unfold relaxNeighbor
    by_cases hc : visited.contains (nb.1, nb.2.1)
    · rw [if_pos hc]
      exact ⟨g0, h, le_refl g0⟩
    · rw [if_neg hc]
      dsimp only
      rw [hk] at h
      rw [h]
      dsimp only
      by_cases hb : g + nb.2.2 < g0
      · rw [if_pos (decide_eq_true hb)]
        refine ⟨g + nb.2.2, ?_, le_of_lt hb⟩
        rw [hk, alGet_alSet_self]
      · rw [if_neg (by simpa using hb)]
        rw [← hk] at h
        exact ⟨g0, h, le_refl g0⟩
  · rw [relax_gScore_ne _ _ _ _ _ _ _ _ hk]
    exact ⟨g0, h, le_refl g0⟩

/-- One neighbor relaxation preserves the A* invariant, given that the
expanding node's recorded score is at most the heap `g` used and the
neighbor is an in-bounds unit-cost adjacent cell. -/
theorem relax_pres (m : GameMap) (startKey endKey current : ℤ × ℤ) (g gc : ℚ)
    (visited : List (ℤ × ℤ)) (st : AStarState) (nb : ℤ × ℤ × ℚ)
    (hinv : AStarInv m startKey endKey st visited)
    (hgc : alGet st.gScore current = some gc) (hgcg : gc ≤ g)
    (hnbI : m.inB (nb.1, nb.2.1)) (hnbA : manhattan current (nb.1, nb.2.1) = 1)
    (hnbC : nb.2.2 = 1) :
    AStarInv m startKey endKey
      (relaxNeighbor endKey.1 endKey.2 current g visited st nb) visited := by
  unfold relaxNeighbor
  by_cases hc : visited.contains (nb.1, nb.2.1)
  · rw [if_pos hc]
    exact hinv
  · rw [if_neg hc]
    dsimp only
    have hnmem : (nb.1, nb.2.1) ∉ visited := fun hm => hc (List.elem_iff.mpr hm)
    have hlbc := hinv.lb current gc hgc
    have htri : (manhattan startKey (nb.1, nb.2.1) : ℚ) ≤
        (manhattan startKey current : ℚ) + 1 := by
      have h := manhattan_triangle startKey current (nb.1, nb.2.1)
      rw [hnbA] at h
      exact_mod_cast h
    have htent : (manhattan startKey (nb.1, nb.2.1) : ℚ) ≤ g + nb.2.2 := by
      rw [hnbC]
      have h0 : (0 : ℚ) ≤ (manhattan startKey current : ℚ) := Nat.cast_nonneg _
      linarith
    have hcurne : current ≠ (nb.1, nb.2.1) := by
      intro h
      rw [← h, manhattan_self] at hnbA
      exact Nat.noConfusion hnbA
    by_cases hb : (match alGet st.gScore (nb.1, nb.2.1) with
      | some gEx => decide (g + nb.2.2 < gEx)
      | none => true) = true
    · rw [if_pos hb]
      have hsmall : ∀ gEx, alGet st.gScore (nb.1, nb.2.1) = some gEx →
          g + nb.2.2 < gEx := by
        intro gEx hg
        rw [hg] at hb
        exact of_decide_eq_true hb
      have hstartne : (nb.1, nb.2.1) ≠ startKey := by
        intro h
        have h0 := hinv.start0
        rw [← h] at h0
        have hlt := hsmall 0 h0
        rw [hnbC] at hlt
        have hge : (0 : ℚ) ≤ gc :=
          le_trans (Nat.cast_nonneg (manhattan startKey current)) hlbc
        linarith
      have hpp := push_perm st.openSet
        ⟨nb.1, nb.2.1, g + nb.2.2 + ((|endKey.1 - nb.1| + |endKey.2 - nb.2.1| : ℤ) : ℚ),
          g + nb.2.2⟩
      refine ⟨?_, ?_, ?_, ?_, ?_, ?_, ?_, ?_, ?_, ?_⟩
      · exact push_heapOrdered _ _ hinv.hord
      · intro n hn
        rcases List.mem_cons.mp (hpp.mem_iff.mp hn) with rfl | hmem
        · dsimp only
          rw [manhattan_cast, abs_sub_comm nb.1 endKey.1, abs_sub_comm nb.2.1 endKey.2]
        · exact hinv.heapF n hmem
      · intro n hn
        rcases List.mem_cons.mp (hpp.mem_iff.mp hn) with rfl | hmem
        · dsimp only
          exact ⟨g + nb.2.2, alGet_alSet_self _ _ _, le_refl _⟩
        · obtain ⟨ge, hge, hgele⟩ := hinv.heapG n hmem
          by_cases hk : (n.x, n.y) = (nb.1, nb.2.1)
          · rw [hk, alGet_alSet_self]
            refine ⟨g + nb.2.2, rfl, ?_⟩
            rw [hk] at hge
            exact le_trans (le_of_lt (hsmall ge hge)) hgele
          · rw [alGet_alSet_ne _ _ _ _ hk]
            exact ⟨ge, hge, hgele⟩
      · intro w gw hw hgw
        by_cases hk : w = (nb.1, nb.2.1)
        · rw [hk, alGet_alSet_self] at hgw
          injection hgw with hgw'
          refine ⟨⟨nb.1, nb.2.1,
            g + nb.2.2 + ((|endKey.1 - nb.1| + |endKey.2 - nb.2.1| : ℤ) : ℚ),
            g + nb.2.2⟩, hpp.mem_iff.mpr (List.mem_cons_self _ _), ?_, ?_⟩
          · rw [hk]
          · rw [← hgw']
        · rw [alGet_alSet_ne _ _ _ _ hk] at hgw
          obtain ⟨n, hnmem2, hnkey, hng⟩ := hinv.cover w gw hw hgw
          exact ⟨n, hpp.mem_iff.mpr (List.mem_cons_of_mem _ hnmem2), hnkey, hng⟩
      · intro k gk hgk
        by_cases hk : k = (nb.1, nb.2.1)
        · rw [hk, alGet_alSet_self] at hgk
          injection hgk with hgk'
          rw [hk, ← hgk']
          exact htent
        · rw [alGet_alSet_ne _ _ _ _ hk] at hgk
          exact hinv.lb k gk hgk
      · intro k gk hgk
        by_cases hk : k = (nb.1, nb.2.1)
        · rw [hk]
          exact hnbI
        · rw [alGet_alSet_ne _ _ _ _ hk] at hgk
          exact hinv.inb k gk hgk
      · rw [alGet_alSet_ne _ _ _ _ (Ne.symm hstartne)]
        exact hinv.start0
      · intro k gk hgk
        by_cases hk : k = (nb.1, nb.2.1)
        · rw [hk, alGet_alSet_self] at hgk
          injection hgk with hgk'
          refine Or.inr ⟨current, gc, ?_, ?_, ?_, ?_⟩
          · rw [hk, alGet_alSet_self]
          · rw [alGet_alSet_ne _ _ _ _ hcurne]
            exact hgc
          · rw [← hgk', hnbC]
            linarith
          · rw [hk]
            exact hnbA
        · rw [alGet_alSet_ne _ _ _ _ hk] at hgk
          rcases hinv.chain k gk hgk with h | ⟨p, gp, hcf, hgp, hle, hadj⟩
          · exact Or.inl h
          · refine Or.inr ⟨p, ?_⟩
            rw [alGet_alSet_ne _ _ _ _ hk]
            by_cases hpk : p = (nb.1, nb.2.1)
            · refine ⟨g + nb.2.2, hcf, ?_, ?_, hadj⟩
              · rw [hpk, alGet_alSet_self]
              · rw [hpk] at hgp
                have := hsmall gp hgp
                linarith
            · refine ⟨gp, hcf, ?_, hle, hadj⟩
              rw [alGet_alSet_ne _ _ _ _ hpk]
              exact hgp
      · intro v hv
        obtain ⟨gv, hgv, hgvle⟩ := hinv.vis v hv
        refine ⟨gv, ?_, hgvle⟩
        have hvne : v ≠ (nb.1, nb.2.1) := by
          intro hveq
          rw [hveq] at hv
          exact hnmem hv
        rw [alGet_alSet_ne _ _ _ _ hvne]
        exact hgv
      · exact hinv.visInb
    · rw [if_neg hb]
      exact hinv

/-- After relaxing a neighbor of an optimally-scored expanding node, the
neighbor's recorded score is defined and at most `dist(current) + 1`. -/
theorem relax_bound (m : GameMap) (startKey endKey current : ℤ × ℤ) (g gc : ℚ)
    (visited : List (ℤ × ℤ)) (st : AStarState) (nb : ℤ × ℤ × ℚ)
    (hinv : AStarInv m startKey endKey st visited)
    (hgeq : g = gc) (hgcM : gc ≤ (manhattan startKey current : ℚ))
    (hnbA : manhattan current (nb.1, nb.2.1) = 1) (hnbC : nb.2.2 = 1) :
    ∃ gw, alGet (relaxNeighbor endKey.1 endKey.2 current g visited st nb).gScore
        (nb.1, nb.2.1) = some gw ∧ gw ≤ (manhattan startKey current : ℚ) + 1 := by
  have htri : (manhattan startKey (nb.1, nb.2.1) : ℚ) ≤
      (manhattan startKey current : ℚ) + 1 := by
    have h := manhattan_triangle startKey current (nb.1, nb.2.1)
    rw [hnbA] at h
    exact_mod_cast h
  unfold relaxNeighbor
  by_cases hc : visited.contains (nb.1, nb.2.1)
  · rw [if_pos hc]
    obtain ⟨gv, hgv, hgvle⟩ := hinv.vis _ (List.elem_iff.mp hc)
    exact ⟨gv, hgv, le_trans hgvle htri⟩
  · rw [if_neg hc]
    dsimp only
    by_cases hb : (match alGet st.gScore (nb.1, nb.2.1) with
      | some gEx => decide (g + nb.2.2 < gEx)
      | none => true) = true
    · rw [if_pos hb]
      refine ⟨g + nb.2.2, alGet_alSet_self _ _ _, ?_⟩
      rw [hnbC, hgeq]
      linarith
    · rw [if_neg hb]
      rcases hg : alGet st.gScore (nb.1, nb.2.1) with _ | gEx
      · exfalso
        apply hb
        rw [hg]
      · refine ⟨gEx, rfl, ?_⟩
        have hnlt : ¬ (g + nb.2.2 < gEx) := by
          intro hlt
          apply hb
          rw [hg]
          exact decide_eq_true hlt
        have hle := le_of_not_lt hnlt
        rw [hnbC, hgeq] at hle
        linarith

/-- Folding the relaxation over a neighbor list preserves the invariant,
only decreases scores, and bounds every processed neighbor's score. -/
theorem fold_relax (m : GameMap) (startKey endKey current : ℤ × ℤ) (g gc : ℚ)
    (visited : List (ℤ × ℤ)) (hgeq : g = gc)
    (hgcM : gc ≤ (manhattan startKey current : ℚ)) :
    ∀ (nbs : List (ℤ × ℤ × ℚ)) (st : AStarState),
      AStarInv m startKey endKey st visited →
      alGet st.gScore current = some gc →
      (∀ nb ∈ nbs, m.inB (nb.1, nb.2.1) ∧ manhattan current (nb.1, nb.2.1) = 1 ∧
        nb.2.2 = 1) →
      AStarInv m startKey endKey
        (nbs.foldl (relaxNeighbor endKey.1 endKey.2 current g visited) st) visited ∧
      (∀ k g0, alGet st.gScore k = some g0 →
        ∃ g1, alGet ((nbs.foldl (relaxNeighbor endKey.1 endKey.2 current g visited)
          st).gScore) k = some g1 ∧ g1 ≤ g0) ∧
      (∀ nb ∈ nbs, ∃ gw, alGet ((nbs.foldl (relaxNeighbor endKey.1 endKey.2 current g
        visited) st).gScore) (nb.1, nb.2.1) = some gw ∧
        gw ≤ (manhattan startKey current : ℚ) + 1) := by
  intro nbs
  induction nbs with
  | nil =>
    intro st hinv hgc hnbs
    refine ⟨hinv, ?_, ?_⟩
    · intro k g0 h
      exact ⟨g0, h, le_refl g0⟩
    · intro nb h
      exact absurd h (List.not_mem_nil nb)
  | cons nb rest ih =>
    intro st hinv hgc hnbs
    obtain ⟨hnbI, hnbA, hnbC⟩ := hnbs nb (List.mem_cons_self nb rest)
    have hcurne : current ≠ (nb.1, nb.2.1) := by
      intro h
      rw [← h, manhattan_self] at hnbA
      exact Nat.noConfusion hnbA
    have hinv1 := relax_pres m startKey endKey current g gc visited st nb hinv hgc
      (le_of_eq hgeq.symm) hnbI hnbA hnbC
    have hgc1 : alGet (relaxNeighbor endKey.1 endKey.2 current g visited st
        nb).gScore current = some gc := by
      rw [relax_gScore_ne _ _ _ _ _ _ _ _ hcurne]
      exact hgc
    obtain ⟨hinvF, hmonoF, hboundF⟩ := ih _ hinv1 hgc1
      (fun nb' h => hnbs nb' (List.mem_cons_of_mem nb h))
    rw [List.foldl_cons]
    refine ⟨hinvF, ?_, ?_⟩
    · intro k g0 h
      obtain ⟨g1, h1, hle1⟩ := relax_mono endKey.1 endKey.2 current g visited st nb
        k g0 h
      obtain ⟨g2, h2, hle2⟩ := hmonoF k g1 h1
      exact ⟨g2, h2, le_trans hle2 hle1⟩
    · intro nb' hmem
      rcases List.mem_cons.mp hmem with rfl | hmem'
      · obtain ⟨gw1, hgw1, hgw1le⟩ := relax_bound m startKey endKey current g gc
          visited st nb' hinv hgeq hgcM hnbA hnbC
        obtain ⟨gw2, hgw2, hgw2le⟩ := hmonoF _ gw1 hgw1
        exact ⟨gw2, hgw2, le_trans hgw2le hgw1le⟩
      · exact hboundF nb' hmem'

theorem manhattan_eq_zero {a b : ℤ × ℤ} (h : manhattan a b = 0) : a = b := by
  unfold manhattan at h
  have h1 : a.1 = b.1 := by omega
  have h2 : a.2 = b.2 := by omega
  exact Prod.ext h1 h2

/-- The frontier lemma: for every unvisited in-bounds cell `v`, the open
heap holds a node whose `f` is at most `dist(v) + h(v)` — the first
unvisited cell on a shortest monotone path to `v` supplies it. -/
theorem frontier_node (m : GameMap) (startKey endKey : ℤ × ℤ) (st : AStarState)
    (visited : List (ℤ × ℤ)) (hinv : AStarInv m startKey endKey st visited)
    (hexpd : ∀ v ∈ visited, ∀ w, m.inB w → manhattan v w = 1 →
      ∃ gw, alGet st.gScore w = some gw ∧ gw ≤ (manhattan startKey v : ℚ) + 1)
    (hsInb : m.inB startKey) :
    ∀ (d : ℕ) (v : ℤ × ℤ), manhattan startKey v = d → m.inB v → v ∉ visited →
      ∃ n ∈ st.openSet,
        n.f ≤ ((manhattan startKey v + manhattan v endKey : ℕ) : ℚ) := by
  intro d
  induction d using Nat.strong_induction_on with
  | _ d ih =>
    intro v hd hvInb hvnot
    rcases Nat.eq_zero_or_pos d with rfl | hdpos
    · have hveq : startKey = v := manhattan_eq_zero hd
      subst hveq
      obtain ⟨n, hnmem, hnkey, hng⟩ := hinv.cover startKey 0 hvnot hinv.start0
      refine ⟨n, hnmem, ?_⟩
      have hf := hinv.heapF n hnmem
      rw [hnkey] at hf
      rw [hf, hng, manhattan_self]
      push_cast
      linarith
    · have hvne : v ≠ startKey := by
        intro h
        rw [h, manhattan_self] at hd
        omega
      obtain ⟨hdist, hadj⟩ := stepToward_dist hvne
      have huInb : m.inB (stepToward v startKey) := stepToward_inB hvne hvInb hsInb
      have hdu : manhattan startKey (stepToward v startKey) = d - 1 := by
        have h1 : manhattan v startKey = d := by
          rw [manhattan_comm]
          exact hd
        have hc1 : manhattan startKey (stepToward v startKey) =
            manhattan (stepToward v startKey) startKey := manhattan_comm _ _
        omega
      have huv : manhattan (stepToward v startKey) v = 1 := by
        rw [manhattan_comm]
        exact hadj
      by_cases huvis : stepToward v startKey ∈ visited
      · obtain ⟨gv, hgv, hgvle⟩ := hexpd _ huvis v hvInb huv
        obtain ⟨n, hnmem, hnkey, hng⟩ := hinv.cover v gv hvnot hgv
        refine ⟨n, hnmem, ?_⟩
        have hf := hinv.heapF n hnmem
        rw [hnkey] at hf
        rw [hf, hng]
        have hgvd : gv ≤ (manhattan startKey v : ℚ) := by
          rw [hdu] at hgvle
          rw [hd]
          have hcast : ((d - 1 : ℕ) : ℚ) + 1 = (d : ℚ) := by
            have : (1 : ℕ) ≤ d := hdpos
            push_cast [Nat.cast_sub this]
            ring
          rw [hcast] at hgvle
          exact hgvle
        push_cast
        linarith
      · obtain ⟨n, hnmem, hnf⟩ := ih (d - 1) (by omega) _ hdu huInb huvis
        refine ⟨n, hnmem, ?_⟩
        refine le_trans hnf ?_
        have hstep : manhattan startKey (stepToward v startKey) +
            manhattan (stepToward v startKey) endKey ≤
            manhattan startKey v + manhattan v endKey := by
          have ht := manhattan_triangle (stepToward v startKey) v endKey
          omega
        exact_mod_cast hstep

/-- Walking `cameFrom` from a scored key counts: at least the Manhattan
distance to the start (each hop is adjacent) and at most the recorded
score (each hop costs one). -/
theorem reconstruct_len (cameFrom : List ((ℤ × ℤ) × (ℤ × ℤ)))
    (gS : List ((ℤ × ℤ) × ℚ)) (startKey : ℤ × ℤ)
    (hchain : ∀ k gk, alGet gS k = some gk → k = startKey ∨
      ∃ p gp, alGet cameFrom k = some p ∧ alGet gS p = some gp ∧ gp + 1 ≤ gk ∧
        manhattan p k = 1)
    (hstart0 : alGet gS startKey = some 0) :
    ∀ (fuel : ℕ) (key : ℤ × ℤ) (acc res : List (ℤ × ℤ)) (gk : ℚ),
      alGet gS key = some gk →
      reconstructPath cameFrom startKey fuel key acc = some res →
      (acc.length + manhattan startKey key ≤ res.length ∧
        (res.length : ℚ) ≤ (acc.length : ℚ) + gk) := by
  intro fuel
  induction fuel with
  | zero =>
    intro key acc res gk hg hr
    rw [reconstructPath] at hr
    exact Option.noConfusion hr
  | succ fuel ih =>
    intro key acc res gk hg hr
    rw [reconstructPath] at hr
    by_cases hks : key = startKey
    · rw [if_pos hks] at hr
      injection hr with hres
      subst hres
      constructor
      · rw [hks, manhattan_self]
        omega
      · rw [hks, hstart0] at hg
        injection hg with hg0
        rw [← hg0]
        linarith
    · rw [if_neg hks] at hr
      rcases hchain key gk hg with h | ⟨p, gp, hcf, hgp, hle, hadj⟩
      · exact absurd h hks
      · rw [hcf] at hr
        dsimp only at hr
        obtain ⟨h1, h2⟩ := ih p (key :: acc) res gp hgp hr
        constructor
        · rw [List.length_cons] at h1
          have ht := manhattan_triangle startKey p key
          omega
        · rw [List.length_cons] at h2
          push_cast at h2 ⊢
          linarith

/-- The A* loop on an all-plains map: any returned path has length equal
to the Manhattan distance from start to end. -/
theorem findPathLoop_spec (m : GameMap) (startKey endKey : ℤ × ℤ)
    (hpl : allPlains m) (hsInb : m.inB startKey) (heInb : m.inB endKey) :
    ∀ (fuel : ℕ) (st : AStarState) (visited : List (ℤ × ℤ)) (p : List (ℤ × ℤ)),
      AStarInv m startKey endKey st visited →
      (∀ v ∈ visited, ∀ w, m.inB w → manhattan v w = 1 →
        ∃ gw, alGet st.gScore w = some gw ∧ gw ≤ (manhattan startKey v : ℚ) + 1) →
      endKey ∉ visited →
      findPathLoop m startKey endKey endKey.1 endKey.2 fuel st visited = some p →
      p.length = manhattan startKey endKey := by
  intro fuel
  induction fuel with
  | zero =>
    intro st visited p _ _ _ hr
    rw [findPathLoop] at hr
    exact Option.noConfusion hr
  | succ fuel ih =>
    intro st visited p hinv hexpd hendnv hr
    rw [findPathLoop] at hr
    rcases hpop : MinHeap.pop st.openSet with _ | ⟨current, openRest⟩
    · rw [hpop] at hr
      exact Option.noConfusion hr
    · rw [hpop] at hr
      dsimp only at hr
      obtain ⟨hperm, hordrest, hmin⟩ := pop_spec st.openSet hinv.hord current openRest hpop
      have hcur_mem : current ∈ st.openSet := hperm.mem_iff.mpr (List.mem_cons_self _ _)
      by_cases hck : ((current.x, current.y) : ℤ × ℤ) = endKey
      · rw [if_pos hck] at hr
        obtain ⟨ge, hge, hgel⟩ := hinv.heapG current hcur_mem
        rw [hck] at hge
        obtain ⟨n, hnmem, hnf⟩ := frontier_node m startKey endKey st visited hinv hexpd
          hsInb (manhattan startKey endKey) endKey rfl heInb hendnv
        have hminn := hmin n hnmem
        have hcf := hinv.heapF current hcur_mem
        rw [hck, manhattan_self] at hcf
        have hfe : current.f = current.g := by
          rw [hcf]
          simp
        rw [manhattan_self] at hnf
        have hgeM : ge = (manhattan startKey endKey : ℚ) := by
          have hub : current.g ≤ (manhattan startKey endKey : ℚ) := by
            have h2 := le_trans hminn hnf
            rw [hfe] at h2
            simpa using h2
          have hlb' := hinv.lb endKey ge hge
          have h3 := le_trans hgel hub
          linarith
        obtain ⟨hlow, hhigh⟩ := reconstruct_len st.cameFrom st.gScore startKey
          hinv.chain hinv.start0 (st.cameFrom.length + 1) endKey [] p ge hge hr
        rw [hgeM] at hhigh
        simp only [List.length_nil, Nat.cast_zero, zero_add] at hlow hhigh
        have h2 : p.length ≤ manhattan startKey endKey := by exact_mod_cast hhigh
        omega
      · rw [if_neg hck] at hr
        by_cases hvc : visited.contains ((current.x, current.y) : ℤ × ℤ)
        · rw [if_pos hvc] at hr
          have hcmem := List.elem_iff.mp hvc
          refine ih { st with openSet := openRest } visited p
            ⟨hordrest, ?_, ?_, ?_, hinv.lb, hinv.inb, hinv.start0, hinv.chain,
              hinv.vis, hinv.visInb⟩ hexpd hendnv hr
          · intro n hn
            exact hinv.heapF n (hperm.mem_iff.mpr (List.mem_cons_of_mem _ hn))
          · intro n hn
            exact hinv.heapG n (hperm.mem_iff.mpr (List.mem_cons_of_mem _ hn))
          · intro w gw hw hgw
            obtain ⟨n, hnmem, hnkey, hng⟩ := hinv.cover w gw hw hgw
            rcases List.mem_cons.mp (hperm.mem_iff.mp hnmem) with rfl | hmem
            · exfalso
              rw [hnkey] at hcmem
              exact hw hcmem
            · exact ⟨n, hmem, hnkey, hng⟩
        · rw [if_neg hvc] at hr
          have hnmem2 : ((current.x, current.y) : ℤ × ℤ) ∉ visited :=
            fun hm => hvc (List.elem_iff.mpr hm)
          obtain ⟨gcur, hgcur, hgcurle⟩ := hinv.heapG current hcur_mem
          obtain ⟨n2, hn2mem, hn2key, hn2g⟩ := hinv.cover _ gcur hnmem2 hgcur
          have hfc := hinv.heapF current hcur_mem
          have hfn2 := hinv.heapF n2 hn2mem
          rw [hn2key] at hfn2
          have hfresh : gcur = current.g := by
            have h1 := hmin n2 hn2mem
            rw [hfc, hfn2, hn2g] at h1
            have h2 : current.g ≤ gcur := by linarith
            exact le_antisymm hgcurle h2
          have hcurInb : m.inB (current.x, current.y) := hinv.inb _ gcur hgcur
          obtain ⟨n3, hn3mem, hn3f⟩ := frontier_node m startKey endKey st visited hinv
            hexpd hsInb (manhattan startKey (current.x, current.y)) _ rfl hcurInb hnmem2
          have hopt : gcur ≤ (manhattan startKey (current.x, current.y) : ℚ) := by
            have h1 := hmin n3 hn3mem
            rw [hfc] at h1
            have h2 := le_trans h1 hn3f
            rw [Nat.cast_add] at h2
            rw [hfresh]
            linarith
          have hinv0 : AStarInv m startKey endKey { st with openSet := openRest }
              ((current.x, current.y) :: visited) := by
            refine ⟨hordrest, ?_, ?_, ?_, hinv.lb, hinv.inb, hinv.start0, hinv.chain,
              ?_, ?_⟩
            · intro n hn
              exact hinv.heapF n (hperm.mem_iff.mpr (List.mem_cons_of_mem _ hn))
            · intro n hn
              exact hinv.heapG n (hperm.mem_iff.mpr (List.mem_cons_of_mem _ hn))
            · intro w gw hw hgw
              have hw' : w ∉ visited := fun hm => hw (List.mem_cons_of_mem _ hm)
              have hwne : w ≠ ((current.x, current.y) : ℤ × ℤ) := by
                intro hc
                exact hw (hc ▸ List.mem_cons_self _ _)
              obtain ⟨n, hnmem, hnkey, hng⟩ := hinv.cover w gw hw' hgw
              rcases List.mem_cons.mp (hperm.mem_iff.mp hnmem) with rfl | hmem
              · exact absurd hnkey (Ne.symm hwne)
              · exact ⟨n, hmem, hnkey, hng⟩
            · intro v hv
              rcases List.mem_cons.mp hv with rfl | hvold
              · exact ⟨gcur, hgcur, hopt⟩
              · exact hinv.vis v hvold
            · intro v hv
              rcases List.mem_cons.mp hv with rfl | hvold
              · exact hcurInb
              · exact hinv.visInb v hvold
          have hnbs : ∀ nb ∈ MapGenerator.getPassableNeighbors m current.x current.y,
              m.inB (nb.1, nb.2.1) ∧
                manhattan (current.x, current.y) (nb.1, nb.2.1) = 1 ∧ nb.2.2 = 1 := by
            intro nb hnb
            rcases nb with ⟨nx, ny, c⟩
            exact passable_plains_mem hpl hnb
          obtain ⟨hinvF, hmonoF, hboundF⟩ := fold_relax m startKey endKey
            (current.x, current.y) current.g gcur ((current.x, current.y) :: visited)
            hfresh.symm hopt (MapGenerator.getPassableNeighbors m current.x current.y)
            { st with openSet := openRest } hinv0 hgcur hnbs
          refine ih _ _ p hinvF ?_ ?_ hr
          · intro v hv w hwInb hwadj
            rcases List.mem_cons.mp hv with rfl | hvold
            · have hwmem := passable_plains_mem_of hpl hwInb hwadj
              obtain ⟨gw, hgw, hgwle⟩ := hboundF (w.1, w.2, 1) hwmem
              exact ⟨gw, hgw, hgwle⟩
            · obtain ⟨gw, hgw, hgwle⟩ := hexpd v hvold w hwInb hwadj
              obtain ⟨gw2, hgw2, hgw2le⟩ := hmonoF w gw hgw
              exact ⟨gw2, hgw2, le_trans hgw2le hgwle⟩
          · intro hmem
            rcases List.mem_cons.mp hmem with h | h
            · exact hck h.symm
            · exact hendnv h

/-- A map with a single terrain everywhere, used for concrete runs. -/
def plainsGrid (w h : ℤ) : GameMap := ⟨w, h, fun _ _ => plainTile⟩

/-- A map whose every tile is a mountain. -/
def mountainGrid (w h : ℤ) : GameMap :=
  ⟨w, h, fun _ _ => ⟨.mountain, none, none, 0, 0, none, false, 0⟩⟩

/-- Singleton `gScore` lookups determine key and value. -/
theorem alGet_singleton {κ α : Type} [DecidableEq κ] (k w : κ) (v gw : α)
    (h : alGet [(k, v)] w = some gw) : w = k ∧ gw = v := by
  by_cases hd : k = w
  · simp only [alGet, List.find?, decide_eq_true hd, Option.map_some'] at h
    injection h with h'
    exact ⟨hd.symm, h'.symm⟩
  · simp only [alGet, List.find?, decide_eq_false hd] at h
    exact Option.noConfusion h

/-- C6 (amended): `findPath` returns an empty path whenever start equals
end — even on a mountain tile; it returns `null` for a mountain target
distinct from the start; and on an all-plains map any path it returns for
distinct endpoints has length exactly the Manhattan distance (it may
instead return `null` when the `maxSteps` budget is exhausted first). -/
theorem C6_findPath_results (m : GameMap) (sx sy ex ey : ℤ) (steps : ℕ) :
    MapGenerator.findPath m sx sy sx sy steps = some [] ∧
    (¬ (sx = ex ∧ sy = ey) → (m.tiles ex ey).terrain = .mountain →
      MapGenerator.findPath m sx sy ex ey steps = none) ∧
    (allPlains m → m.inB (sx, sy) → ¬ (sx = ex ∧ sy = ey) →
      ∀ p, MapGenerator.findPath m sx sy ex ey steps = some p →
        p.length = manhattan (sx, sy) (ex, ey)) := by
  refine ⟨?_, ?_, ?_⟩
  · unfold MapGenerator.findPath
    rw [if_pos ⟨rfl, rfl⟩]
  · intro hne hmt
    unfold MapGenerator.findPath
    rw [if_neg hne]
    by_cases hb : ¬ (0 ≤ ex ∧ ex < m.width ∧ 0 ≤ ey ∧ ey < m.height)
    · rw [if_pos hb]
    · rw [if_neg hb, if_pos hmt]
  · intro hpl hsInb hne p hp
    unfold MapGenerator.findPath at hp
    rw [if_neg hne] at hp
    by_cases hb : ¬ (0 ≤ ex ∧ ex < m.width ∧ 0 ≤ ey ∧ ey < m.height)
    · rw [if_pos hb] at hp
      exact Option.noConfusion hp
    · rw [if_neg hb] at hp
      rw [if_neg (by simp [(hpl ex ey).1])] at hp
      dsimp only at hp
      have heInb : m.inB (ex, ey) := by
        push_neg at hb
        exact ⟨hb.1, hb.2.1, hb.2.2.1, hb.2.2.2⟩
      refine findPathLoop_spec m (sx, sy) (ex, ey) hpl hsInb heInb steps
        ⟨[⟨sx, sy, ((|ex - sx| + |ey - sy| : ℤ) : ℚ), 0⟩], [], [((sx, sy), 0)]⟩
        [] p ⟨?_, ?_, ?_, ?_, ?_, ?_, ?_, ?_, ?_, ?_⟩ ?_ ?_ hp
      · intro i j a b hedge hA hB
        have hj := (List.getElem?_eq_some.mp hB).1
        rw [List.length_singleton] at hj
        omega
      · intro n hn
        rw [List.mem_singleton] at hn
        subst hn
        dsimp only
        rw [manhattan_cast, abs_sub_comm sx ex, abs_sub_comm sy ey]
        ring
      · intro n hn
        rw [List.mem_singleton] at hn
        subst hn
        exact ⟨0, by simp [alGet, List.find?], le_refl 0⟩
      · intro w gw hw hgw
        obtain ⟨hwk, hgw0⟩ := alGet_singleton _ _ _ _ hgw
        refine ⟨⟨sx, sy, ((|ex - sx| + |ey - sy| : ℤ) : ℚ), 0⟩,
          List.mem_singleton.mpr rfl, ?_, ?_⟩
        · rw [hwk]
        · rw [hgw0]
      · intro k g hg
        obtain ⟨hk, hg0⟩ := alGet_singleton _ _ _ _ hg
        rw [hk, hg0, manhattan_self]
        simp
      · intro k g hg
        obtain ⟨hk, _⟩ := alGet_singleton _ _ _ _ hg
        rw [hk]
        exact hsInb
      · simp [alGet, List.find?]
      · intro k g hg
        obtain ⟨hk, _⟩ := alGet_singleton _ _ _ _ hg
        exact Or.inl hk
      · intro v hv
        exact absurd hv (List.not_mem_nil v)
      · intro v hv
        exact absurd hv (List.not_mem_nil v)
      · intro v hv
        exact absurd hv (List.not_mem_nil v)
      · exact List.not_mem_nil _

/-- Counterexample to the original C6 claim: a call whose start and end
coincide on a mountain tile returns an empty path, not `null`; and on an
all-plains map a distinct pair is reported as `null` when the step budget
runs out before the target is reached. -/
theorem C6_counterexample_mountain_and_budget :
    MapGenerator.findPath (mountainGrid 3 3) 1 1 1 1 500 = some [] ∧
    MapGenerator.findPath (plainsGrid 3 1) 0 0 2 0 1 = none := by
  constructor
  · with_unfolding_all decide
  · with_unfolding_all decide

/-- Witness for C6 at a concrete run: on a 7-by-7 all-plains map the
search from (0,0) to (2,1) returns a path of length 3, the Manhattan
distance. -/
theorem C6_findPath_results_witness :
    MapGenerator.findPath (plainsGrid 7 7) 0 0 2 1 50 =
      some [(1, 0), (1, 1), (2, 1)] ∧
    ([((1 : ℤ), (0 : ℤ)), (1, 1), (2, 1)].length =
      manhattan ((0 : ℤ), (0 : ℤ)) (2, 1)) := by
  have hp : MapGenerator.findPath (plainsGrid 7 7) 0 0 2 1 50 =
      some [(1, 0), (1, 1), (2, 1)] := by
    with_unfolding_all decide
  refine ⟨hp, ?_⟩
  exact (C6_findPath_results (plainsGrid 7 7) 0 0 2 1 50).2.2
    (fun x y => ⟨rfl, rfl⟩) ⟨by decide, by decide, by decide, by decide⟩
    (by decide) [(1, 0), (1, 1), (2, 1)] hp
